import Mathlib

/-!
# LLVMIRConversionGen: template expansion of the MLIR LLVM IR builder generator

A shallow embedding of `mlir/tools/mlir-tblgen/LLVMIRConversionGen.cpp`.

* Character sequences (`StringRef`, `std::string`, `Twine`, the text written to a
  `raw_ostream`) are lists of characters.
* `size_t` values are natural numbers; `std::string::npos` is `2 ^ 64 - 1`.  Statements that
  depend on a position not colliding with `npos` carry the hypothesis that the length of the
  string fits in a `size_t`.
* The output stream `os` and the error stream `llvm::errs()` are passed explicitly as a
  `Streams` value.
* The `while` loops of `emitOneBuilder` and `emitOneIntrBuilder` are recursive functions on a
  step budget; the emitters start them with the length of the template, and
  `expandLoop_fuel` and `expand_unfold` show that this budget is never exhausted before the
  loop exits by itself.
* The `for` loops over the cases of an enum and over the definitions of the record keeper are
  folds and structural recursions over the list they iterate.
* The only `assert` of the file is in the result branch of `emitOneIntrBuilder`, and the
  intrinsic mode is embedded for both ways of compiling it.  With `NDEBUG` the `assert` expands
  to nothing: `intrRewrite`, `emitOneIntrBuilder`, `emitIntrBuilders`.  With assertions enabled
  a failing `assert` aborts the program: `intrRewriteAsserting`, `intrLoopAsserting`,
  `emitOneIntrBuilderAsserting`, `emitIntrBuildersAsserting`, whose values are of type `Run`.
  `emitOneIntrBuilderAsserting_eq` shows that the two agree on every definition for which the
  assertion does not fail.
-/

namespace LLVMIRConversionGen

/-- Character sequences: `StringRef`, `std::string` and `Twine` values. -/
abbrev Str := List Char

/-- The constant `std::string::npos`, the largest value of `size_t`. -/
def npos : Nat := 2 ^ 64 - 1

/-- Modelled from the spec: `LogicalResult`, declared in `mlir/Support/LogicalResult.h`, which
is not part of the source tree: a success or failure signal. -/
inductive LogicalResult where
  | success
  | failure
deriving DecidableEq, Repr

/-- The two sinks the generator writes to: the output stream `os` handed to every emitter and
the diagnostic stream `llvm::errs()`. -/
structure Streams where
  os : Str
  errs : Str
deriving DecidableEq, Repr

/-- The function `emitError`: writes the message and a newline to `llvm::errs()` and returns
`failure()`. -/
def emitError (message : Str) (st : Streams) : LogicalResult × Streams :=
  (LogicalResult.failure, { st with errs := st.errs ++ message ++ "\n".toList })

/-! ## `StringRef` primitives -/

/-- Modelled from the spec: `StringRef::find(char)`, declared in `llvm/ADT/StringRef.h`,
which is not part of the source tree.  The index of the first occurrence of `c` in `str`, or
`npos` when `c` does not occur. -/
def find (str : Str) (c : Char) : Nat :=
  let i := str.findIdx (fun d => d == c)
  if i < str.length then i else npos

/-- Modelled from the spec: `StringRef::find_if_not(F, From)`, declared in
`llvm/ADT/StringRef.h`, which is not part of the source tree.  The index of the first character
at or after `From` that does not satisfy `F`, or `npos` when there is none. -/
def find_if_not (str : Str) (F : Char → Bool) (From : Nat) : Nat :=
  let S := str.drop From
  let k := S.findIdx (fun c => !F c)
  if k < S.length then From + k else npos

/-- Modelled from the spec: `StringRef::substr(Start, N)`, declared in `llvm/ADT/StringRef.h`,
which is not part of the source tree.  At most `N` characters starting at `Start`, clamped to
the string. -/
def substr (str : Str) (Start N : Nat) : Str :=
  (str.drop Start).take N

/-- Modelled from the spec: `StringRef::substr(Start)` with the length argument left at its
default `npos`: everything from `Start` to the end of the string. -/
def substrFrom (str : Str) (Start : Nat) : Str :=
  str.drop Start

/-- Modelled from the spec: `StringRef::drop_front()`, the string without its first
character. -/
def drop_front (str : Str) : Str :=
  str.drop 1

/-- Modelled from the spec: `llvm::isAlnum`, declared in `llvm/ADT/StringExtras.h`, which is not
part of the source tree: an ASCII letter or an ASCII digit. -/
def isAlnum (c : Char) : Bool :=
  c.isAlpha || c.isDigit

/-! ## `StringLoc` and `findNextVariable` -/

/-- Helper structure to return a position of the substring in a string. -/
structure StringLoc where
  pos : Nat
  length : Nat
deriving DecidableEq, Repr

/-- The member `StringLoc::in`: take the substring identified by this location in the given
string. -/
def StringLoc.inStr (loc : StringLoc) (str : Str) : Str :=
  substr str loc.pos loc.length

/-- The conversion `StringLoc::operator bool`: a location is invalid if its position is `npos`. -/
def StringLoc.toBool (loc : StringLoc) : Bool :=
  loc.pos != npos

/-- The predicate handed to `find_if_not` by `findNextVariable`. -/
def isVarChar (c : Char) : Bool :=
  isAlnum c || c == '_'

/-- The function `findNextVariable`: the position of the next `$`-variable in the pattern and
its length, the `$` included; the escape `$$` is detected and returned with length 2.  The
subtraction `str.size() - 1` is only evaluated when a `$` was found, hence on a non-empty
string. -/
def findNextVariable (str : Str) : StringLoc :=
  let startPos := find str '$'
  if startPos == npos then
    { pos := startPos, length := 0 }
  else if startPos != str.length - 1 && str[startPos + 1]? == some '$' then
    { pos := startPos, length := 2 }
  else
    let endPos := find_if_not str isVarChar (startPos + 1)
    let endPos := if endPos == npos then str.length else endPos
    { pos := startPos, length := endPos - startPos }

/-! ## Operation definitions -/

/-- Modelled from the spec: `tblgen::NamedTypeConstraint`, declared in
`mlir/TableGen/Argument.h`, which is not part of the source tree.  An operand of an operation
definition: its name and whether its constraint is variable-length. -/
structure NamedTypeConstraint where
  name : Str
  isVariableLength : Bool
deriving DecidableEq, Repr

/-- Modelled from the spec: `tblgen::NamedAttribute`, declared in `mlir/TableGen/Argument.h`,
which is not part of the source tree.  An attribute of an operation definition. -/
structure NamedAttribute where
  name : Str
deriving DecidableEq, Repr

/-- Modelled from the spec: an argument of an operation definition, an operand or an
attribute, tagged. -/
inductive Argument where
  | operand (o : NamedTypeConstraint)
  | attribute (a : NamedAttribute)
deriving DecidableEq, Repr

/-- Modelled from the spec: the name of an argument, whichever its kind
(`Operator::getArgName`). -/
def Argument.name : Argument → Str
  | Argument.operand o => o.name
  | Argument.attribute a => a.name

/-- Modelled from the spec: `tblgen::Operator`, declared in `mlir/TableGen/Operator.h`, which is
not part of the source tree.  An ordered list of arguments, each an operand or an attribute,
an ordered list of results (their names), a human-readable operation name, a qualified class
name and an accessor-name deriver. -/
structure Operator where
  operationName : Str
  qualCppClassName : Str
  arguments : List Argument
  results : List Str
  getGetterName : Str → Str

/-- Modelled from the spec: the operands of the definition, in declaration order. -/
def Operator.operands (op : Operator) : List NamedTypeConstraint :=
  op.arguments.filterMap fun a =>
    match a with
    | Argument.operand o => some o
    | Argument.attribute _ => none

/-- Modelled from the spec: the member `Operator::getAttributes`, the attributes of the
definition in declaration order. -/
def Operator.getAttributes (op : Operator) : List NamedAttribute :=
  op.arguments.filterMap fun a =>
    match a with
    | Argument.operand _ => none
    | Argument.attribute a => some a

/-- Modelled from the spec: the member `Operator::getNumOperands`, the number of operands. -/
def Operator.getNumOperands (op : Operator) : Nat :=
  op.operands.length

/-- Modelled from the spec: the member `Operator::getOperand`, the operand at an index. -/
def Operator.getOperand (op : Operator) (i : Nat) : Option NamedTypeConstraint :=
  op.operands[i]?

/-- Modelled from the spec: the member `Operator::getOperationName`, the human-readable
operation name. -/
def Operator.getOperationName (op : Operator) : Str :=
  op.operationName

/-- Modelled from the spec: the member `Operator::getQualCppClassName`, the qualified class
name. -/
def Operator.getQualCppClassName (op : Operator) : Str :=
  op.qualCppClassName

/-- Modelled from the spec: `llvm::Record`, declared in `llvm/TableGen/Record.h`, which is not
part of the source tree.  A record of the definition repository, as far as the emitters read
it: the operation it defines, the fields `llvmBuilder` and `mlirBuilder` (absent, or present
with a string value) and the field `llvmEnumName`, which every definition handed to the
intrinsic emitters carries. -/
structure Record where
  op : Operator
  llvmBuilder : Option Str
  mlirBuilder : Option Str
  llvmEnumName : Str

/-- The function `isVariadicOperandName`: is `name` the name of the variadic operand of `op`;
only the last operand is looked at. -/
def isVariadicOperandName (op : Operator) (name : Str) : Bool :=
  let numOperands := op.getNumOperands
  if numOperands == 0 then
    false
  else
    match op.getOperand (numOperands - 1) with
    | some operand => operand.isVariableLength && operand.name == name
    | none => false

/-- The function `isResultName`: is `name` a known name of a result of `op`. -/
def isResultName (op : Operator) (name : Str) : Bool :=
  op.results.any fun r => r == name

/-- The function `isAttributeName`: is `name` a known name of an attribute of `op`. -/
def isAttributeName (op : Operator) (name : Str) : Bool :=
  op.getAttributes.any fun attr => attr.name == name

/-- The function `isOperandName`: is `name` a known name of an operand of `op`. -/
def isOperandName (op : Operator) (name : Str) : Bool :=
  op.operands.any fun o => o.name == name

/-- The function `getArgumentIndex`: the index of the first argument of `op` with the given name, or
failure (`none`). -/
def getArgumentIndex (op : Operator) (name : Str) : Option Nat :=
  op.arguments.findIdx? fun a => a.name == name

/-! ## Template expansion -/

/-- The text written to `bs` for the placeholder `name` by the `if` chain in the loop of
`emitOneBuilder`; `none` when the chain reaches its final `else`, where the error is
reported. -/
def builderRewrite (op : Operator) (name : Str) : Option Str :=
  let getterName := op.getGetterName name
  let isVariadicOperand := isVariadicOperandName op name
  if isOperandName op name then
    some (if isVariadicOperand then
        "moduleTranslation.lookupValues(op.".toList ++ getterName ++ "())".toList
      else
        "moduleTranslation.lookupValue(op.".toList ++ getterName ++ "())".toList)
  else if isAttributeName op name then
    some ("op.".toList ++ getterName ++ "()".toList)
  else if isResultName op name then
    some ("moduleTranslation.mapValue(op.".toList ++ getterName ++ "())".toList)
  else if name == "_resultType".toList then
    some "moduleTranslation.convertType(op.getResult().getType())".toList
  else if name == "_hasResult".toList then
    some "opInst.getNumResults() == 1".toList
  else if name == "_location".toList then
    some "opInst.getLoc()".toList
  else if name == "_numOperands".toList then
    some "opInst.getNumOperands()".toList
  else if name == "$".toList then
    some ['$']
  else
    none

/-- The message of the error reported by the final `else` of the chain in
`emitOneBuilder`. -/
def builderMessage (op : Operator) (name : Str) : Str :=
  name ++ " is neither an argument nor a result of ".toList ++ op.getOperationName

/-- The text written to `bs` for the placeholder `name` by the `if` chain in the loop of
`emitOneIntrBuilder` as compiled with `NDEBUG`, where the `assert` of the result branch expands
to nothing; `none` when the chain reaches its final `else`.  The chain with the assertion in
place is `intrRewriteAsserting`. -/
def intrRewrite (op : Operator) (name : Str) : Option Str :=
  match getArgumentIndex op name with
  | some argIndex =>
    some ("processValue(llvmOperands[".toList ++ (Nat.repr argIndex).toList ++ "])".toList)
  | none =>
    if isResultName op name then
      some "mapValue(inst)".toList
    else if name == "_int_attr".toList then
      some "matchIntegerAttr".toList
    else if name == "_resultType".toList then
      some "convertType(inst->getType())".toList
    else if name == "_location".toList then
      some "translateLoc(inst->getDebugLoc())".toList
    else if name == "_builder".toList then
      some "odsBuilder".toList
    else if name == "_qualCppClassName".toList then
      some op.getQualCppClassName
    else if name == "$".toList then
      some ['$']
    else
      none

/-- Modelled from the spec: the member `Operator::getNumResults`, the number of results. -/
def Operator.getNumResults (op : Operator) : Nat :=
  op.results.length

/-- The outcome of one pass through the `if` chain of `emitOneIntrBuilder` in a build with
assertions enabled: a text written to `bs`, the final `else`, or the failure of the `assert` in
the result branch. -/
inductive ChainOutcome where
  | text (s : Str)
  | unknown
  | assertionFailed
deriving DecidableEq, Repr

/-- The `if` chain in the loop of `emitOneIntrBuilder` with the assertion
`op.getNumResults() == 1` of its result branch in place. -/
def intrRewriteAsserting (op : Operator) (name : Str) : ChainOutcome :=
  match getArgumentIndex op name with
  | some argIndex =>
    ChainOutcome.text
      ("processValue(llvmOperands[".toList ++ (Nat.repr argIndex).toList ++ "])".toList)
  | none =>
    if isResultName op name then
      if op.getNumResults == 1 then
        ChainOutcome.text "mapValue(inst)".toList
      else
        ChainOutcome.assertionFailed
    else if name == "_int_attr".toList then
      ChainOutcome.text "matchIntegerAttr".toList
    else if name == "_resultType".toList then
      ChainOutcome.text "convertType(inst->getType())".toList
    else if name == "_location".toList then
      ChainOutcome.text "translateLoc(inst->getDebugLoc())".toList
    else if name == "_builder".toList then
      ChainOutcome.text "odsBuilder".toList
    else if name == "_qualCppClassName".toList then
      ChainOutcome.text op.getQualCppClassName
    else if name == "$".toList then
      ChainOutcome.text ['$']
    else
      ChainOutcome.unknown

/-- The message of the error reported by the final `else` of the chain in
`emitOneIntrBuilder`. -/
def intrMessage (op : Operator) (name : Str) : Str :=
  name ++ " is not a known keyword, argument, or result of ".toList ++ op.getOperationName

/-- The `while (StringLoc loc = findNextVariable(builderStrRef))` loop of `emitOneBuilder` and
of `emitOneIntrBuilder`, which differ only in the `if` chain (`rewrite`) and in the error message
(`message`).  The state is the unconsumed suffix `builderStrRef` and the text `bs` accumulated
so far; the result is the error message when the chain rejects a name, and the final pair
`(bs, builderStrRef)` when the loop exits.  The first argument bounds the number of
iterations. -/
def expandLoop (rewrite : Str → Option Str) (message : Str → Str) :
    Nat → Str → Str → Except Str (Str × Str)
  | 0, builderStrRef, bs => Except.ok (bs, builderStrRef)
  | fuel + 1, builderStrRef, bs =>
    let loc := findNextVariable builderStrRef
    if loc.toBool then
      let name := drop_front (loc.inStr builderStrRef)
      let bs := bs ++ substr builderStrRef 0 loc.pos
      match rewrite name with
      | some text =>
        expandLoop rewrite message fuel (substrFrom builderStrRef (loc.pos + loc.length))
          (bs ++ text)
      | none => Except.error (message name)
    else
      Except.ok (bs, builderStrRef)

/-- The function `emitOneBuilder`: the operator-name driven check and the call to the LLVM
IRBuilder for one definition of an LLVM IR dialect operation. -/
def emitOneBuilder (record : Record) (st : Streams) : LogicalResult × Streams :=
  let op := record.op
  match record.llvmBuilder with
  | none =>
    emitError ("no \x27llvmBuilder\x27 field for op ".toList ++ op.getOperationName) st
  | some builderStrRef =>
    if builderStrRef.isEmpty then
      (LogicalResult.success, st)
    else
      match expandLoop (builderRewrite op) (builderMessage op) builderStrRef.length
          builderStrRef [] with
      | Except.error message => emitError message st
      | Except.ok (bs, builderStrRef) =>
        let os := st.os ++ "if (auto op = dyn_cast<".toList ++ op.getQualCppClassName ++
          ">(opInst)) \x7b\n".toList
        let os := os ++ bs ++ builderStrRef ++ "\n".toList
        let os := os ++ "  return success();\n".toList
        let os := os ++ "\x7d\n".toList
        (LogicalResult.success, { st with os := os })

/-- The function `emitOneIntrBuilder` as compiled with `NDEBUG`: the intrinsic identifier
driven check and the call to the builder of the MLIR LLVM dialect intrinsic operation.  With
assertions enabled the function is `emitOneIntrBuilderAsserting`. -/
def emitOneIntrBuilder (record : Record) (st : Streams) : LogicalResult × Streams :=
  let op := record.op
  match record.mlirBuilder with
  | none =>
    emitError ("no \x27mlirBuilder\x27 field for op ".toList ++ op.getOperationName) st
  | some builderStrRef =>
    if builderStrRef.isEmpty then
      (LogicalResult.success, st)
    else
      match expandLoop (intrRewrite op) (intrMessage op) builderStrRef.length
          builderStrRef [] with
      | Except.error message => emitError message st
      | Except.ok (bs, builderStrRef) =>
        let os := st.os ++ "if (intrinsicID == llvm::Intrinsic::".toList ++
          record.llvmEnumName ++ ") \x7b\n".toList
        let os := os ++ bs ++ builderStrRef ++ "\n".toList
        let os := os ++ "  return success();\n".toList
        let os := os ++ "\x7d\n".toList
        (LogicalResult.success, { st with os := os })

/-- Modelled from the spec: `failed`, declared in `mlir/Support/LogicalResult.h`, which is not
part of the source tree: whether the result is a failure. -/
def failed (result : LogicalResult) : Bool :=
  result == LogicalResult.failure

/-- The function `emitBuilders`: emits all builders and returns `false` on success.  The list
is what `getAllDerivedDefinitions("LLVM_OpBase")` yields, in its order. -/
def emitBuilders : List Record → Streams → Bool × Streams
  | [], st => (false, st)
  | d :: defs, st =>
    let r := emitOneBuilder d st
    if failed r.1 then (true, r.2) else emitBuilders defs r.2

/-- The function `emitIntrBuilders` as compiled with `NDEBUG`: emits all intrinsic builders
and returns `false` on success.  The list is what
`getAllDerivedDefinitions("LLVM_IntrOpBase")` yields, in its order.  With assertions enabled
the function is `emitIntrBuildersAsserting`. -/
def emitIntrBuilders : List Record → Streams → Bool × Streams
  | [], st => (false, st)
  | d :: defs, st =>
    let r := emitOneIntrBuilder d st
    if failed r.1 then (true, r.2) else emitIntrBuilders defs r.2

/-- The outcome of a call in a build with assertions enabled: the call returns a value, or an
`assert` fails and the program is aborted before the call returns. -/
inductive Run (α : Type) where
  | returned (value : α)
  | aborted
deriving DecidableEq, Repr

/-- The `while (StringLoc loc = findNextVariable(builderStrRef))` loop of `emitOneIntrBuilder`
in a build with assertions enabled: the chain is `intrRewriteAsserting`, and the run is aborted
when the `assert` of the result branch fails.  The state and the step bound are those of
`expandLoop`. -/
def intrLoopAsserting (op : Operator) : Nat → Str → Str → Run (Except Str (Str × Str))
  | 0, builderStrRef, bs => Run.returned (Except.ok (bs, builderStrRef))
  | fuel + 1, builderStrRef, bs =>
    let loc := findNextVariable builderStrRef
    if loc.toBool then
      let name := drop_front (loc.inStr builderStrRef)
      let bs := bs ++ substr builderStrRef 0 loc.pos
      match intrRewriteAsserting op name with
      | ChainOutcome.text text =>
        intrLoopAsserting op fuel (substrFrom builderStrRef (loc.pos + loc.length)) (bs ++ text)
      | ChainOutcome.unknown => Run.returned (Except.error (intrMessage op name))
      | ChainOutcome.assertionFailed => Run.aborted
    else
      Run.returned (Except.ok (bs, builderStrRef))

/-- The function `emitOneIntrBuilder` in a build with assertions enabled: the call returns
what it returns without assertions, unless the `assert` of the result branch fails in the
loop. -/
def emitOneIntrBuilderAsserting (record : Record) (st : Streams) :
    Run (LogicalResult × Streams) :=
  let op := record.op
  match record.mlirBuilder with
  | none =>
    Run.returned
      (emitError ("no \x27mlirBuilder\x27 field for op ".toList ++ op.getOperationName) st)
  | some builderStrRef =>
    if builderStrRef.isEmpty then
      Run.returned (LogicalResult.success, st)
    else
      match intrLoopAsserting op builderStrRef.length builderStrRef [] with
      | Run.aborted => Run.aborted
      | Run.returned (Except.error message) => Run.returned (emitError message st)
      | Run.returned (Except.ok (bs, builderStrRef)) =>
        let os := st.os ++ "if (intrinsicID == llvm::Intrinsic::".toList ++
          record.llvmEnumName ++ ") \x7b\n".toList
        let os := os ++ bs ++ builderStrRef ++ "\n".toList
        let os := os ++ "  return success();\n".toList
        let os := os ++ "\x7d\n".toList
        Run.returned (LogicalResult.success, { st with os := os })

/-- The function `emitIntrBuilders` in a build with assertions enabled: the loop over the
definitions, aborted when a call of `emitOneIntrBuilder` is. -/
def emitIntrBuildersAsserting : List Record → Streams → Run (Bool × Streams)
  | [], st => Run.returned (false, st)
  | d :: defs, st =>
    match emitOneIntrBuilderAsserting d st with
    | Run.aborted => Run.aborted
    | Run.returned r =>
      if failed r.1 then Run.returned (true, r.2) else emitIntrBuildersAsserting defs r.2

/-! ## Enum conversions -/

/-- The class `LLVMEnumAttrCase`, the wrapper around a definition of an LLVM enum attribute
case: its symbol (`EnumAttrCase::getSymbol`) and the C++ enumerant for the LLVM API
(`getLLVMEnumerant`). -/
structure LLVMEnumAttrCase where
  getSymbol : Str
  getLLVMEnumerant : Str
deriving DecidableEq, Repr

/-- The classes `LLVMEnumAttr` and `LLVMCEnumAttr`, the wrappers around a definition of an LLVM
enum attribute, which read the same fields: the C++ enum name for the LLVM API
(`getLLVMClassName`), the enum class name and namespace of the dialect
(`EnumAttr::getEnumClassName`, `EnumAttr::getCppNamespace`) and all cases, in declaration
order. -/
structure LLVMEnumAttr where
  getLLVMClassName : Str
  getEnumClassName : Str
  getCppNamespace : Str
  getAllCases : List LLVMEnumAttrCase
deriving DecidableEq, Repr

/-- The function `emitOneEnumToConversion`: the function converting the enum attribute to its
LLVM counterpart, as a switch over the cases. -/
def emitOneEnumToConversion (enumAttr : LLVMEnumAttr) (os : Str) : Str :=
  let llvmClass := enumAttr.getLLVMClassName
  let cppClassName := enumAttr.getEnumClassName
  let cppNamespace := enumAttr.getCppNamespace
  let os := os ++ ("static LLVM_ATTRIBUTE_UNUSED ".toList ++ llvmClass ++ " convert".toList ++
    cppClassName ++ "ToLLVM(".toList ++ cppNamespace ++ "::".toList ++ cppClassName ++
    " value) \x7b\n".toList)
  let os := os ++ "  switch (value) \x7b\n".toList
  let os := enumAttr.getAllCases.foldl (fun os enumerant =>
    let llvmEnumerant := enumerant.getLLVMEnumerant
    let cppEnumerant := enumerant.getSymbol
    let os := os ++ ("  case ".toList ++ cppNamespace ++ "::".toList ++ cppClassName ++
      "::".toList ++ cppEnumerant ++ ":\n".toList)
    os ++ ("    return ".toList ++ llvmClass ++ "::".toList ++ llvmEnumerant ++ ";\n".toList)) os
  let os := os ++ "  \x7d\n".toList
  let os := os ++ ("  llvm_unreachable(\"unknown ".toList ++ enumAttr.getEnumClassName ++
    " type\");\n".toList)
  os ++ "\x7d\n\n".toList

/-- The function `emitOneCEnumToConversion`: the function converting the enum attribute to the
corresponding C-style LLVM enumerant, as a switch over the cases. -/
def emitOneCEnumToConversion (enumAttr : LLVMEnumAttr) (os : Str) : Str :=
  let llvmClass := enumAttr.getLLVMClassName
  let cppClassName := enumAttr.getEnumClassName
  let cppNamespace := enumAttr.getCppNamespace
  let os := os ++ ("static LLVM_ATTRIBUTE_UNUSED int64_t convert".toList ++ cppClassName ++
    "ToLLVM(".toList ++ cppNamespace ++ "::".toList ++ cppClassName ++ " value) \x7b\n".toList)
  let os := os ++ "  switch (value) \x7b\n".toList
  let os := enumAttr.getAllCases.foldl (fun os enumerant =>
    let llvmEnumerant := enumerant.getLLVMEnumerant
    let cppEnumerant := enumerant.getSymbol
    let os := os ++ ("  case ".toList ++ cppNamespace ++ "::".toList ++ cppClassName ++
      "::".toList ++ cppEnumerant ++ ":\n".toList)
    os ++ ("    return static_cast<int64_t>(".toList ++ llvmClass ++ "::".toList ++
      llvmEnumerant ++ ");\n".toList)) os
  let os := os ++ "  \x7d\n".toList
  let os := os ++ ("  llvm_unreachable(\"unknown ".toList ++ enumAttr.getEnumClassName ++
    " type\");\n".toList)
  os ++ "\x7d\n\n".toList

/-- The function `emitOneEnumFromConversion`: the function converting the LLVM API enumerant
to the enum attribute, as a switch over the cases. -/
def emitOneEnumFromConversion (enumAttr : LLVMEnumAttr) (os : Str) : Str :=
  let llvmClass := enumAttr.getLLVMClassName
  let cppClassName := enumAttr.getEnumClassName
  let cppNamespace := enumAttr.getCppNamespace
  let os := os ++ ("inline LLVM_ATTRIBUTE_UNUSED ".toList ++ cppNamespace ++ "::".toList ++
    cppClassName ++ " convert".toList ++ cppClassName ++ "FromLLVM(".toList ++ llvmClass ++
    " value) \x7b\n".toList)
  let os := os ++ "  switch (value) \x7b\n".toList
  let os := enumAttr.getAllCases.foldl (fun os enumerant =>
    let llvmEnumerant := enumerant.getLLVMEnumerant
    let cppEnumerant := enumerant.getSymbol
    let os := os ++ ("  case ".toList ++ llvmClass ++ "::".toList ++ llvmEnumerant ++
      ":\n".toList)
    os ++ ("    return ".toList ++ cppNamespace ++ "::".toList ++ cppClassName ++
      "::".toList ++ cppEnumerant ++ ";\n".toList)) os
  let os := os ++ "  \x7d\n".toList
  let os := os ++ ("  llvm_unreachable(\"unknown ".toList ++ enumAttr.getLLVMClassName ++
    " type\");".toList)
  os ++ "\x7d\n\n".toList

/-- The function `emitOneCEnumFromConversion`: the function converting the C-style LLVM
enumerant to the enum attribute, as a switch over the cases.  The third argument handed to
`formatv` for the signature is not referred to by the format string. -/
def emitOneCEnumFromConversion (enumAttr : LLVMEnumAttr) (os : Str) : Str :=
  let llvmClass := enumAttr.getLLVMClassName
  let cppClassName := enumAttr.getEnumClassName
  let cppNamespace := enumAttr.getCppNamespace
  let os := os ++ ("inline LLVM_ATTRIBUTE_UNUSED ".toList ++ cppNamespace ++ "::".toList ++
    cppClassName ++ " convert".toList ++ cppClassName ++
    "FromLLVM(int64_t value) \x7b\n".toList)
  let os := os ++ "  switch (value) \x7b\n".toList
  let os := enumAttr.getAllCases.foldl (fun os enumerant =>
    let llvmEnumerant := enumerant.getLLVMEnumerant
    let cppEnumerant := enumerant.getSymbol
    let os := os ++ ("  case static_cast<int64_t>(".toList ++ llvmClass ++ "::".toList ++
      llvmEnumerant ++ "):\n".toList)
    os ++ ("    return ".toList ++ cppNamespace ++ "::".toList ++ cppClassName ++
      "::".toList ++ cppEnumerant ++ ";\n".toList)) os
  let os := os ++ "  \x7d\n".toList
  let os := os ++ ("  llvm_unreachable(\"unknown ".toList ++ enumAttr.getLLVMClassName ++
    " type\");".toList)
  os ++ "\x7d\n\n".toList

/-! ## The list of convertible intrinsics -/

/-- The function `emitOneIntrinsic`: one entry of the list of intrinsic identifiers. -/
def emitOneIntrinsic (record : Record) (os : Str) : Str :=
  os ++ "llvm::Intrinsic::".toList ++ record.llvmEnumName ++ ",\n".toList

/-- The function `emitConvertibleIntrinsics`: the list of LLVM IR intrinsic identifiers that
are convertible to a matching MLIR LLVM dialect intrinsic operation; always returns `false`.
The list is what `getAllDerivedDefinitions("LLVM_IntrOpBase")` yields, in its order. -/
def emitConvertibleIntrinsics (defs : List Record) (os : Str) : Bool × Str :=
  (false, defs.foldl (fun os d => emitOneIntrinsic d os) os)

/-! ## Derived notions used to state the properties -/

/-- The expansion of a template: the text `bs.str()` followed by the remaining
`builderStrRef` once the loop has exited, or the error message. -/
def expand (rewrite : Str → Option Str) (message : Str → Str) (t : Str) : Except Str Str :=
  match expandLoop rewrite message t.length t [] with
  | Except.error e => Except.error e
  | Except.ok (bs, rest) => Except.ok (bs ++ rest)

/-- The expansion of a template in builder mode. -/
def expandBuilder (op : Operator) (t : Str) : Except Str Str :=
  expand (builderRewrite op) (builderMessage op) t

/-- The expansion of a template in intrinsic mode, as compiled with `NDEBUG`. -/
def expandIntr (op : Operator) (t : Str) : Except Str Str :=
  expand (intrRewrite op) (intrMessage op) t

deriving instance DecidableEq for Except

/-- The scan of an unconsumed suffix: the placeholders located by repeatedly applying
`findNextVariable` to what is left, each paired with the literal span in front of it, and the
literal span after the last placeholder.  The first argument bounds the number of steps. -/
def scanLoop : Nat → Str → List (Str × Str) × Str
  | 0, str => ([], str)
  | fuel + 1, str =>
    let loc := findNextVariable str
    if loc.toBool then
      let r := scanLoop fuel (substrFrom str (loc.pos + loc.length))
      ((substr str 0 loc.pos, loc.inStr str) :: r.1, r.2)
    else
      ([], str)

/-- The scan of a template: its located placeholders with the literal spans in front of them,
and the last literal span. -/
def scan (t : Str) : List (Str × Str) × Str :=
  scanLoop t.length t

/-- The names of the placeholders located by scanning a template from left to right: each
located text without its leading `$`. -/
def placeholderNames (t : Str) : List Str :=
  (scan t).1.map fun p => drop_front p.2

/-- The interleaving `l0 ++ f p1 ++ l1 ++ ... ++ f pn ++ ln` of literal spans with the images of
the placeholders under `f`. -/
def interleave (f : Str → Str) : List (Str × Str) → Str → Str
  | [], last => last
  | p :: ps, last => p.1 ++ f p.2 ++ interleave f ps last

/-- A name that builder mode cannot classify, in the words of the specification: not an
operand name, not an attribute name, not a result name, none of the keywords `_resultType`,
`_hasResult`, `_location`, `_numOperands`, and not the escape. -/
def builderUnknown (op : Operator) (name : Str) : Bool :=
  !isOperandName op name && !isAttributeName op name && !isResultName op name &&
    name != "_resultType".toList && name != "_hasResult".toList &&
    name != "_location".toList && name != "_numOperands".toList && name != "$".toList

/-- A name that intrinsic mode cannot classify, in the words of the specification: not an
argument name, not a result name, none of the keywords `_int_attr`, `_resultType`,
`_location`, `_builder`, `_qualCppClassName`, and not the escape. -/
def intrUnknown (op : Operator) (name : Str) : Bool :=
  !(op.arguments.any fun a => a.name == name) && !isResultName op name &&
    name != "_int_attr".toList && name != "_resultType".toList &&
    name != "_location".toList && name != "_builder".toList &&
    name != "_qualCppClassName".toList && name != "$".toList

/-- The text of one arm of a switch, given as the pair of its label and of the expression it
returns: the `case` line and the `return` line. -/
def renderArm (arm : Str × Str) : Str :=
  "  case ".toList ++ arm.1 ++ ":\n".toList ++ ("    return ".toList ++ arm.2 ++ ";\n".toList)

/-- The text of the arms of a switch, one after the other. -/
def renderArms (arms : List (Str × Str)) : Str :=
  (arms.map renderArm).flatten

/-- The text of a conversion function: the signature line, the switch with its arms, one
fallback statement after the switch, and the closing of the function. -/
def renderSwitchFunction (signature : Str) (arms : List (Str × Str)) (fallback : Str) : Str :=
  signature ++ "  switch (value) \x7b\n".toList ++ renderArms arms ++ "  \x7d\n".toList ++
    fallback ++ "\x7d\n\n".toList

/-- The domain side of a case: `<namespace>::<class>::<symbol>`. -/
def domainExpr (enumAttr : LLVMEnumAttr) (c : LLVMEnumAttrCase) : Str :=
  enumAttr.getCppNamespace ++ "::".toList ++ enumAttr.getEnumClassName ++ "::".toList ++
    c.getSymbol

/-- The external side of a case in the symbolic flavor: `<llvmClass>::<llvmEnumerant>`. -/
def externalExpr (enumAttr : LLVMEnumAttr) (c : LLVMEnumAttrCase) : Str :=
  enumAttr.getLLVMClassName ++ "::".toList ++ c.getLLVMEnumerant

/-- The external side of a case in the integer-valued flavor:
`static_cast<int64_t>(<llvmClass>::<llvmEnumerant>)`. -/
def externalCastExpr (enumAttr : LLVMEnumAttr) (c : LLVMEnumAttrCase) : Str :=
  "static_cast<int64_t>(".toList ++ externalExpr enumAttr c ++ ")".toList

/-- The arms of the forward function of the symbolic flavor, as pairs of label and returned
expression, one per case in declaration order. -/
def toArms (enumAttr : LLVMEnumAttr) : List (Str × Str) :=
  enumAttr.getAllCases.map fun c => (domainExpr enumAttr c, externalExpr enumAttr c)

/-- The arms of the forward function of the integer-valued flavor. -/
def cToArms (enumAttr : LLVMEnumAttr) : List (Str × Str) :=
  enumAttr.getAllCases.map fun c => (domainExpr enumAttr c, externalCastExpr enumAttr c)

/-- The arms of the reverse function of the symbolic flavor. -/
def fromArms (enumAttr : LLVMEnumAttr) : List (Str × Str) :=
  enumAttr.getAllCases.map fun c => (externalExpr enumAttr c, domainExpr enumAttr c)

/-- The arms of the reverse function of the integer-valued flavor. -/
def cFromArms (enumAttr : LLVMEnumAttr) : List (Str × Str) :=
  enumAttr.getAllCases.map fun c => (externalCastExpr enumAttr c, domainExpr enumAttr c)

/-- Whether a definition has an argument (operand or attribute) or a result of the given
name. -/
def hasName (op : Operator) (name : Str) : Bool :=
  (op.arguments.any fun a => a.name == name) || isResultName op name

/-- The keyword table of builder mode, in the words of the specification: each keyword with
the text it expands to. -/
def builderKeywords : List (Str × Str) :=
  [("_resultType".toList, "moduleTranslation.convertType(op.getResult().getType())".toList),
    ("_hasResult".toList, "opInst.getNumResults() == 1".toList),
    ("_location".toList, "opInst.getLoc()".toList),
    ("_numOperands".toList, "opInst.getNumOperands()".toList)]

/-- The keyword table of intrinsic mode, in the words of the specification: each keyword with
the text it expands to, the last one being the qualified class name of the definition. -/
def intrKeywords (op : Operator) : List (Str × Str) :=
  [("_int_attr".toList, "matchIntegerAttr".toList),
    ("_resultType".toList, "convertType(inst->getType())".toList),
    ("_location".toList, "translateLoc(inst->getDebugLoc())".toList),
    ("_builder".toList, "odsBuilder".toList),
    ("_qualCppClassName".toList, op.getQualCppClassName)]

/-- Whether generation in builder mode succeeds for a definition; the result of
`emitOneBuilder` does not depend on what the streams hold. -/
def builderSucceeds (d : Record) : Bool :=
  (emitOneBuilder d ⟨[], []⟩).1 == LogicalResult.success

/-- The block that `emitOneBuilder` writes to the output for a definition. -/
def builderBlock (d : Record) : Str :=
  (emitOneBuilder d ⟨[], []⟩).2.os

/-- The text that `emitOneBuilder` writes to the diagnostic stream for a definition. -/
def builderDiagnostic (d : Record) : Str :=
  (emitOneBuilder d ⟨[], []⟩).2.errs

/-- Whether generation in intrinsic mode succeeds for a definition. -/
def intrSucceeds (d : Record) : Bool :=
  (emitOneIntrBuilder d ⟨[], []⟩).1 == LogicalResult.success

/-- The block that `emitOneIntrBuilder` writes to the output for a definition. -/
def intrBlock (d : Record) : Str :=
  (emitOneIntrBuilder d ⟨[], []⟩).2.os

/-- The text that `emitOneIntrBuilder` writes to the diagnostic stream for a definition. -/
def intrDiagnostic (d : Record) : Str :=
  (emitOneIntrBuilder d ⟨[], []⟩).2.errs

/-- The number of substitutions the loop performs on a template: it rewrites the located
placeholders from left to right and stops at the first name its `if` chain rejects. -/
def substitutionsPerformed (rewrite : Str → Option Str) (t : Str) : Nat :=
  ((placeholderNames t).takeWhile fun name => (rewrite name).isSome).length

/-- The image of the value a run returns; an aborted run stays aborted. -/
def Run.map {α β : Type} (f : α → β) : Run α → Run β
  | Run.returned value => Run.returned (f value)
  | Run.aborted => Run.aborted

/-- The expansion of a template in intrinsic mode in a build with assertions enabled: the
text `bs.str()` followed by the remaining `builderStrRef` once the loop has exited, or the error
message, unless the run is aborted. -/
def expandIntrAsserting (op : Operator) (t : Str) : Run (Except Str Str) :=
  match intrLoopAsserting op t.length t [] with
  | Run.aborted => Run.aborted
  | Run.returned (Except.error e) => Run.returned (Except.error e)
  | Run.returned (Except.ok (bs, rest)) => Run.returned (Except.ok (bs ++ rest))

/-- Whether the chain of intrinsic mode, with the assertion in place, writes no text for a
name: the name is unknown or the assertion fails. -/
def intrStops (op : Operator) (name : Str) : Bool :=
  match intrRewriteAsserting op name with
  | ChainOutcome.text _ => false
  | ChainOutcome.unknown => true
  | ChainOutcome.assertionFailed => true

/-- Whether the loop of intrinsic mode is aborted on a template: the leftmost placeholder for
which the chain writes no text is one at which the assertion fails. -/
def intrTrips (op : Operator) (t : Str) : Bool :=
  match (placeholderNames t).find? (intrStops op) with
  | some name => intrRewriteAsserting op name == ChainOutcome.assertionFailed
  | none => false

/-- Whether generation in intrinsic mode is aborted for a definition in a build with
assertions enabled. -/
def intrAborts (d : Record) : Bool :=
  match d.mlirBuilder with
  | some t => intrTrips d.op t
  | none => false

/-- Whether generation in intrinsic mode returns success for a definition in a build with
assertions enabled. -/
def intrSucceedsAsserting (d : Record) : Bool :=
  match emitOneIntrBuilderAsserting d ⟨[], []⟩ with
  | Run.returned r => r.1 == LogicalResult.success
  | Run.aborted => false

/-- The block that `emitOneIntrBuilder` writes to the output for a definition in a build with
assertions enabled; nothing when the call is aborted. -/
def intrBlockAsserting (d : Record) : Str :=
  match emitOneIntrBuilderAsserting d ⟨[], []⟩ with
  | Run.returned r => r.2.os
  | Run.aborted => []

/-- The text that `emitOneIntrBuilder` writes to the diagnostic stream for a definition in a
build with assertions enabled; nothing when the call is aborted. -/
def intrDiagnosticAsserting (d : Record) : Str :=
  match emitOneIntrBuilderAsserting d ⟨[], []⟩ with
  | Run.returned r => r.2.errs
  | Run.aborted => []

/-! ## Example definitions -/

/-- An example accessor-name deriver: `get_` followed by the name. -/
def getUnderscore (name : Str) : Str :=
  "get_".toList ++ name

/-- An example definition: operands `x` and `y`, neither variable-length, read through the
accessor-name deriver `g`. -/
def opXY (g : Str → Str) : Operator :=
  { operationName := "llvm.xy".toList
    qualCppClassName := "LLVM::XYOp".toList
    arguments := [Argument.operand ⟨"x".toList, false⟩, Argument.operand ⟨"y".toList, false⟩]
    results := []
    getGetterName := g }

/-- An example record: the operation `opXY` with the `$`-free template `ret();` in both
template fields. -/
def recRet : Record :=
  { op := opXY getUnderscore
    llvmBuilder := some "ret();".toList
    mlirBuilder := some "ret();".toList
    llvmEnumName := "xy".toList }

/-- An example definition whose only operand is named `$`. -/
def opDollar : Operator :=
  { operationName := "llvm.dollar".toList
    qualCppClassName := "LLVM::DollarOp".toList
    arguments := [Argument.operand ⟨"$".toList, false⟩]
    results := []
    getGetterName := getUnderscore }

/-- An example definition: an operand `a` and an attribute that is also named `a`. -/
def opClash : Operator :=
  { operationName := "llvm.clash".toList
    qualCppClassName := "LLVM::ClashOp".toList
    arguments := [Argument.operand ⟨"a".toList, false⟩, Argument.attribute ⟨"a".toList⟩]
    results := []
    getGetterName := getUnderscore }

/-- An example definition: operands `a` and `b`, the last one variable-length. -/
def opAB : Operator :=
  { operationName := "llvm.ab".toList
    qualCppClassName := "LLVM::ABOp".toList
    arguments := [Argument.operand ⟨"a".toList, false⟩, Argument.operand ⟨"b".toList, true⟩]
    results := []
    getGetterName := getUnderscore }

/-- An example record: the operation `opXY` with a template whose second placeholder `$zz`
names nothing in either mode. -/
def recBad : Record :=
  { op := opXY getUnderscore
    llvmBuilder := some "f($x, $zz, $ww)".toList
    mlirBuilder := some "f($x, $zz, $ww)".toList
    llvmEnumName := "xy".toList }

/-- An example record: the operation `opXY` without template fields. -/
def recAbsent : Record :=
  { op := opXY getUnderscore
    llvmBuilder := none
    mlirBuilder := none
    llvmEnumName := "xy".toList }

/-- An example record: the operation `opXY` with empty template fields. -/
def recEmpty : Record :=
  { op := opXY getUnderscore
    llvmBuilder := some []
    mlirBuilder := some []
    llvmEnumName := "xy".toList }

/-- An example definition whose names are spelled like keywords of builder mode: an operand
`_numOperands`, an attribute `_location` and a result `_hasResult`, and a result and an
attribute both named `r`. -/
def opKeywordNames : Operator :=
  { operationName := "llvm.kw".toList
    qualCppClassName := "LLVM::KwOp".toList
    arguments := [Argument.operand ⟨"_numOperands".toList, false⟩,
      Argument.attribute ⟨"_location".toList⟩, Argument.attribute ⟨"r".toList⟩]
    results := ["r".toList, "_hasResult".toList]
    getGetterName := getUnderscore }

/-- An example definition whose names are spelled like keywords of intrinsic mode: an operand
`_int_attr`, an attribute `_location` and one result `_builder`. -/
def opKeywordIntr : Operator :=
  { operationName := "llvm.kwi".toList
    qualCppClassName := "LLVM::KwIntrOp".toList
    arguments := [Argument.operand ⟨"_int_attr".toList, false⟩,
      Argument.attribute ⟨"_location".toList⟩]
    results := ["_builder".toList]
    getGetterName := getUnderscore }

/-- An example enum definition: the cases `A` and `B` with the enumerants `EXT_A` and
`EXT_B`. -/
def enumAB : LLVMEnumAttr :=
  { getLLVMClassName := "llvm::Ext".toList
    getEnumClassName := "Kind".toList
    getCppNamespace := "LLVM".toList
    getAllCases := [⟨"A".toList, "EXT_A".toList⟩, ⟨"B".toList, "EXT_B".toList⟩] }

/-- An example definition: an operand `a`, an attribute `k`, a variable-length operand `b`
and a second argument named `a`. -/
def opArgs : Operator :=
  { operationName := "llvm.args".toList
    qualCppClassName := "LLVM::ArgsOp".toList
    arguments := [Argument.operand ⟨"a".toList, false⟩, Argument.attribute ⟨"k".toList⟩,
      Argument.operand ⟨"b".toList, true⟩, Argument.attribute ⟨"a".toList⟩]
    results := ["res".toList]
    getGetterName := getUnderscore }

/-- An example record: the operation `opXY` with the template `build($x, $y)` in both
template fields, and the enum name `first`. -/
def recBuild : Record :=
  { op := opXY getUnderscore
    llvmBuilder := some "build($x, $y)".toList
    mlirBuilder := some "build($x, $y)".toList
    llvmEnumName := "first".toList }

/-- An example definition: a variable-length operand `v` that is not the last operand, and a
last operand `w` that is not variable-length. -/
def opMisplaced : Operator :=
  { operationName := "llvm.misplaced".toList
    qualCppClassName := "LLVM::MisplacedOp".toList
    arguments := [Argument.operand ⟨"v".toList, true⟩, Argument.operand ⟨"w".toList, false⟩]
    results := []
    getGetterName := getUnderscore }

/-- An example definition with two results, `r1` and `r2`, and no argument. -/
def opTwoResults : Operator :=
  { operationName := "llvm.two".toList
    qualCppClassName := "LLVM::TwoOp".toList
    arguments := []
    results := ["r1".toList, "r2".toList]
    getGetterName := getUnderscore }

/-- An example record: the operation `opTwoResults` with the template `$r1 = f();` in its
`mlirBuilder` field. -/
def recTwoResults : Record :=
  { op := opTwoResults
    llvmBuilder := some []
    mlirBuilder := some "$r1 = f();".toList
    llvmEnumName := "two".toList }

/-- An example definition with one result `res` and an operand `x`. -/
def opOneResult : Operator :=
  { operationName := "llvm.one".toList
    qualCppClassName := "LLVM::OneOp".toList
    arguments := [Argument.operand ⟨"x".toList, false⟩]
    results := ["res".toList]
    getGetterName := getUnderscore }

/-- An example record: the operation `opOneResult` with the template `$res = f($x);` in both
template fields. -/
def recOneResult : Record :=
  { op := opOneResult
    llvmBuilder := some "$res = f($x);".toList
    mlirBuilder := some "$res = f($x);".toList
    llvmEnumName := "one".toList }

/-- An example record: the operation `opOneResult` with a template whose last placeholder
`$zz` names nothing. -/
def recOneResultBad : Record :=
  { op := opOneResult
    llvmBuilder := some "$res = f($x, $zz);".toList
    mlirBuilder := some "$res = f($x, $zz);".toList
    llvmEnumName := "one".toList }

/-! ## The scanner -/

theorem find_le_or (str : Str) (c : Char) :
    find str c = npos ∨ find str c < str.length := by
  unfold find
  simp only
  split
  · right; assumption
  · left; rfl

theorem find_of_not_mem {str : Str} {c : Char} (h : c ∉ str) : find str c = npos := by
  unfold find
  have : str.findIdx (fun d => d == c) = str.length := by
    apply List.findIdx_eq_length_of_false
    intro x hx
    simp only [beq_eq_false_iff_ne, ne_eq]
    intro hxc
    exact h (hxc ▸ hx)
  simp [this]

theorem find_of_mem {str : Str} {c : Char} (h : c ∈ str) :
    find str c = str.findIdx (fun d => d == c) ∧ find str c < str.length := by
  have hlt : str.findIdx (fun d => d == c) < str.length :=
    List.findIdx_lt_length_of_exists ⟨c, h, by simp⟩
  unfold find
  simp [hlt]

theorem findNextVariable_pos (str : Str) : (findNextVariable str).pos = find str '$' := by
  unfold findNextVariable
  simp only
  split
  · rfl
  · split <;> rfl

theorem findNextVariable_bounds {str : Str} (h : (findNextVariable str).toBool = true) :
    (findNextVariable str).pos < str.length ∧ 1 ≤ (findNextVariable str).length ∧
      (findNextVariable str).pos + (findNextVariable str).length ≤ str.length := by
  have hpos := findNextVariable_pos str
  have hne : find str '$' ≠ npos := by
    simpa [StringLoc.toBool, hpos] using h
  have hlt : find str '$' < str.length := by
    rcases find_le_or str '$' with h1 | h1
    · exact absurd h1 hne
    · exact h1
  refine ⟨hpos ▸ hlt, ?_⟩
  unfold findNextVariable
  simp only
  have hnb : (find str '$' == npos) = false := by simpa using hne
  rw [hnb]
  simp only [Bool.false_eq_true, ↓reduceIte]
  split
  · rename_i hesc
    simp only [Bool.and_eq_true, bne_iff_ne, ne_eq, beq_iff_eq] at hesc
    have : find str '$' + 1 < str.length := by
      by_contra hcon
      have : str[find str '$' + 1]? = none := by
        apply List.getElem?_eq_none
        omega
      rw [this] at hesc
      exact absurd hesc.2 (by simp)
    simp only
    omega
  · simp only
    unfold find_if_not
    simp only [List.length_drop]
    split
    · split <;> omega
    · simp only [beq_self_eq_true, ↓reduceIte]
      omega

/-! ## The expansion loop -/

theorem findNextVariable_nil : (findNextVariable []).toBool = false := by decide

theorem expandLoop_nil (rewrite : Str → Option Str) (message : Str → Str) (n : Nat) (bs : Str) :
    expandLoop rewrite message n [] bs = Except.ok (bs, []) := by
  cases n with
  | zero => rfl
  | succ n => simp [expandLoop, findNextVariable_nil]

theorem length_substrFrom_lt {str : Str} (h : (findNextVariable str).toBool = true) :
    (substrFrom str ((findNextVariable str).pos + (findNextVariable str).length)).length
      < str.length := by
  have hb := findNextVariable_bounds h
  simp only [substrFrom, List.length_drop]
  omega

/-- The step budget is irrelevant once it is at least the length of the unconsumed suffix: the
loop always exits by itself before the budget is used up. -/
theorem expandLoop_fuel (rewrite : Str → Option Str) (message : Str → Str) :
    ∀ (n m : Nat) (str bs : Str), str.length ≤ n → str.length ≤ m →
      expandLoop rewrite message n str bs = expandLoop rewrite message m str bs := by
  intro n
  induction n with
  | zero =>
    intro m str bs hn _
    have : str = [] := List.length_eq_zero.mp (Nat.le_zero.mp hn)
    subst this
    rw [expandLoop_nil, expandLoop_nil]
  | succ n ih =>
    intro m str bs hn hm
    cases m with
    | zero =>
      have : str = [] := List.length_eq_zero.mp (Nat.le_zero.mp hm)
      subst this
      rw [expandLoop_nil, expandLoop_nil]
    | succ m =>
      simp only [expandLoop]
      split
      · rename_i hfound
        have hlt := length_substrFrom_lt hfound
        split
        · exact ih m _ _ (by omega) (by omega)
        · rfl
      · rfl

/-- The loop started with the length of the template as its budget agrees with the loop
started with any larger budget. -/
theorem expandLoop_length (rewrite : Str → Option Str) (message : Str → Str) (n : Nat)
    (str bs : Str) (h : str.length ≤ n) :
    expandLoop rewrite message n str bs = expandLoop rewrite message str.length str bs :=
  expandLoop_fuel rewrite message n str.length str bs h (Nat.le_refl _)

/-- Text already accumulated in `bs` is carried through the loop unchanged. -/
theorem expandLoop_acc (rewrite : Str → Option Str) (message : Str → Str) :
    ∀ (n : Nat) (str bs : Str),
      expandLoop rewrite message n str bs =
        (expandLoop rewrite message n str []).map (fun p => (bs ++ p.1, p.2)) := by
  intro n
  induction n with
  | zero => intro str bs; simp [expandLoop, Except.map]
  | succ n ih =>
    intro str bs
    simp only [expandLoop]
    split
    · split
      · rw [ih _ (bs ++ substr str 0 (findNextVariable str).pos ++ _),
          ih _ ([] ++ substr str 0 (findNextVariable str).pos ++ _)]
        cases expandLoop rewrite message n _ [] <;> simp [Except.map, List.append_assoc]
      · rfl
    · simp [Except.map]

/-- The loop equation of the expansion: one iteration of the `while` loop followed by the
expansion of the unconsumed suffix. -/
theorem expand_unfold (rewrite : Str → Option Str) (message : Str → Str) (t : Str) :
    expand rewrite message t =
      if (findNextVariable t).toBool then
        match rewrite (drop_front ((findNextVariable t).inStr t)) with
        | some text =>
          (expand rewrite message
            (substrFrom t ((findNextVariable t).pos + (findNextVariable t).length))).map
              (fun e => substr t 0 (findNextVariable t).pos ++ text ++ e)
        | none => Except.error (message (drop_front ((findNextVariable t).inStr t)))
      else
        Except.ok t := by
  cases t with
  | nil => simp [expand, expandLoop, findNextVariable_nil]
  | cons c cs =>
    by_cases hfound : (findNextVariable (c :: cs)).toBool = true
    · have hlt := length_substrFrom_lt hfound
      simp only [expand, List.length_cons, expandLoop, hfound, ↓reduceIte]
      cases hr : rewrite (drop_front ((findNextVariable (c :: cs)).inStr (c :: cs))) with
      | none => rfl
      | some text =>
        simp only
        rw [expandLoop_length rewrite message cs.length _ _
          (by simp only [List.length_cons] at hlt; omega), expandLoop_acc]
        cases expandLoop rewrite message _ _ [] <;> simp [Except.map, List.append_assoc]
    · simp [expand, expandLoop, hfound]

/-! ## The emitters in terms of the expansion -/

theorem isEmpty_eq_false_of_ne_nil {t : Str} (h : t ≠ []) : t.isEmpty = false := by
  cases t with
  | nil => exact absurd rfl h
  | cons c cs => rfl

theorem block_tail (a e : Str) :
    a ++ e ++ "\n".toList ++ "  return success();\n".toList ++ "\x7d\n".toList =
      a ++ e ++ "\n  return success();\n\x7d\n".toList := by
  simp only [List.append_assoc]
  rfl

/-- On a present, non-empty `llvmBuilder` template, `emitOneBuilder` reports the error of the
expansion, or writes the guard line, the expansion and the closing lines. -/
theorem emitOneBuilder_eq (record : Record) (st : Streams) (t : Str)
    (h : record.llvmBuilder = some t) (hne : t ≠ []) :
    emitOneBuilder record st =
      match expandBuilder record.op t with
      | Except.error m => emitError m st
      | Except.ok e =>
        (LogicalResult.success,
          { st with os := st.os ++ "if (auto op = dyn_cast<".toList ++
              record.op.getQualCppClassName ++ ">(opInst)) \x7b\n".toList ++ e ++
              "\n  return success();\n\x7d\n".toList }) := by
  simp only [emitOneBuilder, h, isEmpty_eq_false_of_ne_nil hne, expandBuilder, expand]
  cases expandLoop (builderRewrite record.op) (builderMessage record.op) t.length t [] with
  | error m => rfl
  | ok p =>
    obtain ⟨bs, rest⟩ := p
    simp only [Bool.false_eq_true, ↓reduceIte, Prod.mk.injEq, true_and]
    congr 1
    rw [← block_tail]
    simp only [List.append_assoc]

/-- On a present, non-empty `mlirBuilder` template, `emitOneIntrBuilder` reports the error of
the expansion, or writes the guard line, the expansion and the closing lines. -/
theorem emitOneIntrBuilder_eq (record : Record) (st : Streams) (t : Str)
    (h : record.mlirBuilder = some t) (hne : t ≠ []) :
    emitOneIntrBuilder record st =
      match expandIntr record.op t with
      | Except.error m => emitError m st
      | Except.ok e =>
        (LogicalResult.success,
          { st with os := st.os ++ "if (intrinsicID == llvm::Intrinsic::".toList ++
              record.llvmEnumName ++ ") \x7b\n".toList ++ e ++
              "\n  return success();\n\x7d\n".toList }) := by
  simp only [emitOneIntrBuilder, h, isEmpty_eq_false_of_ne_nil hne, expandIntr, expand]
  cases expandLoop (intrRewrite record.op) (intrMessage record.op) t.length t [] with
  | error m => rfl
  | ok p =>
    obtain ⟨bs, rest⟩ := p
    simp only [Bool.false_eq_true, ↓reduceIte, Prod.mk.injEq, true_and]
    congr 1
    rw [← block_tail]
    simp only [List.append_assoc]

theorem findNextVariable_of_not_mem {t : Str} (h : '$' ∉ t) :
    (findNextVariable t).toBool = false := by
  simp [StringLoc.toBool, findNextVariable_pos, find_of_not_mem h]

theorem expand_of_not_mem (rewrite : Str → Option Str) (message : Str → Str) {t : Str}
    (h : '$' ∉ t) : expand rewrite message t = Except.ok t := by
  rw [expand_unfold, findNextVariable_of_not_mem h]
  rfl

/-! ## Templates without a marker (C1) -/

/-- C1: in both generation modes, a template that is present, non-empty and free of `$` is
emitted unchanged: the block written to the output is the guard line of the mode, the template
character for character, and the closing lines, and generation succeeds. -/
theorem C1_template_without_marker_unchanged (record : Record) (st : Streams) (t : Str)
    (hne : t ≠ []) (hno : '$' ∉ t) :
    (record.llvmBuilder = some t →
      emitOneBuilder record st =
        (LogicalResult.success,
          { os := st.os ++ "if (auto op = dyn_cast<".toList ++ record.op.getQualCppClassName ++
              ">(opInst)) \x7b\n".toList ++ t ++ "\n  return success();\n\x7d\n".toList
            errs := st.errs })) ∧
    (record.mlirBuilder = some t →
      emitOneIntrBuilder record st =
        (LogicalResult.success,
          { os := st.os ++ "if (intrinsicID == llvm::Intrinsic::".toList ++
              record.llvmEnumName ++ ") \x7b\n".toList ++ t ++
              "\n  return success();\n\x7d\n".toList
            errs := st.errs })) := by
  constructor
  · intro h
    rw [emitOneBuilder_eq record st t h hne, expandBuilder, expand_of_not_mem _ _ hno]
  · intro h
    rw [emitOneIntrBuilder_eq record st t h hne, expandIntr, expand_of_not_mem _ _ hno]

/-! ## The escape (C2) -/

theorem find_append_marker {u : Str} (w : Str) (c : Char) (hu : c ∉ u) :
    find (u ++ c :: w) c = u.length := by
  have hidx : (u ++ c :: w).findIdx (fun d => d == c) = u.length := by
    rw [List.findIdx_append]
    have : u.findIdx (fun d => d == c) = u.length := by
      apply List.findIdx_eq_length_of_false
      intro x hx
      simp only [beq_eq_false_iff_ne, ne_eq]
      intro hxc
      exact hu (hxc ▸ hx)
    simp [this, List.findIdx_cons]
  unfold find
  simp [hidx]

/-- The scanner on an escape: after a `$`-free prefix `u`, the pair `$$` is located at the
length of `u` with length 2, whatever follows. -/
theorem findNextVariable_escape {u : Str} (v : Str) (hu : '$' ∉ u) (hlen : u.length ≠ npos) :
    findNextVariable (u ++ '$' :: '$' :: v) = { pos := u.length, length := 2 } := by
  unfold findNextVariable
  simp only [find_append_marker _ '$' hu]
  have h1 : (u.length == npos) = false := by simpa using hlen
  have h2 : (u ++ '$' :: '$' :: v)[u.length + 1]? = some '$' := by
    rw [List.getElem?_append_right (by omega)]
    simp
  simp [h1, h2]

theorem builderRewrite_escape (op : Operator) (h1 : isOperandName op "$".toList = false)
    (h2 : isAttributeName op "$".toList = false) (h3 : isResultName op "$".toList = false) :
    builderRewrite op "$".toList = some ['$'] := by
  simp only [builderRewrite, h1, h2, h3]
  rfl

theorem intrRewrite_escape (op : Operator) (h1 : getArgumentIndex op "$".toList = none)
    (h2 : isResultName op "$".toList = false) :
    intrRewrite op "$".toList = some ['$'] := by
  simp only [intrRewrite, h1, h2]
  rfl

/-- The expansion of a template that starts, after a `$`-free prefix, with an escape, when the
`if` chain rewrites the name `$` to a literal `$`. -/
theorem expand_escape (rewrite : Str → Option Str) (message : Str → Str) {u : Str} (v : Str)
    (hu : '$' ∉ u) (hlen : u.length ≠ npos) (hr : rewrite "$".toList = some ['$']) :
    expand rewrite message (u ++ "$$".toList ++ v) =
      (expand rewrite message v).map (fun e => u ++ "$".toList ++ e) := by
  have ht : u ++ "$$".toList ++ v = u ++ '$' :: '$' :: v := by
    simp
  rw [ht, expand_unfold, findNextVariable_escape v hu hlen]
  have hb : StringLoc.toBool { pos := u.length, length := 2 } = true := by
    simpa [StringLoc.toBool] using hlen
  have hname : drop_front (StringLoc.inStr { pos := u.length, length := 2 }
      (u ++ '$' :: '$' :: v)) = "$".toList := by
    simp [drop_front, StringLoc.inStr, substr]
  have hrest : substrFrom (u ++ '$' :: '$' :: v) (u.length + 2) = v := by
    simp [substrFrom, List.drop_append]
  have hlit : substr (u ++ '$' :: '$' :: v) 0 u.length = u := by
    simp [substr]
  simp only [hb, ↓reduceIte, hname, hr, hrest, hlit]
  rfl

/-- Witness of C1: the template `ret();` in both modes. -/
theorem C1_template_without_marker_unchanged_witness :
    "ret();".toList ≠ [] ∧ '$' ∉ "ret();".toList ∧
    emitOneBuilder recRet ⟨[], []⟩ =
      (LogicalResult.success,
        ⟨"if (auto op = dyn_cast<LLVM::XYOp>(opInst)) \x7b\nret();\n  return success();\n\x7d\n".toList,
          []⟩) ∧
    emitOneIntrBuilder recRet ⟨[], []⟩ =
      (LogicalResult.success,
        ⟨"if (intrinsicID == llvm::Intrinsic::xy) \x7b\nret();\n  return success();\n\x7d\n".toList,
          []⟩) :=
  ⟨by decide, by decide,
    (C1_template_without_marker_unchanged recRet ⟨[], []⟩ "ret();".toList
      (by decide) (by decide)).1 rfl,
    (C1_template_without_marker_unchanged recRet ⟨[], []⟩ "ret();".toList
      (by decide) (by decide)).2 rfl⟩

/-- C2 as stated fails: in a definition with an operand named `$`, the escape `$$` is
classified as that operand in both modes, so `$$literal` does not expand to `$literal`. -/
theorem C2_escape_counterexample :
    expandBuilder opDollar "$$literal".toList =
      Except.ok "moduleTranslation.lookupValue(op.get_$())literal".toList ∧
    expandIntr opDollar "$$literal".toList =
      Except.ok "processValue(llvmOperands[0])literal".toList ∧
    expandBuilder opDollar ([] ++ "$$".toList ++ "literal".toList) ≠
      (expandBuilder opDollar "literal".toList).map (fun e => [] ++ "$".toList ++ e) ∧
    expandIntr opDollar ([] ++ "$$".toList ++ "literal".toList) ≠
      (expandIntr opDollar "literal".toList).map (fun e => [] ++ "$".toList ++ e) := by
  refine ⟨rfl, rfl, ?_, ?_⟩ <;> decide

/-- C2, amended: for every definition in which `$` is not the name of an operand, attribute or
result (of an argument or result in intrinsic mode), every `$`-free `u` and every `v` such that
the length of the template fits in a `size_t`: the scanner locates the escape right after `u`
with length 2, and the expansion of `u ++ "$$" ++ v` is `u`, one `$`, and the expansion of `v`,
failing exactly when the expansion of `v` fails, with the same error. -/
theorem C2_escape_expands_to_one_marker (op : Operator) (u v : Str) (hu : '$' ∉ u)
    (hlen : (u ++ "$$".toList ++ v).length ≤ npos) :
    findNextVariable (u ++ "$$".toList ++ v) = { pos := u.length, length := 2 } ∧
    (isOperandName op "$".toList = false → isAttributeName op "$".toList = false →
      isResultName op "$".toList = false →
      expandBuilder op (u ++ "$$".toList ++ v) =
        (expandBuilder op v).map (fun e => u ++ "$".toList ++ e)) ∧
    (getArgumentIndex op "$".toList = none → isResultName op "$".toList = false →
      expandIntr op (u ++ "$$".toList ++ v) =
        (expandIntr op v).map (fun e => u ++ "$".toList ++ e)) := by
  have hne : u.length ≠ npos := by
    simp only [List.length_append] at hlen
    have : ("$$".toList).length = 2 := rfl
    omega
  refine ⟨?_, ?_, ?_⟩
  · have ht : u ++ "$$".toList ++ v = u ++ '$' :: '$' :: v := by simp
    rw [ht]
    exact findNextVariable_escape v hu hne
  · intro h1 h2 h3
    exact expand_escape _ _ v hu hne (builderRewrite_escape op h1 h2 h3)
  · intro h1 h2
    exact expand_escape _ _ v hu hne (intrRewrite_escape op h1 h2)

/-- Witness of C2: with operands `x` and `y`, the template `$$literal` expands to `$literal`
in both modes. -/
theorem C2_escape_expands_to_one_marker_witness :
    expandBuilder (opXY getUnderscore) "$$literal".toList = Except.ok "$literal".toList ∧
    expandIntr (opXY getUnderscore) "$$literal".toList = Except.ok "$literal".toList :=
  ⟨((C2_escape_expands_to_one_marker (opXY getUnderscore) [] "literal".toList
      (by decide) (by decide)).2.1 rfl rfl rfl).trans rfl,
    ((C2_escape_expands_to_one_marker (opXY getUnderscore) [] "literal".toList
      (by decide) (by decide)).2.2 rfl rfl).trans rfl⟩

/-! ## Operands (C3, C4) -/

/-- The expansion at a located placeholder whose name the `if` chain rewrites to `text`: the
literal text before the placeholder, `text`, and the expansion of the unconsumed suffix. -/
theorem expand_located (rewrite : Str → Option Str) (message : Str → Str) (t text : Str)
    (hfound : (findNextVariable t).toBool = true)
    (hr : rewrite (drop_front ((findNextVariable t).inStr t)) = some text) :
    expand rewrite message t =
      (expand rewrite message
        (substrFrom t ((findNextVariable t).pos + (findNextVariable t).length))).map
          (fun e => substr t 0 (findNextVariable t).pos ++ text ++ e) := by
  rw [expand_unfold rewrite message t]
  simp only [hfound, ↓reduceIte, hr]

/-- The operand branch of the `if` chain of `emitOneBuilder`. -/
theorem builderRewrite_operand (op : Operator) (name : Str) (hop : isOperandName op name = true) :
    builderRewrite op name =
      some (if isVariadicOperandName op name then
        "moduleTranslation.lookupValues(op.".toList ++ op.getGetterName name ++ "())".toList
      else
        "moduleTranslation.lookupValue(op.".toList ++ op.getGetterName name ++ "())".toList) := by
  simp only [builderRewrite, hop, ↓reduceIte]

/-- C3: in builder mode a placeholder whose name is the name of some operand is rewritten to
an operand reference, the singular `lookupValue` form or the plural `lookupValues` form, and
never to the attribute form `op.<getter>()`, also when an attribute has the same name; so the
expansion of a template at such a located placeholder is the literal text before it, the
operand reference, and the expansion of the rest. -/
theorem C3_operand_precedence (op : Operator) (name : Str)
    (hop : isOperandName op name = true) :
    (builderRewrite op name =
        some ("moduleTranslation.lookupValue(op.".toList ++ op.getGetterName name ++
          "())".toList) ∨
      builderRewrite op name =
        some ("moduleTranslation.lookupValues(op.".toList ++ op.getGetterName name ++
          "())".toList)) ∧
    builderRewrite op name ≠ some ("op.".toList ++ op.getGetterName name ++ "()".toList) ∧
    (∀ t : Str, (findNextVariable t).toBool = true →
      drop_front ((findNextVariable t).inStr t) = name →
      ∃ ref : Str,
        (ref = "moduleTranslation.lookupValue(op.".toList ++ op.getGetterName name ++
            "())".toList ∨
          ref = "moduleTranslation.lookupValues(op.".toList ++ op.getGetterName name ++
            "())".toList) ∧
        ref ≠ "op.".toList ++ op.getGetterName name ++ "()".toList ∧
        expandBuilder op t =
          (expandBuilder op
            (substrFrom t ((findNextVariable t).pos + (findNextVariable t).length))).map
              (fun e => substr t 0 (findNextVariable t).pos ++ ref ++ e)) := by
  have hrw := builderRewrite_operand op name hop
  have hs : "moduleTranslation.lookupValue(op.".toList ++ op.getGetterName name ++ "())".toList ≠
      "op.".toList ++ op.getGetterName name ++ "()".toList := by
    intro h
    have := congrArg List.head? h
    simp at this
  have hp : "moduleTranslation.lookupValues(op.".toList ++ op.getGetterName name ++ "())".toList ≠
      "op.".toList ++ op.getGetterName name ++ "()".toList := by
    intro h
    have := congrArg List.head? h
    simp at this
  by_cases hv : isVariadicOperandName op name = true
  · simp only [hv, ↓reduceIte] at hrw
    refine ⟨Or.inr hrw, ?_, ?_⟩
    · rw [hrw]
      intro h
      exact hp (Option.some.inj h)
    · intro t hfound hname
      refine ⟨_, Or.inr rfl, hp, ?_⟩
      exact expand_located _ _ t _ hfound (hname ▸ hrw)
  · simp only [hv, Bool.false_eq_true, ↓reduceIte] at hrw
    refine ⟨Or.inl hrw, ?_, ?_⟩
    · rw [hrw]
      intro h
      exact hs (Option.some.inj h)
    · intro t hfound hname
      refine ⟨_, Or.inl rfl, hs, ?_⟩
      exact expand_located _ _ t _ hfound (hname ▸ hrw)

/-- Witness of C3: with an operand and an attribute both named `a`, the placeholder `$a` is
rewritten to the operand reference, and `emitOneBuilder` emits it for the template `f($a)`. -/
theorem C3_operand_precedence_witness :
    isOperandName opClash "a".toList = true ∧ isAttributeName opClash "a".toList = true ∧
    builderRewrite opClash "a".toList ≠ some "op.get_a()".toList ∧
    emitOneBuilder ⟨opClash, some "f($a)".toList, none, []⟩ ⟨[], []⟩ =
      (LogicalResult.success,
        ⟨"if (auto op = dyn_cast<LLVM::ClashOp>(opInst)) \x7b\nf(moduleTranslation.lookupValue(op.get_a()))\n  return success();\n\x7d\n".toList,
          []⟩) :=
  ⟨rfl, rfl, (C3_operand_precedence opClash "a".toList rfl).2.1, rfl⟩

theorem isVariadicOperandName_eq (op : Operator) (name : Str) :
    isVariadicOperandName op name =
      match op.operands.getLast? with
      | some operand => operand.isVariableLength && operand.name == name
      | none => false := by
  unfold isVariadicOperandName Operator.getNumOperands Operator.getOperand
  rw [List.getLast?_eq_getElem?]
  cases h : op.operands with
  | nil => rfl
  | cons o os => simp

theorem isOperandName_of_getLast? (op : Operator) (last : NamedTypeConstraint)
    (h : op.operands.getLast? = some last) : isOperandName op last.name = true := by
  unfold isOperandName
  rw [List.any_eq_true]
  exact ⟨last, List.mem_of_getLast?_eq_some h, by simp⟩

/-- C4: in builder mode, when the last operand is variable-length a placeholder with its name
is a variadic operand and is rewritten to the plural lookup `lookupValues`; a placeholder
naming an operand is an ordinary operand and is rewritten to the singular lookup `lookupValue`
when its name differs from the name of the last operand or the last operand is not
variable-length.  In each case the expansion at such a located placeholder is the literal text
before it, the lookup, and the expansion of the rest.  The template `build($x, $y)` with
non-variadic operands `x` and `y` expands to `build(` lookup of `x` `, ` lookup of `y` `)`. -/
theorem C4_variadic_operand_lookup (op : Operator) (name : Str) (last : NamedTypeConstraint)
    (hlast : op.operands.getLast? = some last) :
    (last.isVariableLength = true → last.name = name →
      isOperandName op name = true ∧ isVariadicOperandName op name = true ∧
      builderRewrite op name =
        some ("moduleTranslation.lookupValues(op.".toList ++ op.getGetterName name ++
          "())".toList) ∧
      ∀ t : Str, (findNextVariable t).toBool = true →
        drop_front ((findNextVariable t).inStr t) = name →
        expandBuilder op t =
          (expandBuilder op
            (substrFrom t ((findNextVariable t).pos + (findNextVariable t).length))).map
              (fun e => substr t 0 (findNextVariable t).pos ++
                ("moduleTranslation.lookupValues(op.".toList ++ op.getGetterName name ++
                  "())".toList) ++ e)) ∧
    (isOperandName op name = true → (last.isVariableLength = false ∨ last.name ≠ name) →
      isVariadicOperandName op name = false ∧
      builderRewrite op name =
        some ("moduleTranslation.lookupValue(op.".toList ++ op.getGetterName name ++
          "())".toList) ∧
      ∀ t : Str, (findNextVariable t).toBool = true →
        drop_front ((findNextVariable t).inStr t) = name →
        expandBuilder op t =
          (expandBuilder op
            (substrFrom t ((findNextVariable t).pos + (findNextVariable t).length))).map
              (fun e => substr t 0 (findNextVariable t).pos ++
                ("moduleTranslation.lookupValue(op.".toList ++ op.getGetterName name ++
                  "())".toList) ++ e)) ∧
    (∀ g : Str → Str,
      expandBuilder (opXY g) "build($x, $y)".toList =
        Except.ok ("build(".toList ++
          ("moduleTranslation.lookupValue(op.".toList ++ g "x".toList ++ "())".toList) ++
          ", ".toList ++
          ("moduleTranslation.lookupValue(op.".toList ++ g "y".toList ++ "())".toList) ++
          ")".toList)) := by
  have hvar := isVariadicOperandName_eq op name
  rw [hlast] at hvar
  refine ⟨?_, ?_, ?_⟩
  · intro hvl hname
    have hop : isOperandName op name = true := hname ▸ isOperandName_of_getLast? op last hlast
    have hv : isVariadicOperandName op name = true := by
      rw [hvar]
      simp [hvl, hname]
    have hrw := builderRewrite_operand op name hop
    simp only [hv, ↓reduceIte] at hrw
    refine ⟨hop, hv, hrw, ?_⟩
    intro t hfound hn
    exact expand_located _ _ t _ hfound (hn ▸ hrw)
  · intro hop hdiff
    have hv : isVariadicOperandName op name = false := by
      rw [hvar]
      rcases hdiff with h | h
      · simp [h]
      · simp [h]
    have hrw := builderRewrite_operand op name hop
    simp only [hv, Bool.false_eq_true, ↓reduceIte] at hrw
    refine ⟨hv, hrw, ?_⟩
    intro t hfound hn
    exact expand_located _ _ t _ hfound (hn ▸ hrw)
  · intro g
    rfl

/-- Witness of C4: with operands `a` and `b`, the last one variable-length, `$b` is
rewritten to the plural lookup and `$a` to the singular lookup. -/
theorem C4_variadic_operand_lookup_witness :
    builderRewrite opAB "b".toList = some "moduleTranslation.lookupValues(op.get_b())".toList ∧
    builderRewrite opAB "a".toList = some "moduleTranslation.lookupValue(op.get_a())".toList ∧
    expandBuilder opAB "f($a, $b)".toList =
      Except.ok
        "f(moduleTranslation.lookupValue(op.get_a()), moduleTranslation.lookupValues(op.get_b()))".toList :=
  ⟨((C4_variadic_operand_lookup opAB "b".toList ⟨"b".toList, true⟩ rfl).1 rfl rfl).2.2.1,
    ((C4_variadic_operand_lookup opAB "a".toList ⟨"b".toList, true⟩ rfl).2.1 rfl
      (Or.inr (by decide))).2.1,
    rfl⟩

/-! ## Scanning and the expansion (C5, C7 to C9) -/

theorem scanLoop_nil (n : Nat) : scanLoop n [] = ([], []) := by
  cases n with
  | zero => rfl
  | succ n => simp [scanLoop, findNextVariable_nil]

/-- The step budget of the scan is irrelevant once it is at least the length of the suffix. -/
theorem scanLoop_fuel : ∀ (n m : Nat) (str : Str), str.length ≤ n → str.length ≤ m →
    scanLoop n str = scanLoop m str := by
  intro n
  induction n with
  | zero =>
    intro m str hn _
    have : str = [] := List.length_eq_zero.mp (Nat.le_zero.mp hn)
    subst this
    rw [scanLoop_nil, scanLoop_nil]
  | succ n ih =>
    intro m str hn hm
    cases m with
    | zero =>
      have : str = [] := List.length_eq_zero.mp (Nat.le_zero.mp hm)
      subst this
      rw [scanLoop_nil, scanLoop_nil]
    | succ m =>
      simp only [scanLoop]
      split
      · rename_i hfound
        have hlt := length_substrFrom_lt hfound
        rw [ih m _ (by omega) (by omega)]
      · rfl

/-- The scan equation: the first located placeholder with the literal span before it, followed
by the scan of the unconsumed suffix. -/
theorem scan_unfold (t : Str) :
    scan t =
      if (findNextVariable t).toBool then
        ((substr t 0 (findNextVariable t).pos, (findNextVariable t).inStr t) ::
            (scan (substrFrom t ((findNextVariable t).pos + (findNextVariable t).length))).1,
          (scan (substrFrom t ((findNextVariable t).pos + (findNextVariable t).length))).2)
      else
        ([], t) := by
  cases t with
  | nil => simp [scan, scanLoop, findNextVariable_nil]
  | cons c cs =>
    by_cases hfound : (findNextVariable (c :: cs)).toBool = true
    · have hlt := length_substrFrom_lt hfound
      simp only [scan, List.length_cons, scanLoop, hfound, ↓reduceIte]
      rw [scanLoop_fuel cs.length _ _ (by simp only [List.length_cons] at hlt; omega)
        (Nat.le_refl _)]
    · simp [scan, scanLoop, hfound]

/-- The expansion in terms of the scan: the error message of the leftmost placeholder name the
`if` chain rejects, or, when it rejects none, the interleaving of the literal spans with the
texts the chain produces for the placeholders. -/
theorem expand_eq_scan (rewrite : Str → Option Str) (message : Str → Str) :
    ∀ (n : Nat) (t : Str), t.length ≤ n →
      expand rewrite message t =
        match (placeholderNames t).find? (fun name => (rewrite name).isNone) with
        | some name => Except.error (message name)
        | none =>
          Except.ok (interleave (fun p => (rewrite (drop_front p)).getD []) (scan t).1 (scan t).2) := by
  intro n
  induction n with
  | zero =>
    intro t ht
    have : t = [] := List.length_eq_zero.mp (Nat.le_zero.mp ht)
    subst this
    rfl
  | succ n ih =>
    intro t ht
    rw [expand_unfold, placeholderNames, scan_unfold]
    by_cases hfound : (findNextVariable t).toBool = true
    · have hlt := length_substrFrom_lt hfound
      simp only [hfound, ↓reduceIte, List.map_cons, List.find?_cons]
      cases hr : rewrite (drop_front ((findNextVariable t).inStr t)) with
      | none => simp
      | some text =>
        simp only [Option.isNone_some]
        rw [ih _ (by omega)]
        simp only [placeholderNames]
        cases List.find? (fun name => (rewrite name).isNone)
          (List.map (fun p => drop_front p.2)
            (scan (substrFrom t ((findNextVariable t).pos + (findNextVariable t).length))).1) with
        | some name => rfl
        | none => simp [Except.map, interleave, hr]
    · simp [hfound, interleave]

/-- The final `else` of the chain of `emitOneBuilder` is reached exactly for the names that
builder mode cannot classify. -/
theorem builderRewrite_isNone (op : Operator) (name : Str) :
    (builderRewrite op name).isNone = builderUnknown op name := by
  unfold builderRewrite builderUnknown
  simp only
  cases isOperandName op name <;> cases isAttributeName op name <;>
    cases isResultName op name <;>
    simp only [Bool.false_eq_true, ↓reduceIte, Bool.not_false, Bool.not_true, Bool.true_and,
      Bool.false_and, Option.isNone_some, bne_iff_ne, ne_eq]
  repeat' split
  all_goals simp_all

theorem getArgumentIndex_isNone (op : Operator) (name : Str) :
    (getArgumentIndex op name).isNone = !(op.arguments.any fun a => a.name == name) := by
  unfold getArgumentIndex
  cases h : List.findIdx? (fun a => a.name == name) op.arguments with
  | none =>
    rw [List.findIdx?_eq_none_iff] at h
    have : (op.arguments.any fun a => a.name == name) = false := by
      rw [List.any_eq_false]
      intro x hx
      simpa using h x hx
    simp [this]
  | some i =>
    have hs := List.findIdx?_of_eq_some h
    have : (op.arguments.any fun a => a.name == name) = true := by
      rw [List.any_eq_true]
      cases hx : op.arguments[i]? with
      | none => simp [hx] at hs
      | some x =>
        simp only [hx] at hs
        exact ⟨x, List.getElem?_mem hx, hs⟩
    simp [this]

/-- The final `else` of the chain of `emitOneIntrBuilder` is reached exactly for the names
that intrinsic mode cannot classify. -/
theorem intrRewrite_isNone (op : Operator) (name : Str) :
    (intrRewrite op name).isNone = intrUnknown op name := by
  have harg := getArgumentIndex_isNone op name
  unfold intrRewrite intrUnknown
  cases hidx : getArgumentIndex op name with
  | some i =>
    rw [hidx] at harg
    simp only [Option.isNone_some] at harg
    simp [← harg]
  | none =>
    rw [hidx] at harg
    simp only [Option.isNone_none] at harg
    rw [← harg]
    cases isResultName op name <;>
      simp only [Bool.false_eq_true, ↓reduceIte, Bool.not_false, Bool.not_true, Bool.true_and,
        Bool.false_and, Option.isNone_some, bne_iff_ne, ne_eq]
    repeat' split
    all_goals simp_all

theorem placeholderNames_nil : placeholderNames [] = [] := rfl

theorem success_ne_failure : LogicalResult.success ≠ LogicalResult.failure := by decide

/-- The behaviour of `emitOneBuilder` on a present template in terms of the scan: the error of
the leftmost placeholder that cannot be classified, or, when there is none, nothing for the
empty template and the block around the interleaved expansion otherwise. -/
theorem emitOneBuilder_scan (record : Record) (st : Streams) (t : Str)
    (h : record.llvmBuilder = some t) :
    emitOneBuilder record st =
      match (placeholderNames t).find? (builderUnknown record.op) with
      | some name => emitError (builderMessage record.op name) st
      | none =>
        if t = [] then (LogicalResult.success, st)
        else
          (LogicalResult.success,
            { st with os := st.os ++ "if (auto op = dyn_cast<".toList ++
                record.op.getQualCppClassName ++ ">(opInst)) \x7b\n".toList ++
                (interleave (fun p => (builderRewrite record.op (drop_front p)).getD [])
                  (scan t).1 (scan t).2) ++
                "\n  return success();\n\x7d\n".toList }) := by
  by_cases hne : t = []
  · subst hne
    simp [emitOneBuilder, h, placeholderNames_nil]
  · have hfun : (fun name => (builderRewrite record.op name).isNone) =
        builderUnknown record.op := funext (builderRewrite_isNone record.op)
    rw [emitOneBuilder_eq record st t h hne, expandBuilder,
      expand_eq_scan _ _ t.length t (Nat.le_refl _), hfun]
    cases List.find? (builderUnknown record.op) (placeholderNames t) with
    | some name => rfl
    | none => simp [hne]

/-- The behaviour of `emitOneIntrBuilder` on a present template in terms of the scan. -/
theorem emitOneIntrBuilder_scan (record : Record) (st : Streams) (t : Str)
    (h : record.mlirBuilder = some t) :
    emitOneIntrBuilder record st =
      match (placeholderNames t).find? (intrUnknown record.op) with
      | some name => emitError (intrMessage record.op name) st
      | none =>
        if t = [] then (LogicalResult.success, st)
        else
          (LogicalResult.success,
            { st with os := st.os ++ "if (intrinsicID == llvm::Intrinsic::".toList ++
                record.llvmEnumName ++ ") \x7b\n".toList ++
                (interleave (fun p => (intrRewrite record.op (drop_front p)).getD [])
                  (scan t).1 (scan t).2) ++
                "\n  return success();\n\x7d\n".toList }) := by
  by_cases hne : t = []
  · subst hne
    simp [emitOneIntrBuilder, h, placeholderNames_nil]
  · have hfun : (fun name => (intrRewrite record.op name).isNone) =
        intrUnknown record.op := funext (intrRewrite_isNone record.op)
    rw [emitOneIntrBuilder_eq record st t h hne, expandIntr,
      expand_eq_scan _ _ t.length t (Nat.le_refl _), hfun]
    cases List.find? (intrUnknown record.op) (placeholderNames t) with
    | some name => rfl
    | none => simp [hne]

theorem builderUnknown_iff (op : Operator) (name : Str) :
    builderUnknown op name = true ↔
      isOperandName op name = false ∧ isAttributeName op name = false ∧
      isResultName op name = false ∧ name ≠ "_resultType".toList ∧
      name ≠ "_hasResult".toList ∧ name ≠ "_location".toList ∧
      name ≠ "_numOperands".toList ∧ name ≠ "$".toList := by
  simp only [builderUnknown, Bool.and_eq_true, Bool.not_eq_true', bne_iff_ne, ne_eq]
  tauto

/-- C5: for a definition with an `llvmBuilder` field, `emitOneBuilder` returns failure if and
only if some placeholder located by scanning the template from left to right has a name that
is not an operand name, not an attribute name, not a result name, none of the four keywords
and not the escape; otherwise it returns success. -/
theorem C5_builder_fails_iff_unknown_placeholder (record : Record) (st : Streams) (t : Str)
    (h : record.llvmBuilder = some t) :
    ((emitOneBuilder record st).1 = LogicalResult.failure ↔
      ∃ name ∈ placeholderNames t,
        isOperandName record.op name = false ∧ isAttributeName record.op name = false ∧
        isResultName record.op name = false ∧ name ≠ "_resultType".toList ∧
        name ≠ "_hasResult".toList ∧ name ≠ "_location".toList ∧
        name ≠ "_numOperands".toList ∧ name ≠ "$".toList) ∧
    ((emitOneBuilder record st).1 = LogicalResult.success ↔
      ¬ ∃ name ∈ placeholderNames t,
        isOperandName record.op name = false ∧ isAttributeName record.op name = false ∧
        isResultName record.op name = false ∧ name ≠ "_resultType".toList ∧
        name ≠ "_hasResult".toList ∧ name ≠ "_location".toList ∧
        name ≠ "_numOperands".toList ∧ name ≠ "$".toList) := by
  have hscan := emitOneBuilder_scan record st t h
  cases hf : List.find? (builderUnknown record.op) (placeholderNames t) with
  | some name =>
    rw [hf] at hscan
    have hex : ∃ name ∈ placeholderNames t,
        isOperandName record.op name = false ∧ isAttributeName record.op name = false ∧
        isResultName record.op name = false ∧ name ≠ "_resultType".toList ∧
        name ≠ "_hasResult".toList ∧ name ≠ "_location".toList ∧
        name ≠ "_numOperands".toList ∧ name ≠ "$".toList :=
      ⟨name, List.mem_of_find?_eq_some hf,
        (builderUnknown_iff record.op name).mp (List.find?_some hf)⟩
    have hres : (emitOneBuilder record st).1 = LogicalResult.failure := by
      rw [hscan]
      rfl
    constructor
    · exact ⟨fun _ => hex, fun _ => hres⟩
    · constructor
      · intro hs
        rw [hres] at hs
        exact absurd hs (by decide)
      · intro hn
        exact absurd hex hn
  | none =>
    rw [hf] at hscan
    have hnex : ¬ ∃ name ∈ placeholderNames t,
        isOperandName record.op name = false ∧ isAttributeName record.op name = false ∧
        isResultName record.op name = false ∧ name ≠ "_resultType".toList ∧
        name ≠ "_hasResult".toList ∧ name ≠ "_location".toList ∧
        name ≠ "_numOperands".toList ∧ name ≠ "$".toList := by
      rintro ⟨name, hmem, hunk⟩
      have := List.find?_eq_none.mp hf name hmem
      exact this ((builderUnknown_iff record.op name).mpr hunk)
    have hres : (emitOneBuilder record st).1 = LogicalResult.success := by
      rw [hscan]
      simp only
      split <;> rfl
    constructor
    · constructor
      · intro hs
        rw [hres] at hs
        exact absurd hs (by decide)
      · intro hex
        exact absurd hex hnex
    · exact ⟨fun _ => hnex, fun _ => hres⟩

/-- Witness of C5: the template `f($x, $zz, $ww)` with operands `x` and `y` fails, its
placeholder `$zz` naming nothing, and the template `build($x, $y)` succeeds. -/
theorem C5_builder_fails_iff_unknown_placeholder_witness :
    (emitOneBuilder recBad ⟨[], []⟩).1 = LogicalResult.failure ∧
    (emitOneBuilder ⟨opXY getUnderscore, some "build($x, $y)".toList, none, []⟩ ⟨[], []⟩).1 =
      LogicalResult.success :=
  ⟨(C5_builder_fails_iff_unknown_placeholder recBad ⟨[], []⟩ "f($x, $zz, $ww)".toList rfl).1.mpr
      ⟨"zz".toList, by decide, by decide⟩,
    (C5_builder_fails_iff_unknown_placeholder
      ⟨opXY getUnderscore, some "build($x, $y)".toList, none, []⟩ ⟨[], []⟩
      "build($x, $y)".toList rfl).2.mpr (by decide)⟩

/-- C7: whenever `emitOneBuilder` or `emitOneIntrBuilder` returns failure, the output stream
is exactly what it was before the call. -/
theorem C7_failure_leaves_output_untouched (record : Record) (st : Streams) :
    ((emitOneBuilder record st).1 = LogicalResult.failure →
      (emitOneBuilder record st).2.os = st.os) ∧
    ((emitOneIntrBuilder record st).1 = LogicalResult.failure →
      (emitOneIntrBuilder record st).2.os = st.os) := by
  constructor
  · intro hfail
    cases h : record.llvmBuilder with
    | none => simp [emitOneBuilder, h, emitError]
    | some t =>
      have hscan := emitOneBuilder_scan record st t h
      cases hf : List.find? (builderUnknown record.op) (placeholderNames t) with
      | some name =>
        rw [hscan, hf]
        rfl
      | none =>
        rw [hscan, hf] at hfail
        simp only at hfail
        split at hfail <;> exact absurd hfail success_ne_failure
  · intro hfail
    cases h : record.mlirBuilder with
    | none => simp [emitOneIntrBuilder, h, emitError]
    | some t =>
      have hscan := emitOneIntrBuilder_scan record st t h
      cases hf : List.find? (intrUnknown record.op) (placeholderNames t) with
      | some name =>
        rw [hscan, hf]
        rfl
      | none =>
        rw [hscan, hf] at hfail
        simp only at hfail
        split at hfail <;> exact absurd hfail success_ne_failure

/-- Witness of C7: the failing template `f($x, $zz, $ww)` leaves the text already in the
output stream as it was, in both modes. -/
theorem C7_failure_leaves_output_untouched_witness :
    (emitOneBuilder recBad ⟨"before".toList, []⟩).1 = LogicalResult.failure ∧
    (emitOneBuilder recBad ⟨"before".toList, []⟩).2.os = "before".toList ∧
    (emitOneIntrBuilder recBad ⟨"before".toList, []⟩).1 = LogicalResult.failure ∧
    (emitOneIntrBuilder recBad ⟨"before".toList, []⟩).2.os = "before".toList :=
  ⟨rfl, (C7_failure_leaves_output_untouched recBad ⟨"before".toList, []⟩).1 rfl,
    rfl, (C7_failure_leaves_output_untouched recBad ⟨"before".toList, []⟩).2 rfl⟩

/-- C8: when the template field of the mode is absent, generation fails with an error naming
the field and the operation and writes nothing to the output; when the field is present with
the empty string as its value, generation succeeds and writes nothing at all. -/
theorem C8_missing_versus_empty_template (record : Record) (st : Streams) :
    (record.llvmBuilder = none →
      emitOneBuilder record st =
        (LogicalResult.failure,
          { os := st.os
            errs := st.errs ++
              ("no \x27llvmBuilder\x27 field for op ".toList ++ record.op.getOperationName) ++
              "\n".toList })) ∧
    (record.llvmBuilder = some [] → emitOneBuilder record st = (LogicalResult.success, st)) ∧
    (record.mlirBuilder = none →
      emitOneIntrBuilder record st =
        (LogicalResult.failure,
          { os := st.os
            errs := st.errs ++
              ("no \x27mlirBuilder\x27 field for op ".toList ++ record.op.getOperationName) ++
              "\n".toList })) ∧
    (record.mlirBuilder = some [] →
      emitOneIntrBuilder record st = (LogicalResult.success, st)) := by
  refine ⟨?_, ?_, ?_, ?_⟩
  · intro h
    simp [emitOneBuilder, h, emitError]
  · intro h
    simp [emitOneBuilder, h]
  · intro h
    simp [emitOneIntrBuilder, h, emitError]
  · intro h
    simp [emitOneIntrBuilder, h]

/-- Witness of C8: a record without template fields and a record with empty ones. -/
theorem C8_missing_versus_empty_template_witness :
    emitOneBuilder recAbsent ⟨"before".toList, []⟩ =
      (LogicalResult.failure,
        ⟨"before".toList, "no \x27llvmBuilder\x27 field for op llvm.xy\n".toList⟩) ∧
    emitOneBuilder recEmpty ⟨"before".toList, []⟩ =
      (LogicalResult.success, ⟨"before".toList, []⟩) ∧
    emitOneIntrBuilder recAbsent ⟨"before".toList, []⟩ =
      (LogicalResult.failure,
        ⟨"before".toList, "no \x27mlirBuilder\x27 field for op llvm.xy\n".toList⟩) ∧
    emitOneIntrBuilder recEmpty ⟨"before".toList, []⟩ =
      (LogicalResult.success, ⟨"before".toList, []⟩) :=
  ⟨(C8_missing_versus_empty_template recAbsent ⟨"before".toList, []⟩).1 rfl,
    (C8_missing_versus_empty_template recEmpty ⟨"before".toList, []⟩).2.1 rfl,
    (C8_missing_versus_empty_template recAbsent ⟨"before".toList, []⟩).2.2.1 rfl,
    (C8_missing_versus_empty_template recEmpty ⟨"before".toList, []⟩).2.2.2 rfl⟩

/-- The three slices taken by one iteration of the loop partition the string. -/
theorem slices_partition (t : Str) (pos len : Nat) :
    substr t 0 pos ++ StringLoc.inStr { pos := pos, length := len } t ++
      substrFrom t (pos + len) = t := by
  simp only [substr, StringLoc.inStr, substrFrom, List.drop_zero, List.append_assoc]
  rw [← List.drop_drop, List.take_append_drop, List.take_append_drop]

/-- The template is the interleaving of its literal spans with its located placeholders. -/
theorem interleave_scan_id : ∀ (n : Nat) (t : Str), t.length ≤ n →
    interleave (fun p => p) (scan t).1 (scan t).2 = t := by
  intro n
  induction n with
  | zero =>
    intro t ht
    have : t = [] := List.length_eq_zero.mp (Nat.le_zero.mp ht)
    subst this
    rfl
  | succ n ih =>
    intro t ht
    rw [scan_unfold]
    by_cases hfound : (findNextVariable t).toBool = true
    · have hlt := length_substrFrom_lt hfound
      simp only [hfound, ↓reduceIte, interleave]
      rw [ih _ (by omega)]
      exact slices_partition t _ _
    · simp [hfound, interleave]

/-- When the expansion succeeds, the `if` chain produces a text for every located placeholder
and the expansion is the interleaving of the literal spans with these texts. -/
theorem expand_ok_interleave (rewrite : Str → Option Str) (message : Str → Str) (t e : Str)
    (h : expand rewrite message t = Except.ok e) :
    (∀ p ∈ (scan t).1, ∃ s, rewrite (drop_front p.2) = some s) ∧
      e = interleave (fun p => (rewrite (drop_front p)).getD []) (scan t).1 (scan t).2 := by
  rw [expand_eq_scan rewrite message t.length t (Nat.le_refl _)] at h
  cases hf : List.find? (fun name => (rewrite name).isNone) (placeholderNames t) with
  | some name =>
    rw [hf] at h
    cases h
  | none =>
    rw [hf] at h
    simp only [Except.ok.injEq] at h
    refine ⟨?_, h.symm⟩
    intro p hp
    have hmem : drop_front p.2 ∈ placeholderNames t := List.mem_map_of_mem _ hp
    have := List.find?_eq_none.mp hf _ hmem
    cases hr : rewrite (drop_front p.2) with
    | none => simp [hr] at this
    | some s => exact ⟨s, rfl⟩

/-- C9: the template is the interleaving `l0 ++ p1 ++ l1 ++ ... ++ pn ++ ln` of its literal
spans with the placeholders located by repeatedly applying `findNextVariable` to the
unconsumed suffix, and whenever expansion succeeds, in either mode, every located placeholder
has a substitution and the expansion is the interleaving `l0 ++ s1 ++ l1 ++ ... ++ sn ++ ln` of
the same literal spans with these substitutions; so the expansion with its substitutions
erased and the template with its placeholders removed are the same text
`l0 ++ l1 ++ ... ++ ln`. -/
theorem C9_literal_preservation (op : Operator) (t : Str) :
    t = interleave (fun p => p) (scan t).1 (scan t).2 ∧
    (∀ e, expandBuilder op t = Except.ok e →
      (∀ p ∈ (scan t).1, ∃ s, builderRewrite op (drop_front p.2) = some s) ∧
      e = interleave (fun p => (builderRewrite op (drop_front p)).getD [])
        (scan t).1 (scan t).2) ∧
    (∀ e, expandIntr op t = Except.ok e →
      (∀ p ∈ (scan t).1, ∃ s, intrRewrite op (drop_front p.2) = some s) ∧
      e = interleave (fun p => (intrRewrite op (drop_front p)).getD [])
        (scan t).1 (scan t).2) :=
  ⟨(interleave_scan_id t.length t (Nat.le_refl _)).symm,
    fun e h => expand_ok_interleave _ _ t e h,
    fun e h => expand_ok_interleave _ _ t e h⟩

/-- Witness of C9: the template `f($a, $b);` with operands `a` and `b`: its scan, and its
expansion as the interleaving of the literal spans `f(`, `, `, `);` with the two lookups. -/
theorem C9_literal_preservation_witness :
    scan "f($a, $b);".toList =
      ([("f(".toList, "$a".toList), (", ".toList, "$b".toList)], ");".toList) ∧
    expandBuilder opAB "f($a, $b);".toList =
      Except.ok
        "f(moduleTranslation.lookupValue(op.get_a()), moduleTranslation.lookupValues(op.get_b()));".toList ∧
    "f(moduleTranslation.lookupValue(op.get_a()), moduleTranslation.lookupValues(op.get_b()));".toList =
      interleave (fun p => (builderRewrite opAB (drop_front p)).getD [])
        [("f(".toList, "$a".toList), (", ".toList, "$b".toList)] ");".toList :=
  ⟨rfl, rfl,
    ((C9_literal_preservation opAB "f($a, $b);".toList).2.1
      "f(moduleTranslation.lookupValue(op.get_a()), moduleTranslation.lookupValues(op.get_b()));".toList
      rfl).2⟩

/-! ## The first marker (C10) -/

/-- C10: for every string whose length fits in a `size_t`, `findNextVariable` returns the
not-found location, with position `npos` and length 0, if and only if the string contains no
`$`; otherwise the returned position is the index of the first `$`: the character there is `$`
and no smaller index holds a `$`. -/
theorem C10_findNextVariable_first_marker (s : Str) (hlen : s.length ≤ npos) :
    (findNextVariable s = { pos := npos, length := 0 } ↔ '$' ∉ s) ∧
    ((findNextVariable s).toBool = false ↔ '$' ∉ s) ∧
    ('$' ∈ s →
      (findNextVariable s).pos < s.length ∧ s[(findNextVariable s).pos]? = some '$' ∧
      ∀ i, i < (findNextVariable s).pos → s[i]? ≠ some '$') := by
  have hpos := findNextVariable_pos s
  have hin : '$' ∈ s →
      (findNextVariable s).pos < s.length ∧ s[(findNextVariable s).pos]? = some '$' ∧
      ∀ i, i < (findNextVariable s).pos → s[i]? ≠ some '$' := by
    intro hmem
    obtain ⟨hidx, hlt⟩ := find_of_mem hmem
    rw [hpos, hidx]
    rw [hidx] at hlt
    refine ⟨hlt, ?_, ?_⟩
    · rw [List.getElem?_eq_getElem hlt]
      have := @List.findIdx_getElem _ (fun d => d == '$') s hlt
      simp only [beq_iff_eq] at this
      rw [this]
    · intro i hi
      have hil : i < s.length := Nat.lt_trans hi hlt
      rw [List.getElem?_eq_getElem hil]
      have := List.not_of_lt_findIdx hi
      simp only [beq_eq_false_iff_ne, ne_eq] at this
      simpa using this
  have hnot : '$' ∉ s → findNextVariable s = { pos := npos, length := 0 } := by
    intro hno
    unfold findNextVariable
    simp [find_of_not_mem hno]
  refine ⟨⟨?_, hnot⟩, ⟨?_, findNextVariable_of_not_mem⟩, hin⟩
  · intro heq hmem
    have := (hin hmem).1
    rw [heq] at this
    simp only at this
    omega
  · intro hb hmem
    have := (hin hmem).1
    have hp : (findNextVariable s).pos = npos := by
      simpa [StringLoc.toBool] using hb
    omega

/-- Witness of C10: in `ab$c$d` the first `$` is located, and `abc` has none. -/
theorem C10_findNextVariable_first_marker_witness :
    "ab$c$d".toList.length ≤ npos ∧ '$' ∈ "ab$c$d".toList ∧
    ((findNextVariable "ab$c$d".toList).pos < "ab$c$d".toList.length ∧
      "ab$c$d".toList[(findNextVariable "ab$c$d".toList).pos]? = some '$' ∧
      ∀ i, i < (findNextVariable "ab$c$d".toList).pos → "ab$c$d".toList[i]? ≠ some '$') ∧
    findNextVariable "abc".toList = { pos := npos, length := 0 } :=
  ⟨by decide, by decide,
    (C10_findNextVariable_first_marker "ab$c$d".toList (by decide)).2.2 (by decide),
    (C10_findNextVariable_first_marker "abc".toList (by decide)).1.mpr (by decide)⟩

/-! ## The located placeholder (C11, C12) -/

/-- The position of the first occurrence: an index that holds `c` and has no `c` below it is
what `find` returns. -/
theorem find_eq_of_first {s : Str} {c : Char} {p : Nat} (hp : s[p]? = some c)
    (hfirst : ∀ i, i < p → s[i]? ≠ some c) : find s c = p := by
  obtain ⟨hlt, hget⟩ := List.getElem?_eq_some.mp hp
  have hidx : s.findIdx (fun d => d == c) = p := by
    rw [List.findIdx_eq hlt]
    refine ⟨by simp [hget], ?_⟩
    intro j hj
    have := hfirst j hj
    rw [List.getElem?_eq_getElem (Nat.lt_trans hj hlt)] at this
    simpa using this
  unfold find
  simp [hidx, hlt]

/-- The escape branch of `findNextVariable`. -/
theorem findNextVariable_of_escape {s : Str} {p : Nat} (hfind : find s '$' = p)
    (hne : p ≠ npos) (hnext : s[p + 1]? = some '$') :
    findNextVariable s = { pos := p, length := 2 } := by
  obtain ⟨hlt, _⟩ := List.getElem?_eq_some.mp hnext
  unfold findNextVariable
  have h1 : (p == npos) = false := by simpa using hne
  have h2 : (p != s.length - 1) = true := by
    simp only [bne_iff_ne, ne_eq]
    omega
  simp [hfind, h1, h2, hnext]

/-- The identifier branch of `findNextVariable`: the length is one more than the length of the
run of identifier characters after the `$`. -/
theorem findNextVariable_of_not_escape {s : Str} {p : Nat} (hfind : find s '$' = p)
    (hlt : p < s.length) (hlen : s.length ≤ npos) (hnext : s[p + 1]? ≠ some '$') :
    findNextVariable s =
      { pos := p, length := 1 + ((s.drop (p + 1)).takeWhile isVarChar).length } := by
  have hk : ((s.drop (p + 1)).takeWhile isVarChar).length =
      (s.drop (p + 1)).findIdx (fun c => !isVarChar c) := by
    rw [List.takeWhile_eq_take_findIdx_not, List.length_take]
    exact Nat.min_eq_left (List.findIdx_le_length _)
  have hkle : (s.drop (p + 1)).findIdx (fun c => !isVarChar c) ≤ (s.drop (p + 1)).length :=
    List.findIdx_le_length _
  rw [List.length_drop] at hkle
  unfold findNextVariable
  have h1 : (p == npos) = false := by
    simp only [beq_eq_false_iff_ne, ne_eq]
    omega
  have h2 : (p != s.length - 1 && s[p + 1]? == some '$') = false := by
    simp only [Bool.and_eq_false_imp, bne_iff_ne, ne_eq, beq_eq_false_iff_ne]
    intro _
    exact hnext
  simp only [hfind, h1, h2, Bool.false_eq_true, ↓reduceIte, hk, StringLoc.mk.injEq, true_and]
  unfold find_if_not
  simp only [List.length_drop]
  by_cases hfound : (s.drop (p + 1)).findIdx (fun c => !isVarChar c) < s.length - (p + 1)
  · have h3 : (p + 1 + (s.drop (p + 1)).findIdx (fun c => !isVarChar c) == npos) = false := by
      simp only [beq_eq_false_iff_ne, ne_eq]
      omega
    simp only [hfound, ↓reduceIte, h3, Bool.false_eq_true]
    omega
  · simp only [hfound, ↓reduceIte, beq_self_eq_true]
    omega

theorem isVarChar_iff (c : Char) : isVarChar c = true ↔ (isAlnum c = true ∨ c = '_') := by
  simp [isVarChar]

/-- C11: for every string whose length fits in a `size_t` and whose first `$` is at index `p`,
the result of `findNextVariable` has length 2 with `$$` as the located text if and only if
`p + 1` is within the string and holds a `$`; the result is then located at `p`, whatever
follows the pair, also when the second `$` is the last character (`a$$`, `$$x`, `$$$`). -/
theorem C11_findNextVariable_escape_form (s : Str) (p : Nat) (hlen : s.length ≤ npos)
    (hp : s[p]? = some '$') (hfirst : ∀ i, i < p → s[i]? ≠ some '$') :
    (((findNextVariable s).length = 2 ∧ (findNextVariable s).inStr s = "$$".toList) ↔
      (p + 1 < s.length ∧ s[p + 1]? = some '$')) ∧
    (s[p + 1]? = some '$' → findNextVariable s = { pos := p, length := 2 }) ∧
    findNextVariable "a$$".toList = { pos := 1, length := 2 } ∧
    findNextVariable "$$x".toList = { pos := 0, length := 2 } ∧
    findNextVariable "$$$".toList = { pos := 0, length := 2 } := by
  have hfind := find_eq_of_first hp hfirst
  obtain ⟨hlt, _⟩ := List.getElem?_eq_some.mp hp
  have hne : p ≠ npos := by omega
  have hpos : (findNextVariable s).pos = p := by rw [findNextVariable_pos, hfind]
  refine ⟨⟨?_, ?_⟩, fun hnext => findNextVariable_of_escape hfind hne hnext, ?_, ?_, ?_⟩
  · rintro ⟨hl, htext⟩
    have h1 : ((findNextVariable s).inStr s)[1]? = s[p + 1]? := by
      simp only [StringLoc.inStr, substr, hl, hpos]
      rw [List.getElem?_take_of_lt (by omega), List.getElem?_drop]
    rw [htext] at h1
    have h2 : s[p + 1]? = some '$' := by
      rw [← h1]
      rfl
    exact ⟨(List.getElem?_eq_some.mp h2).1, h2⟩
  · rintro ⟨hlt1, hnext⟩
    rw [findNextVariable_of_escape hfind hne hnext]
    refine ⟨rfl, ?_⟩
    have hg0 : s[p] = '$' := by
      have := List.getElem?_eq_getElem hlt
      rw [hp] at this
      exact (Option.some.inj this).symm
    have hg1 : s[p + 1] = '$' := by
      have := List.getElem?_eq_getElem hlt1
      rw [hnext] at this
      exact (Option.some.inj this).symm
    simp only [StringLoc.inStr, substr]
    rw [List.drop_eq_getElem_cons hlt, List.drop_eq_getElem_cons hlt1, hg0, hg1]
    rfl
  · decide
  · decide
  · decide

/-- Witness of C11: in `ab$$cd` the first `$` is at index 2 and is followed by a `$`. -/
theorem C11_findNextVariable_escape_form_witness :
    "ab$$cd".toList.length ≤ npos ∧
    (((findNextVariable "ab$$cd".toList).length = 2 ∧
        (findNextVariable "ab$$cd".toList).inStr "ab$$cd".toList = "$$".toList) ↔
      (2 + 1 < "ab$$cd".toList.length ∧ "ab$$cd".toList[2 + 1]? = some '$')) ∧
    findNextVariable "ab$$cd".toList = { pos := 2, length := 2 } :=
  ⟨by decide,
    (C11_findNextVariable_escape_form "ab$$cd".toList 2 (by decide) (by decide)
      (by decide)).1,
    (C11_findNextVariable_escape_form "ab$$cd".toList 2 (by decide) (by decide)
      (by decide)).2.1 (by decide)⟩

/-- C12: for every string whose length fits in a `size_t` and whose first `$`, at index `p`, is
not followed by another `$`, `findNextVariable` returns position `p` and length `1 + k`, where
`k` is the length of the longest run of alphanumeric-or-underscore characters starting at
`p + 1`; the located name is that run, each of its characters is alphanumeric or `_`, and the
character right after the located placeholder, if there is one, is not; `k = 0`, hence length
1, when the `$` is the last character or is followed by a character of another kind. -/
theorem C12_findNextVariable_maximal_run (s : Str) (p : Nat) (hlen : s.length ≤ npos)
    (hp : s[p]? = some '$') (hfirst : ∀ i, i < p → s[i]? ≠ some '$')
    (hnext : s[p + 1]? ≠ some '$') :
    findNextVariable s =
      { pos := p, length := 1 + ((s.drop (p + 1)).takeWhile isVarChar).length } ∧
    drop_front ((findNextVariable s).inStr s) = (s.drop (p + 1)).takeWhile isVarChar ∧
    (∀ c ∈ drop_front ((findNextVariable s).inStr s), isAlnum c = true ∨ c = '_') ∧
    (∀ c, s[p + (findNextVariable s).length]? = some c → ¬ (isAlnum c = true ∨ c = '_')) ∧
    (s[p + 1]? = none → (findNextVariable s).length = 1) ∧
    (∀ c, s[p + 1]? = some c → ¬ (isAlnum c = true ∨ c = '_') →
      (findNextVariable s).length = 1) := by
  have hfind := find_eq_of_first hp hfirst
  obtain ⟨hlt, _⟩ := List.getElem?_eq_some.mp hp
  have hloc := findNextVariable_of_not_escape hfind hlt hlen hnext
  have hname : drop_front ((findNextVariable s).inStr s) =
      (s.drop (p + 1)).takeWhile isVarChar := by
    rw [hloc]
    simp only [drop_front, StringLoc.inStr, substr]
    rw [List.drop_take, List.drop_drop, List.takeWhile_eq_take_findIdx_not, List.length_take,
      Nat.min_eq_left (List.findIdx_le_length _)]
    congr 1
    omega
  refine ⟨hloc, hname, ?_, ?_, ?_, ?_⟩
  · intro c hc
    rw [hname] at hc
    exact (isVarChar_iff c).mp (List.mem_takeWhile_imp hc)
  · intro c hc hvar
    rw [hloc] at hc
    simp only at hc
    have hk : ((s.drop (p + 1)).takeWhile isVarChar).length =
        (s.drop (p + 1)).findIdx (fun c => !isVarChar c) := by
      rw [List.takeWhile_eq_take_findIdx_not, List.length_take]
      exact Nat.min_eq_left (List.findIdx_le_length _)
    rw [hk, ← Nat.add_assoc, ← List.getElem?_drop] at hc
    have := List.findIdx_of_getElem?_eq_some hc
    simp only [Bool.not_eq_eq_eq_not, Bool.not_true] at this
    rw [(isVarChar_iff c).mpr hvar] at this
    exact absurd this (by decide)
  · intro hnone
    rw [hloc]
    have : s.drop (p + 1) = [] := by
      rw [List.drop_eq_nil_iff]
      exact List.getElem?_eq_none_iff.mp hnone
    simp [this]
  · intro c hc hvar
    rw [hloc]
    obtain ⟨hlt1, hget⟩ := List.getElem?_eq_some.mp hc
    have hv : isVarChar c = false := by
      cases h : isVarChar c with
      | false => rfl
      | true => exact absurd ((isVarChar_iff c).mp h) hvar
    rw [List.drop_eq_getElem_cons hlt1, hget, List.takeWhile_cons]
    simp [hv]

/-- Witness of C12: in `f($ab_1, x)` the placeholder at index 2 has length 5 and name `ab_1`;
in `a$` and in `$ x` the placeholder has length 1. -/
theorem C12_findNextVariable_maximal_run_witness :
    findNextVariable "f($ab_1, x)".toList = { pos := 2, length := 5 } ∧
    drop_front ((findNextVariable "f($ab_1, x)".toList).inStr "f($ab_1, x)".toList) =
      "ab_1".toList ∧
    (findNextVariable "a$".toList).length = 1 ∧
    (findNextVariable "$ x".toList).length = 1 :=
  ⟨(C12_findNextVariable_maximal_run "f($ab_1, x)".toList 2 (by decide) (by decide)
      (by decide) (by decide)).1,
    (C12_findNextVariable_maximal_run "f($ab_1, x)".toList 2 (by decide) (by decide)
      (by decide) (by decide)).2.1,
    (C12_findNextVariable_maximal_run "a$".toList 1 (by decide) (by decide)
      (by decide) (by decide)).2.2.2.2.1 (by decide),
    (C12_findNextVariable_maximal_run "$ x".toList 0 (by decide) (by decide)
      (by decide) (by decide)).2.2.2.2.2 ' ' (by decide) (by decide)⟩

/-! ## The empty name (C13) -/

/-- The attribute branch of the `if` chain of `emitOneBuilder`. -/
theorem builderRewrite_attribute (op : Operator) (name : Str)
    (hop : isOperandName op name = false) (hattr : isAttributeName op name = true) :
    builderRewrite op name = some ("op.".toList ++ op.getGetterName name ++ "()".toList) := by
  simp [builderRewrite, hop, hattr]

/-- The result branch of the `if` chain of `emitOneBuilder`. -/
theorem builderRewrite_result (op : Operator) (name : Str)
    (hop : isOperandName op name = false) (hattr : isAttributeName op name = false)
    (hres : isResultName op name = true) :
    builderRewrite op name =
      some ("moduleTranslation.mapValue(op.".toList ++ op.getGetterName name ++
        "())".toList) := by
  simp [builderRewrite, hop, hattr, hres]

/-- The argument branch of the `if` chain of `emitOneIntrBuilder`. -/
theorem intrRewrite_argument (op : Operator) (name : Str) (i : Nat)
    (harg : getArgumentIndex op name = some i) :
    intrRewrite op name =
      some ("processValue(llvmOperands[".toList ++ (Nat.repr i).toList ++ "])".toList) := by
  simp [intrRewrite, harg]

/-- The result branch of the `if` chain of `emitOneIntrBuilder`. -/
theorem intrRewrite_result (op : Operator) (name : Str)
    (harg : getArgumentIndex op name = none) (hres : isResultName op name = true) :
    intrRewrite op name = some "mapValue(inst)".toList := by
  simp [intrRewrite, harg, hres]

/-! ## Enum conversions (C15, C16) -/

/-- A loop that appends one text per element writes the concatenation of the texts of the
elements, in order. -/
theorem foldl_append_text {α : Type} (f : α → Str) :
    ∀ (l : List α) (os : Str),
      l.foldl (fun os a => os ++ f a) os = os ++ (l.map f).flatten := by
  intro l
  induction l with
  | nil => intro os; simp
  | cons a l ih =>
    intro os
    rw [List.foldl_cons, ih, List.map_cons, List.flatten_cons, List.append_assoc]

/-- The output of `emitOneEnumToConversion` as a conversion function with the arms `toArms`. -/
theorem emitOneEnumToConversion_eq (enumAttr : LLVMEnumAttr) (os : Str) :
    emitOneEnumToConversion enumAttr os =
      os ++ renderSwitchFunction
        ("static LLVM_ATTRIBUTE_UNUSED ".toList ++ enumAttr.getLLVMClassName ++
          " convert".toList ++ enumAttr.getEnumClassName ++ "ToLLVM(".toList ++
          enumAttr.getCppNamespace ++ "::".toList ++ enumAttr.getEnumClassName ++
          " value) \x7b\n".toList)
        (toArms enumAttr)
        ("  llvm_unreachable(\"unknown ".toList ++ enumAttr.getEnumClassName ++
          " type\");\n".toList) := by
  simp only [emitOneEnumToConversion, foldl_append_text, renderSwitchFunction, renderArms,
    toArms, List.map_map, Function.comp_def, renderArm, domainExpr, externalExpr,
    externalCastExpr, List.append_assoc]

/-- The output of `emitOneCEnumToConversion` as a conversion function with the arms
`cToArms`. -/
theorem emitOneCEnumToConversion_eq (enumAttr : LLVMEnumAttr) (os : Str) :
    emitOneCEnumToConversion enumAttr os =
      os ++ renderSwitchFunction
        ("static LLVM_ATTRIBUTE_UNUSED int64_t convert".toList ++ enumAttr.getEnumClassName ++
          "ToLLVM(".toList ++ enumAttr.getCppNamespace ++ "::".toList ++
          enumAttr.getEnumClassName ++ " value) \x7b\n".toList)
        (cToArms enumAttr)
        ("  llvm_unreachable(\"unknown ".toList ++ enumAttr.getEnumClassName ++
          " type\");\n".toList) := by
  simp only [emitOneCEnumToConversion, foldl_append_text, renderSwitchFunction, renderArms,
    cToArms, List.map_map, Function.comp_def, renderArm, domainExpr, externalExpr,
    externalCastExpr, List.append_assoc]
  rfl

/-- The output of `emitOneEnumFromConversion` as a conversion function with the arms
`fromArms`. -/
theorem emitOneEnumFromConversion_eq (enumAttr : LLVMEnumAttr) (os : Str) :
    emitOneEnumFromConversion enumAttr os =
      os ++ renderSwitchFunction
        ("inline LLVM_ATTRIBUTE_UNUSED ".toList ++ enumAttr.getCppNamespace ++ "::".toList ++
          enumAttr.getEnumClassName ++ " convert".toList ++ enumAttr.getEnumClassName ++
          "FromLLVM(".toList ++ enumAttr.getLLVMClassName ++ " value) \x7b\n".toList)
        (fromArms enumAttr)
        ("  llvm_unreachable(\"unknown ".toList ++ enumAttr.getLLVMClassName ++
          " type\");".toList) := by
  simp only [emitOneEnumFromConversion, foldl_append_text, renderSwitchFunction, renderArms,
    fromArms, List.map_map, Function.comp_def, renderArm, domainExpr, externalExpr,
    externalCastExpr, List.append_assoc]

/-- The output of `emitOneCEnumFromConversion` as a conversion function with the arms
`cFromArms`. -/
theorem emitOneCEnumFromConversion_eq (enumAttr : LLVMEnumAttr) (os : Str) :
    emitOneCEnumFromConversion enumAttr os =
      os ++ renderSwitchFunction
        ("inline LLVM_ATTRIBUTE_UNUSED ".toList ++ enumAttr.getCppNamespace ++ "::".toList ++
          enumAttr.getEnumClassName ++ " convert".toList ++ enumAttr.getEnumClassName ++
          "FromLLVM(int64_t value) \x7b\n".toList)
        (cFromArms enumAttr)
        ("  llvm_unreachable(\"unknown ".toList ++ enumAttr.getLLVMClassName ++
          " type\");".toList) := by
  simp only [emitOneCEnumFromConversion, foldl_append_text, renderSwitchFunction, renderArms,
    cFromArms, List.map_map, Function.comp_def, renderArm, domainExpr, externalExpr,
    externalCastExpr, List.append_assoc]
  rfl

theorem domainExpr_injective (enumAttr : LLVMEnumAttr) (c d : LLVMEnumAttrCase)
    (h : domainExpr enumAttr c = domainExpr enumAttr d) : c.getSymbol = d.getSymbol :=
  List.append_cancel_left h

/-- With pairwise distinct symbols, the label of a declared case stands at exactly one
position of the list of labels. -/
theorem label_at_exactly_one_position (enumAttr : LLVMEnumAttr)
    (hnodup : (enumAttr.getAllCases.map fun c => c.getSymbol).Nodup)
    (c : LLVMEnumAttrCase) (hc : c ∈ enumAttr.getAllCases) :
    ∃! i : Nat, (enumAttr.getAllCases.map (domainExpr enumAttr))[i]? =
      some (domainExpr enumAttr c) := by
  have hmap : enumAttr.getAllCases.map (domainExpr enumAttr) =
      (enumAttr.getAllCases.map fun c => c.getSymbol).map
        (fun sym => enumAttr.getCppNamespace ++ "::".toList ++ enumAttr.getEnumClassName ++
          "::".toList ++ sym) := by
    simp [List.map_map, Function.comp_def, domainExpr]
  have hinj : Function.Injective (fun sym : Str => enumAttr.getCppNamespace ++ "::".toList ++
      enumAttr.getEnumClassName ++ "::".toList ++ sym) := by
    intro a b hab
    exact List.append_cancel_left hab
  have hnd : (enumAttr.getAllCases.map (domainExpr enumAttr)).Nodup := by
    rw [hmap]
    exact List.Nodup.map hinj hnodup
  have hmem : domainExpr enumAttr c ∈ enumAttr.getAllCases.map (domainExpr enumAttr) :=
    List.mem_map_of_mem _ hc
  obtain ⟨i, hi⟩ := List.mem_iff_getElem?.mp hmem
  refine ⟨i, hi, ?_⟩
  intro j hj
  have hjlt := (List.getElem?_eq_some.mp hj).1
  exact List.getElem?_inj hjlt hnd (hj.trans hi.symm)

/-- C15: for every enum definition with `N` cases, each of the four emitters writes a
conversion function whose switch has `N` arms, one per case in declaration order, followed by
one fallback `llvm_unreachable` statement; in the two forward functions the label of the arm of
a case is `<namespace>::<class>::<symbol>`, so when the symbols are pairwise distinct every
declared symbol is the label of exactly one arm. -/
theorem C15_enum_switch_arms (enumAttr : LLVMEnumAttr) (os : Str) :
    (emitOneEnumToConversion enumAttr os =
      os ++ renderSwitchFunction
        ("static LLVM_ATTRIBUTE_UNUSED ".toList ++ enumAttr.getLLVMClassName ++
          " convert".toList ++ enumAttr.getEnumClassName ++ "ToLLVM(".toList ++
          enumAttr.getCppNamespace ++ "::".toList ++ enumAttr.getEnumClassName ++
          " value) \x7b\n".toList)
        (toArms enumAttr)
        ("  llvm_unreachable(\"unknown ".toList ++ enumAttr.getEnumClassName ++
          " type\");\n".toList)) ∧
    (emitOneCEnumToConversion enumAttr os =
      os ++ renderSwitchFunction
        ("static LLVM_ATTRIBUTE_UNUSED int64_t convert".toList ++ enumAttr.getEnumClassName ++
          "ToLLVM(".toList ++ enumAttr.getCppNamespace ++ "::".toList ++
          enumAttr.getEnumClassName ++ " value) \x7b\n".toList)
        (cToArms enumAttr)
        ("  llvm_unreachable(\"unknown ".toList ++ enumAttr.getEnumClassName ++
          " type\");\n".toList)) ∧
    (emitOneEnumFromConversion enumAttr os =
      os ++ renderSwitchFunction
        ("inline LLVM_ATTRIBUTE_UNUSED ".toList ++ enumAttr.getCppNamespace ++ "::".toList ++
          enumAttr.getEnumClassName ++ " convert".toList ++ enumAttr.getEnumClassName ++
          "FromLLVM(".toList ++ enumAttr.getLLVMClassName ++ " value) \x7b\n".toList)
        (fromArms enumAttr)
        ("  llvm_unreachable(\"unknown ".toList ++ enumAttr.getLLVMClassName ++
          " type\");".toList)) ∧
    (emitOneCEnumFromConversion enumAttr os =
      os ++ renderSwitchFunction
        ("inline LLVM_ATTRIBUTE_UNUSED ".toList ++ enumAttr.getCppNamespace ++ "::".toList ++
          enumAttr.getEnumClassName ++ " convert".toList ++ enumAttr.getEnumClassName ++
          "FromLLVM(int64_t value) \x7b\n".toList)
        (cFromArms enumAttr)
        ("  llvm_unreachable(\"unknown ".toList ++ enumAttr.getLLVMClassName ++
          " type\");".toList)) ∧
    ((toArms enumAttr).length = enumAttr.getAllCases.length ∧
      (cToArms enumAttr).length = enumAttr.getAllCases.length ∧
      (fromArms enumAttr).length = enumAttr.getAllCases.length ∧
      (cFromArms enumAttr).length = enumAttr.getAllCases.length) ∧
    ((toArms enumAttr).map Prod.fst =
        enumAttr.getAllCases.map (fun c => enumAttr.getCppNamespace ++ "::".toList ++
          enumAttr.getEnumClassName ++ "::".toList ++ c.getSymbol) ∧
      (cToArms enumAttr).map Prod.fst =
        enumAttr.getAllCases.map (fun c => enumAttr.getCppNamespace ++ "::".toList ++
          enumAttr.getEnumClassName ++ "::".toList ++ c.getSymbol)) ∧
    ((enumAttr.getAllCases.map fun c => c.getSymbol).Nodup →
      ∀ c ∈ enumAttr.getAllCases,
        (∃! i : Nat, ((toArms enumAttr).map Prod.fst)[i]? =
            some (enumAttr.getCppNamespace ++ "::".toList ++ enumAttr.getEnumClassName ++
              "::".toList ++ c.getSymbol)) ∧
          (∃! i : Nat, ((cToArms enumAttr).map Prod.fst)[i]? =
            some (enumAttr.getCppNamespace ++ "::".toList ++ enumAttr.getEnumClassName ++
              "::".toList ++ c.getSymbol))) := by
  have hto : (toArms enumAttr).map Prod.fst = enumAttr.getAllCases.map (domainExpr enumAttr) := by
    simp [toArms, List.map_map, Function.comp_def]
  have hcto : (cToArms enumAttr).map Prod.fst =
      enumAttr.getAllCases.map (domainExpr enumAttr) := by
    simp [cToArms, List.map_map, Function.comp_def]
  refine ⟨emitOneEnumToConversion_eq enumAttr os, emitOneCEnumToConversion_eq enumAttr os,
    emitOneEnumFromConversion_eq enumAttr os, emitOneCEnumFromConversion_eq enumAttr os,
    ⟨by simp [toArms], by simp [cToArms], by simp [fromArms], by simp [cFromArms]⟩,
    ⟨hto, hcto⟩, ?_⟩
  intro hnodup c hc
  rw [hto, hcto]
  exact ⟨label_at_exactly_one_position enumAttr hnodup c hc,
    label_at_exactly_one_position enumAttr hnodup c hc⟩

/-- Witness of C15: the enum with the cases `A` and `B`: the forward function has two arms
and its fallback, and the label of `B` stands at one position. -/
theorem C15_enum_switch_arms_witness :
    emitOneEnumToConversion enumAB [] =
      "static LLVM_ATTRIBUTE_UNUSED llvm::Ext convertKindToLLVM(LLVM::Kind value) \x7b\n  switch (value) \x7b\n  case LLVM::Kind::A:\n    return llvm::Ext::EXT_A;\n  case LLVM::Kind::B:\n    return llvm::Ext::EXT_B;\n  \x7d\n  llvm_unreachable(\"unknown Kind type\");\n\x7d\n\n".toList ∧
    (toArms enumAB).length = 2 ∧
    (∃! i : Nat, ((toArms enumAB).map Prod.fst)[i]? = some "LLVM::Kind::B".toList) :=
  ⟨(C15_enum_switch_arms enumAB []).1,
    (C15_enum_switch_arms enumAB []).2.2.2.2.1.1,
    ((C15_enum_switch_arms enumAB []).2.2.2.2.2.2 (by decide) ⟨"B".toList, "EXT_B".toList⟩
      (by decide)).1⟩

/-- C16: the forward and the reverse conversion functions are mirror images: in each flavor
the arms of the reverse function are the arms of the forward function with label and returned
expression swapped, position by position.  In the symbolic flavor the arm of a case pairs
`<ns>::<class>::<symbol>` with `<llvmClass>::<llvmEnumerant>`; in the integer-valued flavor it
pairs `<ns>::<class>::<symbol>` with `static_cast<int64_t>(<llvmClass>::<llvmEnumerant>)`, and
`int64_t` is the external type in the signatures of both functions. -/
theorem C16_enum_conversions_mirror (enumAttr : LLVMEnumAttr) (os : Str) :
    fromArms enumAttr = (toArms enumAttr).map Prod.swap ∧
    cFromArms enumAttr = (cToArms enumAttr).map Prod.swap ∧
    (∀ (i : Nat) (c : LLVMEnumAttrCase), enumAttr.getAllCases[i]? = some c →
      (toArms enumAttr)[i]? =
        some (enumAttr.getCppNamespace ++ "::".toList ++ enumAttr.getEnumClassName ++
            "::".toList ++ c.getSymbol,
          enumAttr.getLLVMClassName ++ "::".toList ++ c.getLLVMEnumerant) ∧
      (fromArms enumAttr)[i]? =
        some (enumAttr.getLLVMClassName ++ "::".toList ++ c.getLLVMEnumerant,
          enumAttr.getCppNamespace ++ "::".toList ++ enumAttr.getEnumClassName ++
            "::".toList ++ c.getSymbol) ∧
      (cToArms enumAttr)[i]? =
        some (enumAttr.getCppNamespace ++ "::".toList ++ enumAttr.getEnumClassName ++
            "::".toList ++ c.getSymbol,
          "static_cast<int64_t>(".toList ++
            (enumAttr.getLLVMClassName ++ "::".toList ++ c.getLLVMEnumerant) ++ ")".toList) ∧
      (cFromArms enumAttr)[i]? =
        some ("static_cast<int64_t>(".toList ++
            (enumAttr.getLLVMClassName ++ "::".toList ++ c.getLLVMEnumerant) ++ ")".toList,
          enumAttr.getCppNamespace ++ "::".toList ++ enumAttr.getEnumClassName ++
            "::".toList ++ c.getSymbol)) ∧
    (emitOneEnumToConversion enumAttr os =
      os ++ renderSwitchFunction
        ("static LLVM_ATTRIBUTE_UNUSED ".toList ++ enumAttr.getLLVMClassName ++
          " convert".toList ++ enumAttr.getEnumClassName ++ "ToLLVM(".toList ++
          enumAttr.getCppNamespace ++ "::".toList ++ enumAttr.getEnumClassName ++
          " value) \x7b\n".toList)
        (toArms enumAttr)
        ("  llvm_unreachable(\"unknown ".toList ++ enumAttr.getEnumClassName ++
          " type\");\n".toList)) ∧
    (emitOneEnumFromConversion enumAttr os =
      os ++ renderSwitchFunction
        ("inline LLVM_ATTRIBUTE_UNUSED ".toList ++ enumAttr.getCppNamespace ++ "::".toList ++
          enumAttr.getEnumClassName ++ " convert".toList ++ enumAttr.getEnumClassName ++
          "FromLLVM(".toList ++ enumAttr.getLLVMClassName ++ " value) \x7b\n".toList)
        ((toArms enumAttr).map Prod.swap)
        ("  llvm_unreachable(\"unknown ".toList ++ enumAttr.getLLVMClassName ++
          " type\");".toList)) ∧
    (emitOneCEnumToConversion enumAttr os =
      os ++ renderSwitchFunction
        ("static LLVM_ATTRIBUTE_UNUSED int64_t convert".toList ++ enumAttr.getEnumClassName ++
          "ToLLVM(".toList ++ enumAttr.getCppNamespace ++ "::".toList ++
          enumAttr.getEnumClassName ++ " value) \x7b\n".toList)
        (cToArms enumAttr)
        ("  llvm_unreachable(\"unknown ".toList ++ enumAttr.getEnumClassName ++
          " type\");\n".toList)) ∧
    (emitOneCEnumFromConversion enumAttr os =
      os ++ renderSwitchFunction
        ("inline LLVM_ATTRIBUTE_UNUSED ".toList ++ enumAttr.getCppNamespace ++ "::".toList ++
          enumAttr.getEnumClassName ++ " convert".toList ++ enumAttr.getEnumClassName ++
          "FromLLVM(int64_t value) \x7b\n".toList)
        ((cToArms enumAttr).map Prod.swap)
        ("  llvm_unreachable(\"unknown ".toList ++ enumAttr.getLLVMClassName ++
          " type\");".toList)) := by
  have hfrom : fromArms enumAttr = (toArms enumAttr).map Prod.swap := by
    simp [fromArms, toArms, List.map_map, Function.comp_def]
  have hcfrom : cFromArms enumAttr = (cToArms enumAttr).map Prod.swap := by
    simp [cFromArms, cToArms, List.map_map, Function.comp_def]
  refine ⟨hfrom, hcfrom, ?_, emitOneEnumToConversion_eq enumAttr os,
    hfrom ▸ emitOneEnumFromConversion_eq enumAttr os,
    emitOneCEnumToConversion_eq enumAttr os,
    hcfrom ▸ emitOneCEnumFromConversion_eq enumAttr os⟩
  intro i c hc
  simp [toArms, fromArms, cToArms, cFromArms, List.getElem?_map, hc, domainExpr, externalExpr,
    externalCastExpr]

set_option maxRecDepth 4000 in
/-- Witness of C16: the cases `A` with `EXT_A` and `B` with `EXT_B` give the forward arms
`A -> EXT_A`, `B -> EXT_B` and the reverse arms `EXT_A -> A`, `EXT_B -> B`, in both flavors. -/
theorem C16_enum_conversions_mirror_witness :
    toArms enumAB =
      [("LLVM::Kind::A".toList, "llvm::Ext::EXT_A".toList),
        ("LLVM::Kind::B".toList, "llvm::Ext::EXT_B".toList)] ∧
    fromArms enumAB =
      [("llvm::Ext::EXT_A".toList, "LLVM::Kind::A".toList),
        ("llvm::Ext::EXT_B".toList, "LLVM::Kind::B".toList)] ∧
    emitOneEnumFromConversion enumAB [] =
      "inline LLVM_ATTRIBUTE_UNUSED LLVM::Kind convertKindFromLLVM(llvm::Ext value) \x7b\n  switch (value) \x7b\n  case llvm::Ext::EXT_A:\n    return LLVM::Kind::A;\n  case llvm::Ext::EXT_B:\n    return LLVM::Kind::B;\n  \x7d\n  llvm_unreachable(\"unknown llvm::Ext type\");\x7d\n\n".toList ∧
    emitOneCEnumToConversion enumAB [] =
      "static LLVM_ATTRIBUTE_UNUSED int64_t convertKindToLLVM(LLVM::Kind value) \x7b\n  switch (value) \x7b\n  case LLVM::Kind::A:\n    return static_cast<int64_t>(llvm::Ext::EXT_A);\n  case LLVM::Kind::B:\n    return static_cast<int64_t>(llvm::Ext::EXT_B);\n  \x7d\n  llvm_unreachable(\"unknown Kind type\");\n\x7d\n\n".toList ∧
    emitOneCEnumFromConversion enumAB [] =
      "inline LLVM_ATTRIBUTE_UNUSED LLVM::Kind convertKindFromLLVM(int64_t value) \x7b\n  switch (value) \x7b\n  case static_cast<int64_t>(llvm::Ext::EXT_A):\n    return LLVM::Kind::A;\n  case static_cast<int64_t>(llvm::Ext::EXT_B):\n    return LLVM::Kind::B;\n  \x7d\n  llvm_unreachable(\"unknown llvm::Ext type\");\x7d\n\n".toList :=
  ⟨rfl, (C16_enum_conversions_mirror enumAB []).1,
    (C16_enum_conversions_mirror enumAB []).2.2.2.2.1,
    (C16_enum_conversions_mirror enumAB []).2.2.2.2.2.1,
    (C16_enum_conversions_mirror enumAB []).2.2.2.2.2.2⟩

/-! ## Arguments by index (C17) -/

/-- The index returned by `getArgumentIndex` is the position of the first argument with the
name. -/
theorem getArgumentIndex_first (op : Operator) (name : Str) (i : Nat)
    (h : getArgumentIndex op name = some i) :
    (∃ a, op.arguments[i]? = some a ∧ a.name = name) ∧
      ∀ j, j < i → ∀ a, op.arguments[j]? = some a → a.name ≠ name := by
  unfold getArgumentIndex at h
  rw [List.findIdx?_eq_some_iff_getElem] at h
  obtain ⟨hlt, hi, hfirst⟩ := h
  refine ⟨⟨op.arguments[i], List.getElem?_eq_getElem hlt, by simpa using hi⟩, ?_⟩
  intro j hj a ha
  obtain ⟨hjlt, hget⟩ := List.getElem?_eq_some.mp ha
  have := hfirst j hj
  rw [hget] at this
  simpa using this

/-- A name of an argument has an argument index. -/
theorem getArgumentIndex_of_mem (op : Operator) (name : Str)
    (h : ∃ a ∈ op.arguments, a.name = name) : ∃ i, getArgumentIndex op name = some i := by
  have hnone := getArgumentIndex_isNone op name
  obtain ⟨a, ha, hname⟩ := h
  have hany : (op.arguments.any fun a => a.name == name) = true := by
    rw [List.any_eq_true]
    exact ⟨a, ha, by simp [hname]⟩
  rw [hany] at hnone
  cases hidx : getArgumentIndex op name with
  | none => simp [hidx] at hnone
  | some i => exact ⟨i, rfl⟩

/-- C17: in intrinsic mode a placeholder whose name is the name of some argument has an
argument index `i`, the zero-based position of the first argument with that name among
operands and attributes counted together in declaration order, and is rewritten to
`processValue(llvmOperands[i])`, with `i` in decimal, whether or not the argument is
variable-length; the expansion at such a located placeholder is the literal text before it,
this text, and the expansion of the rest. -/
theorem C17_intr_argument_by_index (op : Operator) (name : Str)
    (harg : ∃ a ∈ op.arguments, a.name = name) :
    ∃ i, getArgumentIndex op name = some i ∧
      (∃ a, op.arguments[i]? = some a ∧ a.name = name) ∧
      (∀ j, j < i → ∀ a, op.arguments[j]? = some a → a.name ≠ name) ∧
      intrRewrite op name =
        some ("processValue(llvmOperands[".toList ++ (Nat.repr i).toList ++ "])".toList) ∧
      ∀ t : Str, (findNextVariable t).toBool = true →
        drop_front ((findNextVariable t).inStr t) = name →
        expandIntr op t =
          (expandIntr op
            (substrFrom t ((findNextVariable t).pos + (findNextVariable t).length))).map
              (fun e => substr t 0 (findNextVariable t).pos ++
                ("processValue(llvmOperands[".toList ++ (Nat.repr i).toList ++
                  "])".toList) ++ e) := by
  obtain ⟨i, hi⟩ := getArgumentIndex_of_mem op name harg
  have hfirst := getArgumentIndex_first op name i hi
  have hrw := intrRewrite_argument op name i hi
  refine ⟨i, hi, hfirst.1, hfirst.2, hrw, ?_⟩
  intro t hfound hname
  exact expand_located _ _ t _ hfound (hname ▸ hrw)

/-- Witness of C17: with the arguments `a`, `k`, `b` (variable-length) and a second `a`, the
placeholders `$a`, `$k` and `$b` expand by the indices 0, 1 and 2. -/
theorem C17_intr_argument_by_index_witness :
    (∃ i, getArgumentIndex opArgs "b".toList = some i ∧
      intrRewrite opArgs "b".toList =
        some ("processValue(llvmOperands[".toList ++ (Nat.repr i).toList ++ "])".toList)) ∧
    getArgumentIndex opArgs "b".toList = some 2 ∧
    expandIntr opArgs "f($a, $k, $b)".toList =
      Except.ok
        "f(processValue(llvmOperands[0]), processValue(llvmOperands[1]), processValue(llvmOperands[2]))".toList :=
  ⟨(C17_intr_argument_by_index opArgs "b".toList
      ⟨Argument.operand ⟨"b".toList, true⟩, by decide, rfl⟩).imp
      fun _ h => ⟨h.1, h.2.2.2.1⟩,
    rfl, rfl⟩

/-! ## Keyword tables (C18) -/

/-- A name of no argument is the name of no operand and of no attribute. -/
theorem not_operand_of_not_argument (op : Operator) (name : Str)
    (h : (op.arguments.any fun a => a.name == name) = false) :
    isOperandName op name = false ∧ isAttributeName op name = false := by
  rw [List.any_eq_false] at h
  constructor
  · unfold isOperandName Operator.operands
    rw [List.any_eq_false]
    intro o ho
    obtain ⟨a, ha, hao⟩ := List.mem_filterMap.mp ho
    rcases a with o2 | a2
    · simp only [Option.some.injEq] at hao
      subst hao
      exact h _ ha
    · simp at hao
  · unfold isAttributeName Operator.getAttributes
    rw [List.any_eq_false]
    intro o ho
    obtain ⟨a, ha, hao⟩ := List.mem_filterMap.mp ho
    rcases a with o2 | a2
    · simp at hao
    · simp only [Option.some.injEq] at hao
      subst hao
      exact h _ ha

/-- A name of no argument and no result fails the four name tests of the two chains. -/
theorem not_named (op : Operator) (name : Str) (h : hasName op name = false) :
    isOperandName op name = false ∧ isAttributeName op name = false ∧
      isResultName op name = false ∧ getArgumentIndex op name = none := by
  simp only [hasName, Bool.or_eq_false_iff] at h
  have h1 := not_operand_of_not_argument op name h.1
  have h2 := getArgumentIndex_isNone op name
  rw [h.1] at h2
  refine ⟨h1.1, h1.2, h.2, ?_⟩
  cases hidx : getArgumentIndex op name with
  | none => rfl
  | some i => simp [hidx] at h2

/-- The expansion of a template that is one placeholder, when the chain produces a text for
its name. -/
theorem expand_single_some (rewrite : Str → Option Str) (message : Str → Str) (kw text : Str)
    (hloc : findNextVariable ('$' :: kw) = { pos := 0, length := kw.length + 1 })
    (hr : rewrite kw = some text) :
    expand rewrite message ('$' :: kw) = Except.ok text := by
  have hname : drop_front (StringLoc.inStr { pos := 0, length := kw.length + 1 } ('$' :: kw)) =
      kw := by
    simp [drop_front, StringLoc.inStr, substr]
  have hrest : substrFrom ('$' :: kw) (0 + (kw.length + 1)) = [] := by
    simp [substrFrom]
  rw [expand_unfold, hloc]
  have hb : StringLoc.toBool { pos := 0, length := kw.length + 1 } = true := rfl
  simp only [hb, ↓reduceIte, hname, hr, hrest]
  rw [expand_of_not_mem _ _ (by simp)]
  simp [Except.map, substr]

/-- The expansion of a template that is one placeholder, when the chain rejects its name. -/
theorem expand_single_none (rewrite : Str → Option Str) (message : Str → Str) (kw : Str)
    (hloc : findNextVariable ('$' :: kw) = { pos := 0, length := kw.length + 1 })
    (hr : rewrite kw = none) :
    expand rewrite message ('$' :: kw) = Except.error (message kw) := by
  have hname : drop_front (StringLoc.inStr { pos := 0, length := kw.length + 1 } ('$' :: kw)) =
      kw := by
    simp [drop_front, StringLoc.inStr, substr]
  rw [expand_unfold, hloc]
  have hb : StringLoc.toBool { pos := 0, length := kw.length + 1 } = true := rfl
  simp only [hb, ↓reduceIte, hname, hr]

/-- C18: the keyword tables are fixed and belong to the mode: for a definition with no
argument and no result of the name in question, builder mode rewrites `_resultType`,
`_hasResult`, `_location`, `_numOperands` to the texts of its table and rejects `_int_attr`,
`_builder`, `_qualCppClassName`; intrinsic mode rewrites `_int_attr`, `_resultType`,
`_location`, `_builder`, `_qualCppClassName` to the texts of its table, the last being the
qualified class name of the definition, and rejects `_hasResult`, `_numOperands`.  The
template made of the placeholder alone expands to the text, or fails with the error of the
mode for that name. -/
theorem C18_keyword_tables (op : Operator) :
    (∀ entry ∈ builderKeywords, hasName op entry.1 = false →
      builderRewrite op entry.1 = some entry.2 ∧
      expandBuilder op ('$' :: entry.1) = Except.ok entry.2) ∧
    (∀ entry ∈ intrKeywords op, hasName op entry.1 = false →
      intrRewrite op entry.1 = some entry.2 ∧
      expandIntr op ('$' :: entry.1) = Except.ok entry.2) ∧
    (∀ kw ∈ ["_int_attr".toList, "_builder".toList, "_qualCppClassName".toList],
      hasName op kw = false →
      builderRewrite op kw = none ∧
      expandBuilder op ('$' :: kw) =
        Except.error (kw ++ " is neither an argument nor a result of ".toList ++
          op.getOperationName)) ∧
    (∀ kw ∈ ["_hasResult".toList, "_numOperands".toList], hasName op kw = false →
      intrRewrite op kw = none ∧
      expandIntr op ('$' :: kw) =
        Except.error (kw ++ " is not a known keyword, argument, or result of ".toList ++
          op.getOperationName)) := by
  refine ⟨?_, ?_, ?_, ?_⟩
  · intro entry hentry hno
    obtain ⟨h1, h2, h3, _⟩ := not_named op entry.1 hno
    have hr : builderRewrite op entry.1 = some entry.2 := by
      simp only [builderKeywords, List.mem_cons, List.mem_singleton, List.not_mem_nil,
        or_false] at hentry
      rcases hentry with h | h | h | h <;> subst h <;>
        (simp only [builderRewrite, h1, h2, h3]; rfl)
    refine ⟨hr, expand_single_some _ _ _ _ ?_ hr⟩
    simp only [builderKeywords, List.mem_cons, List.mem_singleton, List.not_mem_nil,
      or_false] at hentry
    rcases hentry with h | h | h | h <;> subst h <;> decide
  · intro entry hentry hno
    obtain ⟨_, _, h3, h4⟩ := not_named op entry.1 hno
    have hr : intrRewrite op entry.1 = some entry.2 := by
      simp only [intrKeywords, List.mem_cons, List.mem_singleton, List.not_mem_nil,
        or_false] at hentry
      rcases hentry with h | h | h | h | h <;> subst h <;>
        (simp only [intrRewrite, h3, h4]; rfl)
    refine ⟨hr, expand_single_some _ _ _ _ ?_ hr⟩
    simp only [intrKeywords, List.mem_cons, List.mem_singleton, List.not_mem_nil,
      or_false] at hentry
    rcases hentry with h | h | h | h | h <;> subst h <;> dsimp only <;> decide
  · intro kw hkw hno
    obtain ⟨h1, h2, h3, _⟩ := not_named op kw hno
    have hr : builderRewrite op kw = none := by
      simp only [List.mem_cons, List.mem_singleton, List.not_mem_nil, or_false] at hkw
      rcases hkw with h | h | h <;> subst h <;>
        (simp only [builderRewrite, h1, h2, h3]; rfl)
    refine ⟨hr, expand_single_none _ _ _ ?_ hr⟩
    simp only [List.mem_cons, List.mem_singleton, List.not_mem_nil, or_false] at hkw
    rcases hkw with h | h | h <;> subst h <;> decide
  · intro kw hkw hno
    obtain ⟨_, _, h3, h4⟩ := not_named op kw hno
    have hr : intrRewrite op kw = none := by
      simp only [List.mem_cons, List.mem_singleton, List.not_mem_nil, or_false] at hkw
      rcases hkw with h | h <;> subst h <;>
        (simp only [intrRewrite, h3, h4]; rfl)
    refine ⟨hr, expand_single_none _ _ _ ?_ hr⟩
    simp only [List.mem_cons, List.mem_singleton, List.not_mem_nil, or_false] at hkw
    rcases hkw with h | h <;> subst h <;> decide

/-- Witness of C18: with operands `x` and `y`, `$_location` expands by the table of each mode,
`$_builder` is rejected in builder mode and `$_hasResult` in intrinsic mode. -/
theorem C18_keyword_tables_witness :
    expandBuilder (opXY getUnderscore) "$_location".toList =
      Except.ok "opInst.getLoc()".toList ∧
    expandIntr (opXY getUnderscore) "$_location".toList =
      Except.ok "translateLoc(inst->getDebugLoc())".toList ∧
    expandIntr (opXY getUnderscore) "$_qualCppClassName".toList =
      Except.ok "LLVM::XYOp".toList ∧
    expandBuilder (opXY getUnderscore) "$_builder".toList =
      Except.error "_builder is neither an argument nor a result of llvm.xy".toList ∧
    expandIntr (opXY getUnderscore) "$_hasResult".toList =
      Except.error "_hasResult is not a known keyword, argument, or result of llvm.xy".toList :=
  ⟨((C18_keyword_tables (opXY getUnderscore)).1
      ("_location".toList, "opInst.getLoc()".toList) (by decide) rfl).2,
    ((C18_keyword_tables (opXY getUnderscore)).2.1
      ("_location".toList, "translateLoc(inst->getDebugLoc())".toList) (by decide) rfl).2,
    ((C18_keyword_tables (opXY getUnderscore)).2.1
      ("_qualCppClassName".toList, "LLVM::XYOp".toList) (by decide) rfl).2,
    ((C18_keyword_tables (opXY getUnderscore)).2.2.1 "_builder".toList (by decide) rfl).2,
    ((C18_keyword_tables (opXY getUnderscore)).2.2.2 "_hasResult".toList (by decide) rfl).2⟩

/-! ## The drivers (C20) -/

/-- The result of `emitOneBuilder` does not depend on what the streams hold, and what it
writes is appended to them. -/
theorem emitOneBuilder_append (d : Record) (st : Streams) :
    emitOneBuilder d st =
      ((emitOneBuilder d ⟨[], []⟩).1,
        ⟨st.os ++ (emitOneBuilder d ⟨[], []⟩).2.os,
          st.errs ++ (emitOneBuilder d ⟨[], []⟩).2.errs⟩) := by
  unfold emitOneBuilder
  cases d.llvmBuilder with
  | none => simp [emitError]
  | some t =>
    simp only
    split
    · simp
    · cases expandLoop (builderRewrite d.op) (builderMessage d.op) t.length t [] with
      | error m => simp [emitError]
      | ok p => simp [List.append_assoc]

/-- The result of `emitOneIntrBuilder` does not depend on what the streams hold, and what it
writes is appended to them. -/
theorem emitOneIntrBuilder_append (d : Record) (st : Streams) :
    emitOneIntrBuilder d st =
      ((emitOneIntrBuilder d ⟨[], []⟩).1,
        ⟨st.os ++ (emitOneIntrBuilder d ⟨[], []⟩).2.os,
          st.errs ++ (emitOneIntrBuilder d ⟨[], []⟩).2.errs⟩) := by
  unfold emitOneIntrBuilder
  cases d.mlirBuilder with
  | none => simp [emitError]
  | some t =>
    simp only
    split
    · simp
    · cases expandLoop (intrRewrite d.op) (intrMessage d.op) t.length t [] with
      | error m => simp [emitError]
      | ok p => simp [List.append_assoc]

/-- A successful `emitOneBuilder` writes nothing to the diagnostic stream. -/
theorem emitOneBuilder_success_errs (d : Record) (st : Streams)
    (h : (emitOneBuilder d st).1 = LogicalResult.success) :
    (emitOneBuilder d st).2.errs = st.errs := by
  unfold emitOneBuilder at h ⊢
  cases hb : d.llvmBuilder with
  | none => simp [hb, emitError] at h
  | some t =>
    simp only [hb] at h ⊢
    split
    · rfl
    · cases hl : expandLoop (builderRewrite d.op) (builderMessage d.op) t.length t [] with
      | error m => simp [hl, emitError, *] at h
      | ok p => rfl

/-- A successful `emitOneIntrBuilder` writes nothing to the diagnostic stream. -/
theorem emitOneIntrBuilder_success_errs (d : Record) (st : Streams)
    (h : (emitOneIntrBuilder d st).1 = LogicalResult.success) :
    (emitOneIntrBuilder d st).2.errs = st.errs := by
  unfold emitOneIntrBuilder at h ⊢
  cases hb : d.mlirBuilder with
  | none => simp [hb, emitError] at h
  | some t =>
    simp only [hb] at h ⊢
    split
    · rfl
    · cases hl : expandLoop (intrRewrite d.op) (intrMessage d.op) t.length t [] with
      | error m => simp [hl, emitError, *] at h
      | ok p => rfl

/-- A loop over the definitions that stops at the first failure: it reports failure exactly
when some definition fails, the output receives the blocks of the definitions before the first
failing one, and the diagnostic stream receives the error of that one only. -/
theorem driver_eq (emitOne : Record → Streams → LogicalResult × Streams)
    (run : List Record → Streams → Bool × Streams)
    (hnil : ∀ st, run [] st = (false, st))
    (hcons : ∀ d defs st, run (d :: defs) st =
      if failed (emitOne d st).1 then (true, (emitOne d st).2) else run defs (emitOne d st).2)
    (happ : ∀ d st, emitOne d st =
      ((emitOne d ⟨[], []⟩).1,
        ⟨st.os ++ (emitOne d ⟨[], []⟩).2.os, st.errs ++ (emitOne d ⟨[], []⟩).2.errs⟩))
    (hsucc : ∀ d, (emitOne d ⟨[], []⟩).1 = LogicalResult.success →
      (emitOne d ⟨[], []⟩).2.errs = [])
    (hfail : ∀ d, (emitOne d ⟨[], []⟩).1 = LogicalResult.failure →
      (emitOne d ⟨[], []⟩).2.os = []) :
    ∀ (defs : List Record) (st : Streams),
      run defs st =
        (!(defs.all fun d => (emitOne d ⟨[], []⟩).1 == LogicalResult.success),
          ⟨st.os ++ ((defs.takeWhile fun d =>
              (emitOne d ⟨[], []⟩).1 == LogicalResult.success).map
                fun d => (emitOne d ⟨[], []⟩).2.os).flatten,
            st.errs ++
              match defs.find? (fun d => !((emitOne d ⟨[], []⟩).1 == LogicalResult.success)) with
              | some d => (emitOne d ⟨[], []⟩).2.errs
              | none => []⟩) := by
  intro defs
  induction defs with
  | nil => intro st; simp [hnil]
  | cons d defs ih =>
    intro st
    rw [hcons, happ d st]
    cases hres : (emitOne d ⟨[], []⟩).1 with
    | success =>
      have hs := hsucc d hres
      simp only [failed, hs, List.append_nil]
      rw [ih]
      simp [hres, List.takeWhile_cons, List.find?_cons, List.append_assoc]
    | failure =>
      have hf := hfail d hres
      simp [failed, hf, hres, List.takeWhile_cons, List.find?_cons]

/-- A failing `emitOneBuilder` writes nothing to the output stream. -/
theorem emitOneBuilder_failure_os (d : Record) (st : Streams)
    (h : (emitOneBuilder d st).1 = LogicalResult.failure) :
    (emitOneBuilder d st).2.os = st.os := by
  unfold emitOneBuilder at h ⊢
  cases hb : d.llvmBuilder with
  | none => rfl
  | some t =>
    simp only [hb] at h ⊢
    split
    · rfl
    · cases hl : expandLoop (builderRewrite d.op) (builderMessage d.op) t.length t [] with
      | error m => rfl
      | ok p => simp [hl, *] at h

/-- A failing `emitOneIntrBuilder` writes nothing to the output stream. -/
theorem emitOneIntrBuilder_failure_os (d : Record) (st : Streams)
    (h : (emitOneIntrBuilder d st).1 = LogicalResult.failure) :
    (emitOneIntrBuilder d st).2.os = st.os := by
  unfold emitOneIntrBuilder at h ⊢
  cases hb : d.mlirBuilder with
  | none => rfl
  | some t =>
    simp only [hb] at h ⊢
    split
    · rfl
    · cases hl : expandLoop (intrRewrite d.op) (intrMessage d.op) t.length t [] with
      | error m => rfl
      | ok p => simp [hl, *] at h

/-- The driver `emitBuilders` in closed form. -/
theorem emitBuilders_eq (defs : List Record) (st : Streams) :
    emitBuilders defs st =
      (!(defs.all builderSucceeds),
        ⟨st.os ++ ((defs.takeWhile builderSucceeds).map builderBlock).flatten,
          st.errs ++
            match defs.find? (fun d => !builderSucceeds d) with
            | some d => builderDiagnostic d
            | none => []⟩) :=
  driver_eq emitOneBuilder emitBuilders (fun _ => rfl) (fun _ _ _ => rfl)
    emitOneBuilder_append (fun d h => emitOneBuilder_success_errs d ⟨[], []⟩ h)
    (fun d h => emitOneBuilder_failure_os d ⟨[], []⟩ h) defs st

/-- The driver `emitIntrBuilders` in closed form. -/
theorem emitIntrBuilders_eq (defs : List Record) (st : Streams) :
    emitIntrBuilders defs st =
      (!(defs.all intrSucceeds),
        ⟨st.os ++ ((defs.takeWhile intrSucceeds).map intrBlock).flatten,
          st.errs ++
            match defs.find? (fun d => !intrSucceeds d) with
            | some d => intrDiagnostic d
            | none => []⟩) :=
  driver_eq emitOneIntrBuilder emitIntrBuilders (fun _ => rfl) (fun _ _ _ => rfl)
    emitOneIntrBuilder_append (fun d h => emitOneIntrBuilder_success_errs d ⟨[], []⟩ h)
    (fun d h => emitOneIntrBuilder_failure_os d ⟨[], []⟩ h) defs st

theorem takeWhile_of_all {α : Type} (p : α → Bool) (l : List α) (h : ∀ a ∈ l, p a = true) :
    l.takeWhile p = l := by
  induction l with
  | nil => rfl
  | cons a l ih =>
    rw [List.takeWhile_cons, h a (List.mem_cons_self a l), if_pos rfl,
      ih fun b hb => h b (List.mem_cons_of_mem a hb)]

/-- C20: for every list of intrinsic-like definitions, `emitConvertibleIntrinsics` writes one
entry `llvm::Intrinsic::<llvmEnumName>,` and a newline per definition, in the given order, and
always reports success (returns `false`). -/
theorem C20_convertible_intrinsics (defs : List Record) (os : Str) :
    emitConvertibleIntrinsics defs os =
      (false,
        os ++ (defs.map fun d =>
          "llvm::Intrinsic::".toList ++ d.llvmEnumName ++ ",\n".toList).flatten) := by
  simp only [emitConvertibleIntrinsics, emitOneIntrinsic, List.append_assoc, foldl_append_text]

/-! ## A misplaced variadic operand (C21) -/

theorem isOperandName_eq_any_names (op : Operator) (name : Str) :
    isOperandName op name = (op.operands.map fun o => o.name).any fun n => n == name := by
  unfold isOperandName
  induction op.operands with
  | nil => rfl
  | cons o os ih => simp only [List.any_cons, List.map_cons, ih]

/-- The `if` chain of `emitOneBuilder` reads the operands only through their names and through
the last operand. -/
theorem builderRewrite_congr (op op2 : Operator) (name : Str)
    (hnames : (op2.operands.map fun o => o.name) = op.operands.map fun o => o.name)
    (hlast : op2.operands.getLast? = op.operands.getLast?)
    (hattr : op2.getAttributes = op.getAttributes) (hres : op2.results = op.results)
    (hget : op2.getGetterName = op.getGetterName) :
    builderRewrite op2 name = builderRewrite op name := by
  have h1 : isOperandName op2 name = isOperandName op name := by
    rw [isOperandName_eq_any_names, isOperandName_eq_any_names, hnames]
  have h2 : isVariadicOperandName op2 name = isVariadicOperandName op name := by
    rw [isVariadicOperandName_eq, isVariadicOperandName_eq, hlast]
  have h3 : isAttributeName op2 name = isAttributeName op name := by
    simp only [isAttributeName, hattr]
  have h4 : isResultName op2 name = isResultName op name := by
    simp only [isResultName, hres]
  simp only [builderRewrite, h1, h2, h3, h4, hget]

/-- C21: in builder mode, when an operand that is not the last one is marked variable-length
and no other operand has its name, a placeholder with that name is accepted as an ordinary
operand and rewritten to the singular lookup `lookupValue`, and the expansion at such a
located placeholder uses it; the chain reads the variable-length mark of the last operand
only: two definitions whose operands have the same names and the same last operand, and which
agree otherwise, are rewritten alike. -/
theorem C21_misplaced_variadic_accepted (op : Operator) (i : Nat) (o : NamedTypeConstraint)
    (hi : op.operands[i]? = some o) (hnotlast : i + 1 < op.operands.length)
    (hvar : o.isVariableLength = true)
    (hno : ∀ (j : Nat) (o2 : NamedTypeConstraint), j ≠ i → op.operands[j]? = some o2 →
      o2.name ≠ o.name) :
    isOperandName op o.name = true ∧
    (o.isVariableLength = true ∧ isVariadicOperandName op o.name = false) ∧
    builderRewrite op o.name =
      some ("moduleTranslation.lookupValue(op.".toList ++ op.getGetterName o.name ++
        "())".toList) ∧
    (∀ t : Str, (findNextVariable t).toBool = true →
      drop_front ((findNextVariable t).inStr t) = o.name →
      expandBuilder op t =
        (expandBuilder op
          (substrFrom t ((findNextVariable t).pos + (findNextVariable t).length))).map
            (fun e => substr t 0 (findNextVariable t).pos ++
              ("moduleTranslation.lookupValue(op.".toList ++ op.getGetterName o.name ++
                "())".toList) ++ e)) ∧
    (∀ (op2 : Operator) (name : Str),
      (op2.operands.map fun o => o.name) = (op.operands.map fun o => o.name) →
      op2.operands.getLast? = op.operands.getLast? →
      op2.getAttributes = op.getAttributes → op2.results = op.results →
      op2.getGetterName = op.getGetterName →
      builderRewrite op2 name = builderRewrite op name) := by
  have hop : isOperandName op o.name = true := by
    unfold isOperandName
    rw [List.any_eq_true]
    exact ⟨o, List.getElem?_mem hi, by simp⟩
  have hv : isVariadicOperandName op o.name = false := by
    rw [isVariadicOperandName_eq, List.getLast?_eq_getElem?]
    cases hl : op.operands[op.operands.length - 1]? with
    | none => rfl
    | some last =>
      have hne := hno (op.operands.length - 1) last (by omega) hl
      simp [hne]
  have hrw := builderRewrite_operand op o.name hop
  simp only [hv, Bool.false_eq_true, ↓reduceIte] at hrw
  refine ⟨hop, ⟨hvar, hv⟩, hrw, ?_, ?_⟩
  · intro t hfound hname
    exact expand_located _ _ t _ hfound (hname ▸ hrw)
  · intro op2 name hnames hlast hattr hres hget
    exact builderRewrite_congr op op2 name hnames hlast hattr hres hget

/-- Witness of C21: with the operands `v`, variable-length, and `w`, the placeholder `$v`
expands to the singular lookup, and the template `f($v, $w)` is accepted. -/
theorem C21_misplaced_variadic_accepted_witness :
    builderRewrite opMisplaced "v".toList =
      some "moduleTranslation.lookupValue(op.get_v())".toList ∧
    expandBuilder opMisplaced "f($v, $w)".toList =
      Except.ok
        "f(moduleTranslation.lookupValue(op.get_v()), moduleTranslation.lookupValue(op.get_w()))".toList :=
  ⟨(C21_misplaced_variadic_accepted opMisplaced 0 ⟨"v".toList, true⟩ rfl (by decide) rfl
      (by
        intro j o2 hj hget
        have hj1 : j = 1 := by
          have := (List.getElem?_eq_some.mp hget).1
          have hlen : opMisplaced.operands.length = 2 := rfl
          omega
        subst hj1
        have : o2 = ⟨"w".toList, false⟩ := (Option.some.inj hget).symm
        subst this
        decide)).2.2.1,
    rfl⟩

/-! ## Termination of the loop (C22) -/

/-- A located placeholder starts with a `$`. -/
theorem findNextVariable_at_marker {s : Str} (h : (findNextVariable s).toBool = true) :
    s[(findNextVariable s).pos]? = some '$' := by
  have hpos := findNextVariable_pos s
  have hne : find s '$' ≠ npos := by
    simpa [StringLoc.toBool, hpos] using h
  have hmem : '$' ∈ s := by
    by_contra hno
    exact hne (find_of_not_mem hno)
  obtain ⟨hidx, hlt⟩ := find_of_mem hmem
  rw [hpos, hidx]
  rw [hidx] at hlt
  rw [List.getElem?_eq_getElem hlt]
  have := @List.findIdx_getElem _ (fun d => d == '$') s hlt
  simp only [beq_iff_eq] at this
  rw [this]

/-- The part of the string consumed by one iteration holds at least one `$`. -/
theorem count_consumed_pos {s : Str} (h : (findNextVariable s).toBool = true) :
    1 ≤ (s.take ((findNextVariable s).pos + (findNextVariable s).length)).count '$' := by
  have hb := findNextVariable_bounds h
  have hat := findNextVariable_at_marker h
  have hlt : (findNextVariable s).pos <
      (findNextVariable s).pos + (findNextVariable s).length := by omega
  have hget : (s.take ((findNextVariable s).pos + (findNextVariable s).length))[
      (findNextVariable s).pos]? = some '$' := by
    rw [List.getElem?_take_of_lt hlt]
    exact hat
  exact List.count_pos_iff.mpr (List.getElem?_mem hget)

/-- The scan locates at most as many placeholders as the template has `$` characters. -/
theorem length_scan_le_count : ∀ (n : Nat) (s : Str), s.length ≤ n →
    (scan s).1.length ≤ s.count '$' := by
  intro n
  induction n with
  | zero =>
    intro s hs
    have : s = [] := List.length_eq_zero.mp (Nat.le_zero.mp hs)
    subst this
    decide
  | succ n ih =>
    intro s hs
    rw [scan_unfold]
    by_cases hfound : (findNextVariable s).toBool = true
    · have hlt := length_substrFrom_lt hfound
      have hrec := ih _ (by omega : (substrFrom s ((findNextVariable s).pos +
        (findNextVariable s).length)).length ≤ n)
      have hc := count_consumed_pos hfound
      have hsplit : s.count '$' =
          (s.take ((findNextVariable s).pos + (findNextVariable s).length)).count '$' +
          (substrFrom s ((findNextVariable s).pos + (findNextVariable s).length)).count
            '$' := by
        unfold substrFrom
        rw [← List.count_append, List.take_append_drop]
      simp only [hfound, ↓reduceIte, List.length_cons]
      omega
    · simp [hfound]

/-- C22: whenever `findNextVariable` finds a placeholder in a string, its length is at least 1
and the placeholder ends within the string, so the suffix kept by the loop is strictly shorter
and the three slices of the iteration are within bounds and partition the string; hence the
loop started with the length of the template as its budget exits by itself, the scan locates
at most as many placeholders as the template has `$` characters, and the number of
substitutions performed is at most that number, in both modes. -/
theorem C22_loop_terminates (s : Str) :
    ((findNextVariable s).toBool = true →
      1 ≤ (findNextVariable s).length ∧
      (findNextVariable s).pos + (findNextVariable s).length ≤ s.length ∧
      (substrFrom s ((findNextVariable s).pos + (findNextVariable s).length)).length
        < s.length ∧
      (substr s 0 (findNextVariable s).pos).length = (findNextVariable s).pos ∧
      ((findNextVariable s).inStr s).length = (findNextVariable s).length ∧
      substr s 0 (findNextVariable s).pos ++ (findNextVariable s).inStr s ++
        substrFrom s ((findNextVariable s).pos + (findNextVariable s).length) = s) ∧
    (∀ (rewrite : Str → Option Str) (message : Str → Str) (n : Nat) (bs : Str),
      s.length ≤ n →
      expandLoop rewrite message n s bs = expandLoop rewrite message s.length s bs) ∧
    (scan s).1.length ≤ s.count '$' ∧
    (∀ op : Operator,
      substitutionsPerformed (builderRewrite op) s ≤ s.count '$' ∧
      substitutionsPerformed (intrRewrite op) s ≤ s.count '$') := by
  have hscan := length_scan_le_count s.length s (Nat.le_refl _)
  have hsub : ∀ rewrite : Str → Option Str,
      substitutionsPerformed rewrite s ≤ s.count '$' := by
    intro rewrite
    have h1 : substitutionsPerformed rewrite s ≤ (placeholderNames s).length :=
      (List.takeWhile_sublist _).length_le
    have h2 : (placeholderNames s).length = (scan s).1.length := by
      simp [placeholderNames]
    omega
  refine ⟨?_, ?_, hscan, fun op => ⟨hsub _, hsub _⟩⟩
  · intro hfound
    have hb := findNextVariable_bounds hfound
    refine ⟨hb.2.1, hb.2.2, length_substrFrom_lt hfound, ?_, ?_, ?_⟩
    · simp only [substr, List.drop_zero, List.length_take]
      omega
    · simp only [StringLoc.inStr, substr, List.length_take, List.length_drop]
      omega
    · exact slices_partition s _ _
  · intro rewrite message n bs hn
    exact expandLoop_length rewrite message n s bs hn

/-- Witness of C22: the template `f($a, $$, $b)` has four `$` characters and three located
placeholders, each of length at least 1. -/
theorem C22_loop_terminates_witness :
    (findNextVariable "f($a, $$, $b)".toList).toBool = true ∧
    1 ≤ (findNextVariable "f($a, $$, $b)".toList).length ∧
    (scan "f($a, $$, $b)".toList).1.length = 3 ∧
    "f($a, $$, $b)".toList.count '$' = 4 ∧
    substitutionsPerformed (builderRewrite opAB) "f($a, $$, $b)".toList = 3 :=
  ⟨rfl, ((C22_loop_terminates "f($a, $$, $b)".toList).1 rfl).1, rfl, rfl, rfl⟩

/-! ## Composition at safe boundaries (C23) -/

/-- No index below the position of a located placeholder holds a `$`. -/
theorem findNextVariable_first {s : Str} (h : (findNextVariable s).toBool = true) :
    ∀ i, i < (findNextVariable s).pos → s[i]? ≠ some '$' := by
  have hpos := findNextVariable_pos s
  have hne : find s '$' ≠ npos := by
    simpa [StringLoc.toBool, hpos] using h
  have hmem : '$' ∈ s := by
    by_contra hno
    exact hne (find_of_not_mem hno)
  obtain ⟨hidx, hlt⟩ := find_of_mem hmem
  rw [hpos, hidx]
  rw [hidx] at hlt
  intro i hi
  have hil : i < s.length := Nat.lt_trans hi hlt
  rw [List.getElem?_eq_getElem hil]
  have := List.not_of_lt_findIdx hi
  simp only [beq_eq_false_iff_ne, ne_eq] at this
  simpa using this

/-- A string whose length fits in a `size_t` and in which no placeholder is found has no
`$`. -/
theorem not_mem_of_not_found {s : Str} (h : (findNextVariable s).toBool = false)
    (hlen : s.length ≤ npos) : '$' ∉ s := by
  intro hmem
  obtain ⟨_, hlt⟩ := find_of_mem hmem
  have hp : find s '$' = npos := by
    simpa [StringLoc.toBool, findNextVariable_pos] using h
  omega

/-- The two branches of `findNextVariable` in one statement, for a first `$` at index `p`. -/
theorem findNextVariable_at {s : Str} {p : Nat} (hp : s[p]? = some '$')
    (hfirst : ∀ i, i < p → s[i]? ≠ some '$') (hlen : s.length ≤ npos) :
    findNextVariable s =
      if s[p + 1]? = some '$' then { pos := p, length := 2 }
      else { pos := p, length := 1 + ((s.drop (p + 1)).takeWhile isVarChar).length } := by
  have hfind := find_eq_of_first hp hfirst
  obtain ⟨hlt, _⟩ := List.getElem?_eq_some.mp hp
  split
  · rename_i hnext
    exact findNextVariable_of_escape hfind (by omega) hnext
  · rename_i hnext
    exact findNextVariable_of_not_escape hfind hlt hlen hnext

/-- The scanner after a `$`-free prefix: the placeholder found in `v` is found in `u ++ v` at
the position shifted by the length of `u`, with the same length. -/
theorem findNextVariable_append_no_marker {u v : Str} (hu : '$' ∉ u)
    (hfound : (findNextVariable v).toBool = true) (hlen : (u ++ v).length ≤ npos) :
    findNextVariable (u ++ v) =
      { pos := u.length + (findNextVariable v).pos, length := (findNextVariable v).length } := by
  have hvlen : v.length ≤ npos := by
    simp only [List.length_append] at hlen
    omega
  have hp := findNextVariable_at_marker hfound
  have hfirst := findNextVariable_first hfound
  have hp2 : (u ++ v)[u.length + (findNextVariable v).pos]? = some '$' := by
    rw [List.getElem?_append_right (by omega), Nat.add_sub_cancel_left]
    exact hp
  have hfirst2 : ∀ i, i < u.length + (findNextVariable v).pos → (u ++ v)[i]? ≠ some '$' := by
    intro i hi
    by_cases hiu : i < u.length
    · rw [List.getElem?_append_left hiu]
      intro h
      exact hu (List.getElem?_mem h)
    · rw [List.getElem?_append_right (by omega)]
      exact hfirst _ (by omega)
  have hnext : (u ++ v)[u.length + (findNextVariable v).pos + 1]? =
      v[(findNextVariable v).pos + 1]? := by
    rw [List.getElem?_append_right (by omega)]
    congr 1
    omega
  have hdrop : (u ++ v).drop (u.length + (findNextVariable v).pos + 1) =
      v.drop ((findNextVariable v).pos + 1) := by
    rw [Nat.add_assoc, List.drop_append]
  rw [findNextVariable_at hp2 hfirst2 hlen, hnext, hdrop]
  have hv := findNextVariable_at hp hfirst hvlen
  split
  · rename_i h
    rw [if_pos h] at hv
    rw [hv]
  · rename_i h
    rw [if_neg h] at hv
    rw [hv]

/-- At a safe boundary nothing of the second part belongs to an identifier run. -/
theorem takeWhile_boundary {t2 : Str}
    (hv : ∀ c, t2.head? = some c → c ≠ '$' ∧ isVarChar c = false) :
    t2.takeWhile isVarChar = [] := by
  cases t2 with
  | nil => rfl
  | cons c cs => simp [List.takeWhile_cons, (hv c rfl).2]

/-- The scanner before a safe boundary: a placeholder found in `t1` is found in `t1 ++ t2` at
the same position and with the same length, when `t2` is empty or starts with a character that
is neither `$` nor an identifier character. -/
theorem findNextVariable_append_boundary {t1 t2 : Str}
    (hfound : (findNextVariable t1).toBool = true)
    (hv : ∀ c, t2.head? = some c → c ≠ '$' ∧ isVarChar c = false)
    (hlen : (t1 ++ t2).length ≤ npos) :
    findNextVariable (t1 ++ t2) = findNextVariable t1 := by
  have h1len : t1.length ≤ npos := by
    simp only [List.length_append] at hlen
    omega
  have hb := findNextVariable_bounds hfound
  have hp := findNextVariable_at_marker hfound
  have hfirst := findNextVariable_first hfound
  have hp2 : (t1 ++ t2)[(findNextVariable t1).pos]? = some '$' := by
    rw [List.getElem?_append_left hb.1]
    exact hp
  have hfirst2 : ∀ i, i < (findNextVariable t1).pos → (t1 ++ t2)[i]? ≠ some '$' := by
    intro i hi
    rw [List.getElem?_append_left (by omega)]
    exact hfirst i hi
  have hdrop : (t1 ++ t2).drop ((findNextVariable t1).pos + 1) =
      t1.drop ((findNextVariable t1).pos + 1) ++ t2 :=
    List.drop_append_of_le_length (by omega)
  have hrun : (((t1.drop ((findNextVariable t1).pos + 1)) ++ t2).takeWhile isVarChar).length =
      ((t1.drop ((findNextVariable t1).pos + 1)).takeWhile isVarChar).length := by
    rw [List.takeWhile_append, takeWhile_boundary hv]
    split
    · rename_i h
      rw [List.append_nil, h]
    · rfl
  have h1 := findNextVariable_at hp hfirst h1len
  rw [findNextVariable_at hp2 hfirst2 hlen, hdrop, hrun]
  by_cases hesc : t1[(findNextVariable t1).pos + 1]? = some '$'
  · have hesc2 : (t1 ++ t2)[(findNextVariable t1).pos + 1]? = some '$' := by
      rw [List.getElem?_append_left (List.getElem?_eq_some.mp hesc).1]
      exact hesc
    rw [if_pos hesc] at h1
    rw [if_pos hesc2]
    exact h1.symm
  · have hesc2 : (t1 ++ t2)[(findNextVariable t1).pos + 1]? ≠ some '$' := by
      by_cases hin : (findNextVariable t1).pos + 1 < t1.length
      · rw [List.getElem?_append_left hin]
        exact hesc
      · rw [List.getElem?_append_right (by omega)]
        have hz : (findNextVariable t1).pos + 1 - t1.length = 0 := by omega
        rw [hz]
        intro h
        have hh : t2.head? = some '$' := by
          cases t2 with
          | nil => simp at h
          | cons c cs => simpa using h
        exact (hv '$' hh).1 rfl
    rw [if_neg hesc] at h1
    rw [if_neg hesc2]
    exact h1.symm

/-- The expansion after a `$`-free prefix: the prefix, then the expansion of the rest. -/
theorem expand_append_no_marker (rewrite : Str → Option Str) (message : Str → Str)
    {u : Str} (v : Str) (hu : '$' ∉ u) (hlen : (u ++ v).length ≤ npos) :
    expand rewrite message (u ++ v) = (expand rewrite message v).map (fun e => u ++ e) := by
  have hvlen : v.length ≤ npos := by
    simp only [List.length_append] at hlen
    omega
  by_cases hfound : (findNextVariable v).toBool = true
  · have hb := findNextVariable_bounds hfound
    have hloc := findNextVariable_append_no_marker hu hfound hlen
    have hb2 : (findNextVariable (u ++ v)).toBool = true := by
      rw [hloc]
      simp only [StringLoc.toBool, bne_iff_ne, ne_eq]
      simp only [List.length_append] at hlen
      omega
    have hname : drop_front ((findNextVariable (u ++ v)).inStr (u ++ v)) =
        drop_front ((findNextVariable v).inStr v) := by
      rw [hloc]
      simp only [StringLoc.inStr, substr, List.drop_append]
    have hlit : substr (u ++ v) 0 (findNextVariable (u ++ v)).pos =
        u ++ substr v 0 (findNextVariable v).pos := by
      rw [hloc]
      simp only [substr, List.drop_zero, List.take_append]
    have hrest : substrFrom (u ++ v)
        ((findNextVariable (u ++ v)).pos + (findNextVariable (u ++ v)).length) =
        substrFrom v ((findNextVariable v).pos + (findNextVariable v).length) := by
      rw [hloc]
      simp only [substrFrom, Nat.add_assoc, List.drop_append]
    rw [expand_unfold rewrite message (u ++ v), expand_unfold rewrite message v]
    simp only [hb2, hfound, ↓reduceIte, hname, hlit, hrest]
    cases rewrite (drop_front ((findNextVariable v).inStr v)) with
    | none => rfl
    | some text =>
      simp only
      cases expand rewrite message
          (substrFrom v ((findNextVariable v).pos + (findNextVariable v).length)) <;>
        simp [Except.map, List.append_assoc]
  · have hf : (findNextVariable v).toBool = false := by simpa using hfound
    have hv := not_mem_of_not_found hf hvlen
    have huv : '$' ∉ u ++ v := by
      simp only [List.mem_append, not_or]
      exact ⟨hu, hv⟩
    rw [expand_of_not_mem _ _ huv, expand_of_not_mem _ _ hv]
    rfl

/-- The expansion across a safe boundary: the expansion of the first part, then the expansion
of the second part; the error of the first part if it fails, else the error of the second. -/
theorem expand_append_boundary (rewrite : Str → Option Str) (message : Str → Str) (t2 : Str)
    (hv : ∀ c, t2.head? = some c → c ≠ '$' ∧ isVarChar c = false) :
    ∀ (n : Nat) (t1 : Str), t1.length ≤ n → (t1 ++ t2).length ≤ npos →
      expand rewrite message (t1 ++ t2) =
        match expand rewrite message t1 with
        | Except.error e => Except.error e
        | Except.ok e1 => (expand rewrite message t2).map (fun e2 => e1 ++ e2) := by
  intro n
  induction n with
  | zero =>
    intro t1 ht1 hlen
    have : t1 = [] := List.length_eq_zero.mp (Nat.le_zero.mp ht1)
    subst this
    rw [expand_of_not_mem rewrite message (List.not_mem_nil '$')]
    simp only [List.nil_append]
    cases expand rewrite message t2 <;> rfl
  | succ n ih =>
    intro t1 ht1 hlen
    have h1len : t1.length ≤ npos := by
      simp only [List.length_append] at hlen
      omega
    by_cases hfound : (findNextVariable t1).toBool = true
    · have hb := findNextVariable_bounds hfound
      have hlt := length_substrFrom_lt hfound
      have hloc := findNextVariable_append_boundary hfound hv hlen
      have hname : drop_front ((findNextVariable t1).inStr (t1 ++ t2)) =
          drop_front ((findNextVariable t1).inStr t1) := by
        simp only [StringLoc.inStr, substr]
        rw [List.drop_append_of_le_length (by omega),
          List.take_append_of_le_length (by simp only [List.length_drop]; omega)]
      have hlit : substr (t1 ++ t2) 0 (findNextVariable t1).pos =
          substr t1 0 (findNextVariable t1).pos := by
        simp only [substr, List.drop_zero]
        rw [List.take_append_of_le_length (by omega)]
      have hrest : substrFrom (t1 ++ t2)
          ((findNextVariable t1).pos + (findNextVariable t1).length) =
          substrFrom t1 ((findNextVariable t1).pos + (findNextVariable t1).length) ++ t2 := by
        simp only [substrFrom]
        rw [List.drop_append_of_le_length hb.2.2]
      have hrlen : (substrFrom t1 ((findNextVariable t1).pos + (findNextVariable t1).length)
          ++ t2).length ≤ npos := by
        simp only [List.length_append] at hlen ⊢
        omega
      rw [expand_unfold rewrite message (t1 ++ t2), expand_unfold rewrite message t1, hloc]
      simp only [hfound, ↓reduceIte, hname, hlit, hrest]
      cases rewrite (drop_front ((findNextVariable t1).inStr t1)) with
      | none => rfl
      | some text =>
        simp only
        rw [ih _ (by omega) hrlen]
        cases expand rewrite message
            (substrFrom t1 ((findNextVariable t1).pos + (findNextVariable t1).length)) with
        | error e => rfl
        | ok e1 =>
          cases expand rewrite message t2 <;> simp [Except.map, List.append_assoc]
    · have hf : (findNextVariable t1).toBool = false := by simpa using hfound
      have h1 := not_mem_of_not_found hf h1len
      rw [expand_append_no_marker rewrite message t2 h1 hlen, expand_of_not_mem _ _ h1]

/-- Success and result of the expansion across a safe boundary. -/
theorem expand_compose (rewrite : Str → Option Str) (message : Str → Str) (t1 t2 : Str)
    (hv : ∀ c, t2.head? = some c → c ≠ '$' ∧ ¬ (isAlnum c = true ∨ c = '_'))
    (hlen : (t1 ++ t2).length ≤ npos) :
    ((∃ e, expand rewrite message (t1 ++ t2) = Except.ok e) ↔
      (∃ e1, expand rewrite message t1 = Except.ok e1) ∧
        (∃ e2, expand rewrite message t2 = Except.ok e2)) ∧
    (∀ e1 e2, expand rewrite message t1 = Except.ok e1 →
      expand rewrite message t2 = Except.ok e2 →
      expand rewrite message (t1 ++ t2) = Except.ok (e1 ++ e2)) ∧
    (∀ m, expand rewrite message t1 = Except.error m →
      expand rewrite message (t1 ++ t2) = Except.error m) ∧
    (∀ e1 m, expand rewrite message t1 = Except.ok e1 →
      expand rewrite message t2 = Except.error m →
      expand rewrite message (t1 ++ t2) = Except.error m) := by
  have hv2 : ∀ c, t2.head? = some c → c ≠ '$' ∧ isVarChar c = false := by
    intro c hc
    refine ⟨(hv c hc).1, ?_⟩
    cases hvc : isVarChar c with
    | false => rfl
    | true => exact absurd ((isVarChar_iff c).mp hvc) (hv c hc).2
  have h := expand_append_boundary rewrite message t2 hv2 t1.length t1 (Nat.le_refl _) hlen
  rw [h]
  cases h1 : expand rewrite message t1 with
  | error m1 =>
    refine ⟨⟨?_, ?_⟩, ?_, ?_, ?_⟩
    · rintro ⟨e, he⟩
      cases he
    · rintro ⟨⟨e1, he1⟩, _⟩
      cases he1
    · intro e1 e2 he1
      cases he1
    · intro m hm
      exact hm
    · intro e1 m he1
      cases he1
  | ok e1 =>
    cases h2 : expand rewrite message t2 with
    | error m2 =>
      refine ⟨⟨?_, ?_⟩, ?_, ?_, ?_⟩
      · rintro ⟨e, he⟩
        cases he
      · rintro ⟨_, ⟨e2, he2⟩⟩
        cases he2
      · intro e1 e2 _ he2
        cases he2
      · intro m hm
        cases hm
      · intro e3 m _ hm
        exact hm
    | ok e2 =>
      refine ⟨⟨fun _ => ⟨⟨e1, rfl⟩, ⟨e2, rfl⟩⟩, fun _ => ⟨e1 ++ e2, rfl⟩⟩, ?_, ?_, ?_⟩
      · intro e3 e4 he3 he4
        cases he3
        cases he4
        rfl
      · intro m hm
        cases hm
      · intro e3 m _ hm
        cases hm

/-- C23: for every definition, every template `t1` and every template `t2` that is empty or
begins with a character that is neither `$` nor alphanumeric nor `_`, the length of `t1 ++ t2`
fitting in a `size_t`: in both modes the expansion of `t1 ++ t2` succeeds exactly when the
expansions of `t1` and of `t2` both succeed, and it is then the expansion of `t1` followed by
the expansion of `t2`; otherwise it fails with the error of `t1`, or with the error of `t2`
when `t1` succeeds. -/
theorem C23_expansion_composes (op : Operator) (t1 t2 : Str)
    (hv : ∀ c, t2.head? = some c → c ≠ '$' ∧ ¬ (isAlnum c = true ∨ c = '_'))
    (hlen : (t1 ++ t2).length ≤ npos) :
    (((∃ e, expandBuilder op (t1 ++ t2) = Except.ok e) ↔
        (∃ e1, expandBuilder op t1 = Except.ok e1) ∧
          (∃ e2, expandBuilder op t2 = Except.ok e2)) ∧
      (∀ e1 e2, expandBuilder op t1 = Except.ok e1 → expandBuilder op t2 = Except.ok e2 →
        expandBuilder op (t1 ++ t2) = Except.ok (e1 ++ e2)) ∧
      (∀ m, expandBuilder op t1 = Except.error m →
        expandBuilder op (t1 ++ t2) = Except.error m) ∧
      (∀ e1 m, expandBuilder op t1 = Except.ok e1 → expandBuilder op t2 = Except.error m →
        expandBuilder op (t1 ++ t2) = Except.error m)) ∧
    (((∃ e, expandIntr op (t1 ++ t2) = Except.ok e) ↔
        (∃ e1, expandIntr op t1 = Except.ok e1) ∧ (∃ e2, expandIntr op t2 = Except.ok e2)) ∧
      (∀ e1 e2, expandIntr op t1 = Except.ok e1 → expandIntr op t2 = Except.ok e2 →
        expandIntr op (t1 ++ t2) = Except.ok (e1 ++ e2)) ∧
      (∀ m, expandIntr op t1 = Except.error m →
        expandIntr op (t1 ++ t2) = Except.error m) ∧
      (∀ e1 m, expandIntr op t1 = Except.ok e1 → expandIntr op t2 = Except.error m →
        expandIntr op (t1 ++ t2) = Except.error m)) :=
  ⟨expand_compose (builderRewrite op) (builderMessage op) t1 t2 hv hlen,
    expand_compose (intrRewrite op) (intrMessage op) t1 t2 hv hlen⟩

/-- Witness of C23: with operands `a` and `b`, the expansion of `f($a` followed by `, $b)` is
the expansion of `f($a` followed by the expansion of `, $b)`. -/
theorem C23_expansion_composes_witness :
    expandBuilder opAB ("f($a".toList ++ ", $b)".toList) =
      Except.ok ("f(moduleTranslation.lookupValue(op.get_a())".toList ++
        ", moduleTranslation.lookupValues(op.get_b()))".toList) ∧
    expandIntr opAB ("f($a".toList ++ ", $b)".toList) =
      Except.ok ("f(processValue(llvmOperands[0])".toList ++
        ", processValue(llvmOperands[1]))".toList) :=
  ⟨(C23_expansion_composes opAB "f($a".toList ", $b)".toList (by decide) (by decide)).1.2.1
      _ _ rfl rfl,
    (C23_expansion_composes opAB "f($a".toList ", $b)".toList (by decide) (by decide)).2.2.1
      _ _ rfl rfl⟩

/-! ## The assertion of the result branch (C24) -/

/-- The chain with the assertion in place agrees with the chain without it, except that it
stops at the assertion when the result branch is reached for a definition whose number of
results is not 1. -/
theorem intrRewriteAsserting_eq (op : Operator) (name : Str) :
    intrRewriteAsserting op name =
      if getArgumentIndex op name = none ∧ isResultName op name = true ∧
          op.getNumResults ≠ 1 then
        ChainOutcome.assertionFailed
      else
        match intrRewrite op name with
        | some text => ChainOutcome.text text
        | none => ChainOutcome.unknown := by
  unfold intrRewriteAsserting intrRewrite
  cases hidx : getArgumentIndex op name with
  | some i => simp
  | none =>
    cases hres : isResultName op name with
    | true =>
      by_cases hn : op.getNumResults = 1
      · simp [hn]
      · simp [hn]
    | false =>
      simp only [Bool.false_eq_true, ↓reduceIte, false_and, and_false]
      split_ifs <;> rfl

/-- The assertion of the result branch holds for every definition with exactly one result:
a name that reaches the branch is rewritten to `mapValue(inst)`. -/
theorem intrRewriteAsserting_one_result (op : Operator) (name : Str)
    (hone : op.getNumResults = 1) (harg : getArgumentIndex op name = none)
    (hres : isResultName op name = true) :
    intrRewriteAsserting op name = ChainOutcome.text "mapValue(inst)".toList := by
  simp [intrRewriteAsserting, harg, hres, hone]

/-- C24, at the failing input: for the definition with the two results `r1` and `r2` and the
`mlirBuilder` template `$r1 = f();`, the placeholder `$r1` is located, it is not an argument
name and it is a result name, so the result branch is reached although the operation has two
results: the assertion `op.getNumResults() == 1` fails; with assertions compiled out the code
writes `mapValue(inst)` and returns success. -/
theorem C24_assertion_fails_with_two_results :
    placeholderNames "$r1 = f();".toList = ["r1".toList] ∧
    getArgumentIndex opTwoResults "r1".toList = none ∧
    isResultName opTwoResults "r1".toList = true ∧
    opTwoResults.getNumResults = 2 ∧
    intrRewriteAsserting opTwoResults "r1".toList = ChainOutcome.assertionFailed ∧
    intrRewrite opTwoResults "r1".toList = some "mapValue(inst)".toList ∧
    emitOneIntrBuilder recTwoResults ⟨[], []⟩ =
      (LogicalResult.success,
        ⟨"if (intrinsicID == llvm::Intrinsic::two) \x7b\nmapValue(inst) = f();\n  return success();\n\x7d\n".toList,
          []⟩) := by
  refine ⟨rfl, rfl, rfl, rfl, rfl, rfl, rfl⟩

/-! ## Intrinsic mode with the assertion in place -/

/-- The names of the placeholders of a template, one step of the scan at a time. -/
theorem placeholderNames_unfold (t : Str) :
    placeholderNames t =
      if (findNextVariable t).toBool then
        drop_front ((findNextVariable t).inStr t) ::
          placeholderNames (substrFrom t ((findNextVariable t).pos + (findNextVariable t).length))
      else
        [] := by
  unfold placeholderNames
  conv_lhs => rw [scan_unfold]
  split <;> simp

/-- When the chain with the assertion in place writes a text, the chain without it writes the
same text. -/
theorem intrRewrite_of_text (op : Operator) (name text : Str)
    (h : intrRewriteAsserting op name = ChainOutcome.text text) :
    intrRewrite op name = some text := by
  rw [intrRewriteAsserting_eq] at h
  split at h
  · exact absurd h (by simp)
  · cases hr : intrRewrite op name with
    | some s =>
      rw [hr] at h
      simpa using h
    | none =>
      rw [hr] at h
      exact absurd h (by simp)

/-- When the chain with the assertion in place reaches its final `else`, so does the chain
without it. -/
theorem intrRewrite_of_unknown (op : Operator) (name : Str)
    (h : intrRewriteAsserting op name = ChainOutcome.unknown) :
    intrRewrite op name = none := by
  rw [intrRewriteAsserting_eq] at h
  split at h
  · exact absurd h (by simp)
  · cases hr : intrRewrite op name with
    | some s =>
      rw [hr] at h
      exact absurd h (by simp)
    | none => rfl

/-- The assertion fails exactly for a name that is no argument name and is a result name of
a definition whose number of results is not 1. -/
theorem intrRewriteAsserting_failed_iff (op : Operator) (name : Str) :
    intrRewriteAsserting op name = ChainOutcome.assertionFailed ↔
      getArgumentIndex op name = none ∧ isResultName op name = true ∧
        op.getNumResults ≠ 1 := by
  rw [intrRewriteAsserting_eq]
  constructor
  · intro h
    split at h
    · assumption
    · cases hr : intrRewrite op name with
      | some s =>
        rw [hr] at h
        exact absurd h (by simp)
      | none =>
        rw [hr] at h
        exact absurd h (by simp)
  · intro h
    rw [if_pos h]

/-- A name for which the chain without the assertion reaches its final `else` is no result
name, so the assertion is not met. -/
theorem intrRewriteAsserting_of_none (op : Operator) (name : Str)
    (h : intrRewrite op name = none) :
    intrRewriteAsserting op name = ChainOutcome.unknown := by
  rw [intrRewriteAsserting_eq, h]
  have hnot : ¬ (getArgumentIndex op name = none ∧ isResultName op name = true ∧
      op.getNumResults ≠ 1) := by
    rintro ⟨harg, hres, -⟩
    rw [intrRewrite_result op name harg hres] at h
    exact absurd h (by simp)
  rw [if_neg hnot]

/-- The loop with the assertion in place is aborted exactly on the templates on which the
assertion fails before any name is unknown, and otherwise returns what the loop without the
assertion returns. -/
theorem intrLoopAsserting_eq (op : Operator) :
    ∀ (n : Nat) (str bs : Str), str.length ≤ n →
      intrLoopAsserting op n str bs =
        if intrTrips op str then Run.aborted
        else Run.returned (expandLoop (intrRewrite op) (intrMessage op) n str bs) := by
  intro n
  induction n with
  | zero =>
    intro str bs h
    have hs : str = [] := List.length_eq_zero.mp (Nat.le_zero.mp h)
    subst hs
    rfl
  | succ n ih =>
    intro str bs h
    unfold intrLoopAsserting expandLoop intrTrips
    rw [placeholderNames_unfold]
    cases hfound : (findNextVariable str).toBool with
    | false => simp [hfound]
    | true =>
      simp only [hfound, ↓reduceIte, List.find?_cons]
      have hlen := length_substrFrom_lt hfound
      cases hout : intrRewriteAsserting op (drop_front ((findNextVariable str).inStr str)) with
      | text s =>
        have hr := intrRewrite_of_text op _ s hout
        have hstop : intrStops op (drop_front ((findNextVariable str).inStr str)) = false := by
          simp [intrStops, hout]
        rw [hstop, hr]
        simp only
        rw [ih _ _ (by omega)]
        rfl
      | unknown =>
        have hr := intrRewrite_of_unknown op _ hout
        have hstop : intrStops op (drop_front ((findNextVariable str).inStr str)) = true := by
          simp [intrStops, hout]
        rw [hstop, hr]
        simp [hout]
      | assertionFailed =>
        have hstop : intrStops op (drop_front ((findNextVariable str).inStr str)) = true := by
          simp [intrStops, hout]
        rw [hstop]
        simp [hout]

/-- The step bound of the loop with the assertion in place is never exhausted: every bound
that is at least the length of the unconsumed suffix gives the same outcome. -/
theorem intrLoopAsserting_fuel (op : Operator) (n m : Nat) (str bs : Str)
    (hn : str.length ≤ n) (hm : str.length ≤ m) :
    intrLoopAsserting op n str bs = intrLoopAsserting op m str bs := by
  rw [intrLoopAsserting_eq op n str bs hn, intrLoopAsserting_eq op m str bs hm,
    expandLoop_fuel _ _ n m str bs hn hm]

/-- The expansion with the assertion in place is aborted exactly when the loop is, and
otherwise is the expansion without the assertion. -/
theorem expandIntrAsserting_eq (op : Operator) (t : Str) :
    expandIntrAsserting op t =
      if intrTrips op t then Run.aborted else Run.returned (expandIntr op t) := by
  unfold expandIntrAsserting expandIntr expand
  rw [intrLoopAsserting_eq op _ _ _ (Nat.le_refl _)]
  cases intrTrips op t with
  | true => rfl
  | false =>
    simp only [Bool.false_eq_true, ↓reduceIte]
    cases expandLoop (intrRewrite op) (intrMessage op) t.length t [] with
    | error e => rfl
    | ok p => rfl

/-- The function `emitOneIntrBuilder` with the assertion in place is aborted exactly for the
definitions whose template makes the assertion fail, and otherwise returns what it returns
without the assertion. -/
theorem emitOneIntrBuilderAsserting_eq (d : Record) (st : Streams) :
    emitOneIntrBuilderAsserting d st =
      if intrAborts d then Run.aborted else Run.returned (emitOneIntrBuilder d st) := by
  unfold emitOneIntrBuilderAsserting emitOneIntrBuilder intrAborts
  cases d.mlirBuilder with
  | none => rfl
  | some t =>
    simp only
    by_cases hempty : t.isEmpty = true
    · have ht : t = [] := List.isEmpty_iff.mp hempty
      subst ht
      rfl
    · rw [if_neg hempty, if_neg hempty, intrLoopAsserting_eq d.op _ _ _ (Nat.le_refl _)]
      cases intrTrips d.op t with
      | true => rfl
      | false =>
        simp only [Bool.false_eq_true, ↓reduceIte]
        cases expandLoop (intrRewrite d.op) (intrMessage d.op) t.length t [] with
        | error e => rfl
        | ok p => rfl

/-- What a call of `emitOneIntrBuilder` returns with the assertion in place is what it
returns without it. -/
theorem emitOneIntrBuilderAsserting_returned (d : Record) (st : Streams)
    (r : LogicalResult × Streams) (h : emitOneIntrBuilderAsserting d st = Run.returned r) :
    intrAborts d = false ∧ r = emitOneIntrBuilder d st := by
  rw [emitOneIntrBuilderAsserting_eq] at h
  cases ha : intrAborts d with
  | true =>
    rw [ha] at h
    exact absurd h (by simp)
  | false =>
    rw [ha] at h
    simp only [Bool.false_eq_true, ↓reduceIte, Run.returned.injEq] at h
    exact ⟨rfl, h.symm⟩

/-- Whether a call of `emitOneIntrBuilder` is aborted, what it returns and what it writes do
not depend on what the streams hold, and what it writes is appended to them. -/
theorem emitOneIntrBuilderAsserting_append (d : Record) (st : Streams) :
    emitOneIntrBuilderAsserting d st =
      (emitOneIntrBuilderAsserting d ⟨[], []⟩).map
        (fun r => (r.1, ⟨st.os ++ r.2.os, st.errs ++ r.2.errs⟩)) := by
  rw [emitOneIntrBuilderAsserting_eq d st, emitOneIntrBuilderAsserting_eq d ⟨[], []⟩]
  cases intrAborts d with
  | true => rfl
  | false =>
    simp only [Bool.false_eq_true, ↓reduceIte, Run.map]
    rw [emitOneIntrBuilder_append d st]

/-- The assertion does not fail on a template in which it fails for no name in front of the
leftmost unknown name. -/
theorem intrTrips_eq_false (op : Operator) (t : Str)
    (h : ∀ n ∈ (placeholderNames t).takeWhile (fun n => !intrUnknown op n),
      intrRewriteAsserting op n ≠ ChainOutcome.assertionFailed) :
    intrTrips op t = false := by
  unfold intrTrips
  generalize placeholderNames t = l at h
  induction l with
  | nil => rfl
  | cons a l ih =>
    cases hu : intrUnknown op a with
    | true =>
      have hnone : intrRewrite op a = none := by
        rw [← Option.isNone_iff_eq_none, intrRewrite_isNone, hu]
      have hout := intrRewriteAsserting_of_none op a hnone
      have hstop : intrStops op a = true := by simp [intrStops, hout]
      simp [List.find?_cons, hstop, hout]
    | false =>
      have hmem : a ∈ (a :: l).takeWhile (fun n => !intrUnknown op n) := by
        simp [List.takeWhile_cons, hu]
      have hnf := h a hmem
      have hstop : intrStops op a = false := by
        cases hout : intrRewriteAsserting op a with
        | text s => simp [intrStops, hout]
        | unknown =>
          have hnone := intrRewrite_of_unknown op a hout
          have := intrRewrite_isNone op a
          rw [hnone, hu] at this
          exact absurd this (by simp)
        | assertionFailed => exact absurd hout hnf
      rw [List.find?_cons, hstop]
      apply ih
      intro n hn
      apply h
      simp only [List.takeWhile_cons, hu, Bool.not_false, ↓reduceIte, List.mem_cons]
      exact Or.inr hn

/-- The assertion is not met on the way to a located placeholder for which the chain writes
a text: the loop is aborted on the template exactly when it is on the rest. -/
theorem intrTrips_located (op : Operator) (t text : Str)
    (hfound : (findNextVariable t).toBool = true)
    (hr : intrRewriteAsserting op (drop_front ((findNextVariable t).inStr t)) =
      ChainOutcome.text text) :
    intrTrips op t =
      intrTrips op (substrFrom t ((findNextVariable t).pos + (findNextVariable t).length)) := by
  unfold intrTrips
  conv_lhs => rw [placeholderNames_unfold]
  have hstop : intrStops op (drop_front ((findNextVariable t).inStr t)) = false := by
    simp [intrStops, hr]
  simp only [hfound, ↓reduceIte, List.find?_cons, hstop]

/-- The expansion with the assertion in place at a located placeholder for which the chain
writes a text. -/
theorem expandIntrAsserting_located (op : Operator) (t text : Str)
    (hfound : (findNextVariable t).toBool = true)
    (hr : intrRewriteAsserting op (drop_front ((findNextVariable t).inStr t)) =
      ChainOutcome.text text) :
    expandIntrAsserting op t =
      (expandIntrAsserting op
        (substrFrom t ((findNextVariable t).pos + (findNextVariable t).length))).map
          (fun r => r.map (fun e => substr t 0 (findNextVariable t).pos ++ text ++ e)) := by
  rw [expandIntrAsserting_eq, expandIntrAsserting_eq, intrTrips_located op t text hfound hr]
  cases intrTrips op (substrFrom t ((findNextVariable t).pos + (findNextVariable t).length)) with
  | true => rfl
  | false =>
    simp only [Bool.false_eq_true, ↓reduceIte, Run.map]
    unfold expandIntr
    rw [expand_located _ _ t text hfound (intrRewrite_of_text op _ text hr)]


/-- The driver `emitIntrBuilders` with the assertion in place, in closed form: it returns
`false` after the blocks of all definitions when generation returns success for each of them;
otherwise it stops at the first definition for which generation does not return success, and
is aborted when that generation is, or returns `true` after the blocks of the definitions in
front of it and its error. -/
theorem emitIntrBuildersAsserting_eq (defs : List Record) :
    ∀ st : Streams, emitIntrBuildersAsserting defs st =
      match defs.find? (fun d => !intrSucceedsAsserting d) with
      | none =>
        Run.returned (false, ⟨st.os ++ (defs.map intrBlockAsserting).flatten, st.errs⟩)
      | some d =>
        if emitOneIntrBuilderAsserting d ⟨[], []⟩ = Run.aborted then Run.aborted
        else
          Run.returned
            (true,
              ⟨st.os ++
                  ((defs.takeWhile intrSucceedsAsserting).map intrBlockAsserting).flatten,
                st.errs ++ intrDiagnosticAsserting d⟩) := by
  induction defs with
  | nil => intro st; simp [emitIntrBuildersAsserting]
  | cons d defs ih =>
    intro st
    unfold emitIntrBuildersAsserting
    rw [emitOneIntrBuilderAsserting_append d st]
    cases hout : emitOneIntrBuilderAsserting d ⟨[], []⟩ with
    | aborted =>
      have hs : intrSucceedsAsserting d = false := by simp [intrSucceedsAsserting, hout]
      simp [Run.map, List.find?_cons, hs, hout]
    | returned r =>
      obtain ⟨hna, hr⟩ := emitOneIntrBuilderAsserting_returned d ⟨[], []⟩ r hout
      cases hres : r.1 with
      | success =>
        have hs : intrSucceedsAsserting d = true := by simp [intrSucceedsAsserting, hout, hres]
        have herrs : r.2.errs = [] := by
          rw [hr]
          exact emitOneIntrBuilder_success_errs d ⟨[], []⟩ (hr ▸ hres)
        have hb : intrBlockAsserting d = r.2.os := by simp [intrBlockAsserting, hout]
        simp only [Run.map, hres, failed, herrs, List.append_nil]
        rw [ih]
        have hne : (LogicalResult.success == LogicalResult.failure) = false := rfl
        simp only [List.find?_cons, hs, Bool.not_true, List.takeWhile_cons, List.map_cons,
          List.flatten_cons, hb, List.append_assoc, hne, Bool.false_eq_true, ↓reduceIte]
      | failure =>
        have hs : intrSucceedsAsserting d = false := by simp [intrSucceedsAsserting, hout, hres]
        have hos : r.2.os = [] := by
          rw [hr]
          exact emitOneIntrBuilder_failure_os d ⟨[], []⟩ (hr ▸ hres)
        have hd : intrDiagnosticAsserting d = r.2.errs := by simp [intrDiagnosticAsserting, hout]
        simp [Run.map, hres, failed, hos, List.find?_cons, hs, hout, hd]

/-! ## The error of the leftmost unknown name (C6) -/

/-- C6: when expansion fails on an unclassifiable placeholder, the error written to the
diagnostic stream is `<name> is neither an argument nor a result of <operation name>` in
builder mode and `<name> is not a known keyword, argument, or result of <operation name>` in
intrinsic mode, where `<name>` is the name, without its `$`, of the leftmost placeholder of the
template that cannot be classified; and a failure on a present template is always of this
kind.  Intrinsic mode is taken with the assertion of its result branch in place: the error is
reported when the assertion fails for no name in front of the leftmost unknown one, and
whenever the call returns failure on a present template, this error is what it has
reported. -/
theorem C6_error_names_leftmost_unknown (record : Record) (st : Streams) (t : Str) :
    (record.llvmBuilder = some t →
      (∀ name, (placeholderNames t).find? (builderUnknown record.op) = some name →
        emitOneBuilder record st =
          (LogicalResult.failure,
            { os := st.os
              errs := st.errs ++
                (name ++ " is neither an argument nor a result of ".toList ++
                  record.op.getOperationName) ++ "\n".toList })) ∧
      ((emitOneBuilder record st).1 = LogicalResult.failure →
        ∃ name, (placeholderNames t).find? (builderUnknown record.op) = some name)) ∧
    (record.mlirBuilder = some t →
      (∀ name, (placeholderNames t).find? (intrUnknown record.op) = some name →
        (∀ n ∈ (placeholderNames t).takeWhile (fun n => !intrUnknown record.op n),
          intrRewriteAsserting record.op n ≠ ChainOutcome.assertionFailed) →
        emitOneIntrBuilderAsserting record st =
          Run.returned
            (LogicalResult.failure,
              { os := st.os
                errs := st.errs ++
                  (name ++ " is not a known keyword, argument, or result of ".toList ++
                    record.op.getOperationName) ++ "\n".toList })) ∧
      (∀ r, emitOneIntrBuilderAsserting record st = Run.returned r →
        r.1 = LogicalResult.failure →
        ∃ name, (placeholderNames t).find? (intrUnknown record.op) = some name ∧
          r =
            (LogicalResult.failure,
              { os := st.os
                errs := st.errs ++
                  (name ++ " is not a known keyword, argument, or result of ".toList ++
                    record.op.getOperationName) ++ "\n".toList }))) := by
  constructor
  · intro h
    have hscan := emitOneBuilder_scan record st t h
    constructor
    · intro name hf
      rw [hscan, hf]
      rfl
    · intro hfail
      cases hf : List.find? (builderUnknown record.op) (placeholderNames t) with
      | some name => exact ⟨name, rfl⟩
      | none =>
        rw [hscan, hf] at hfail
        simp only at hfail
        split at hfail <;> exact absurd hfail success_ne_failure
  · intro h
    have hscan := emitOneIntrBuilder_scan record st t h
    constructor
    · intro name hf hassert
      have hna : intrAborts record = false := by
        unfold intrAborts
        rw [h]
        exact intrTrips_eq_false record.op t hassert
      rw [emitOneIntrBuilderAsserting_eq, hna, hscan, hf]
      rfl
    · intro r hret hfail
      obtain ⟨-, hr⟩ := emitOneIntrBuilderAsserting_returned record st r hret
      subst hr
      cases hf : List.find? (intrUnknown record.op) (placeholderNames t) with
      | some name =>
        refine ⟨name, rfl, ?_⟩
        rw [hscan, hf]
        rfl
      | none =>
        rw [hscan, hf] at hfail
        simp only at hfail
        split at hfail <;> exact absurd hfail success_ne_failure

/-- Witness of C6: for the template `f($x, $zz, $ww)` with operands `x` and `y`, both modes
report the name `zz` of the leftmost unclassifiable placeholder and the operation name; so
does intrinsic mode for the template `$res = f($x, $zz);` of a definition with the one result
`res`, whose name comes in front of `zz`. -/
theorem C6_error_names_leftmost_unknown_witness :
    emitOneBuilder recBad ⟨[], []⟩ =
      (LogicalResult.failure,
        ⟨[], "zz is neither an argument nor a result of llvm.xy\n".toList⟩) ∧
    emitOneIntrBuilderAsserting recBad ⟨[], []⟩ =
      Run.returned
        (LogicalResult.failure,
          ⟨[], "zz is not a known keyword, argument, or result of llvm.xy\n".toList⟩) ∧
    emitOneIntrBuilderAsserting recOneResultBad ⟨[], []⟩ =
      Run.returned
        (LogicalResult.failure,
          ⟨[], "zz is not a known keyword, argument, or result of llvm.one\n".toList⟩) :=
  ⟨((C6_error_names_leftmost_unknown recBad ⟨[], []⟩ "f($x, $zz, $ww)".toList).1 rfl).1
      "zz".toList (by decide),
    ((C6_error_names_leftmost_unknown recBad ⟨[], []⟩ "f($x, $zz, $ww)".toList).2 rfl).1
      "zz".toList (by decide) (by decide),
    ((C6_error_names_leftmost_unknown recOneResultBad ⟨[], []⟩
      "$res = f($x, $zz);".toList).2 rfl).1 "zz".toList (by decide) (by decide)⟩

/-! ## Names before keywords (C14) -/

/-- C14: the names of a definition are resolved before the keywords, in the order operand,
attribute, result: in builder mode a name of an operand is rewritten to a lookup, a name of an
attribute that is no operand to `op.<getter>()`, also when it is a result name, and a name of a
result that is neither to the `mapValue` form, whatever the spelling of the name, a keyword
included (an attribute named `_location` does not give `opInst.getLoc()`); in intrinsic mode,
taken with the assertion of its result branch in place, an argument name is rewritten to
`processValue(llvmOperands[i])`, and a result name that is no argument takes the result branch,
which writes `mapValue(inst)` for a definition with one result and fails its assertion
otherwise: in no case the text of a keyword.  The expansion at a located placeholder uses the
text the chain produces. -/
theorem C14_own_names_before_keywords (op : Operator) (name : Str) :
    (isOperandName op name = true →
      builderRewrite op name =
        some (if isVariadicOperandName op name then
          "moduleTranslation.lookupValues(op.".toList ++ op.getGetterName name ++ "())".toList
        else
          "moduleTranslation.lookupValue(op.".toList ++ op.getGetterName name ++
            "())".toList)) ∧
    (isOperandName op name = false → isAttributeName op name = true →
      builderRewrite op name =
        some ("op.".toList ++ op.getGetterName name ++ "()".toList)) ∧
    (isOperandName op name = false → isAttributeName op name = false →
      isResultName op name = true →
      builderRewrite op name =
        some ("moduleTranslation.mapValue(op.".toList ++ op.getGetterName name ++
          "())".toList)) ∧
    (isOperandName op "_location".toList = false →
      isAttributeName op "_location".toList = true →
      builderRewrite op "_location".toList ≠ some "opInst.getLoc()".toList) ∧
    (∀ i, getArgumentIndex op name = some i →
      intrRewriteAsserting op name =
        ChainOutcome.text
          ("processValue(llvmOperands[".toList ++ (Nat.repr i).toList ++ "])".toList)) ∧
    (getArgumentIndex op name = none → isResultName op name = true →
      intrRewriteAsserting op name =
        if op.getNumResults = 1 then ChainOutcome.text "mapValue(inst)".toList
        else ChainOutcome.assertionFailed) ∧
    (∀ t text : Str, (findNextVariable t).toBool = true →
      drop_front ((findNextVariable t).inStr t) = name →
      (builderRewrite op name = some text →
        expandBuilder op t =
          (expandBuilder op
            (substrFrom t ((findNextVariable t).pos + (findNextVariable t).length))).map
              (fun e => substr t 0 (findNextVariable t).pos ++ text ++ e)) ∧
      (intrRewriteAsserting op name = ChainOutcome.text text →
        expandIntrAsserting op t =
          (expandIntrAsserting op
            (substrFrom t ((findNextVariable t).pos + (findNextVariable t).length))).map
              (fun r => r.map (fun e => substr t 0 (findNextVariable t).pos ++ text ++ e)))) := by
  refine ⟨builderRewrite_operand op name, builderRewrite_attribute op name,
    builderRewrite_result op name, ?_, ?_, ?_, ?_⟩
  · intro hop hattr
    rw [builderRewrite_attribute op _ hop hattr]
    intro h
    have h2 := congrArg (fun l : Str => l[2]?) (Option.some.inj h)
    simp at h2
  · intro i harg
    simp [intrRewriteAsserting, harg]
  · intro harg hres
    by_cases hone : op.getNumResults = 1
    · simp [intrRewriteAsserting, harg, hres, hone]
    · simp [intrRewriteAsserting, harg, hres, hone]
  · intro t text hfound hname
    exact ⟨fun hr => expand_located _ _ t text hfound (hname ▸ hr),
      fun hr => expandIntrAsserting_located op t text hfound (hname ▸ hr)⟩

/-- Witness of C14: in builder mode an operand named `_numOperands` is looked up, an attribute
named `_location` is read through its accessor, a name `r` of an attribute and of a result
expands as the attribute, and a result named `_hasResult` is mapped; in intrinsic mode the
arguments `_int_attr` and `_location` are processed by their index and the one result
`_builder` maps the instruction. -/
theorem C14_own_names_before_keywords_witness :
    builderRewrite opKeywordNames "_numOperands".toList =
      some "moduleTranslation.lookupValue(op.get__numOperands())".toList ∧
    builderRewrite opKeywordNames "_location".toList = some "op.get__location()".toList ∧
    builderRewrite opKeywordNames "r".toList = some "op.get_r()".toList ∧
    builderRewrite opKeywordNames "_hasResult".toList =
      some "moduleTranslation.mapValue(op.get__hasResult())".toList ∧
    builderRewrite opKeywordNames "_location".toList ≠ some "opInst.getLoc()".toList ∧
    intrRewriteAsserting opKeywordIntr "_int_attr".toList =
      ChainOutcome.text "processValue(llvmOperands[0])".toList ∧
    intrRewriteAsserting opKeywordIntr "_location".toList =
      ChainOutcome.text "processValue(llvmOperands[1])".toList ∧
    intrRewriteAsserting opKeywordIntr "_builder".toList =
      ChainOutcome.text "mapValue(inst)".toList ∧
    expandBuilder opKeywordNames "n($_numOperands)".toList =
      Except.ok "n(moduleTranslation.lookupValue(op.get__numOperands()))".toList ∧
    expandIntrAsserting opKeywordIntr "$_builder = f($_location);".toList =
      Run.returned (Except.ok "mapValue(inst) = f(processValue(llvmOperands[1]));".toList) :=
  ⟨(C14_own_names_before_keywords opKeywordNames "_numOperands".toList).1 rfl,
    (C14_own_names_before_keywords opKeywordNames "_location".toList).2.1 rfl rfl,
    (C14_own_names_before_keywords opKeywordNames "r".toList).2.1 rfl rfl,
    (C14_own_names_before_keywords opKeywordNames "_hasResult".toList).2.2.1 rfl rfl rfl,
    (C14_own_names_before_keywords opKeywordNames "_location".toList).2.2.2.1 rfl rfl,
    (C14_own_names_before_keywords opKeywordIntr "_int_attr".toList).2.2.2.2.1 0 rfl,
    (C14_own_names_before_keywords opKeywordIntr "_location".toList).2.2.2.2.1 1 rfl,
    (C14_own_names_before_keywords opKeywordIntr "_builder".toList).2.2.2.2.2.1 rfl rfl,
    ((C14_own_names_before_keywords opKeywordNames "_numOperands".toList).2.2.2.2.2.2
      "n($_numOperands)".toList "moduleTranslation.lookupValue(op.get__numOperands())".toList
      rfl rfl).1 rfl,
    ((C14_own_names_before_keywords opKeywordIntr "_builder".toList).2.2.2.2.2.2
      "$_builder = f($_location);".toList "mapValue(inst)".toList rfl rfl).2 rfl⟩

/-! ## The run of the drivers (C19) -/

/-- C19: `emitBuilders`, and likewise `emitIntrBuilders`, over a list of definitions reports
success (returns `false`) if and only if generation succeeds for every definition, and then
the output is the concatenation, in the given order, of the blocks of the definitions with
nothing added; it reports failure (returns `true`) if and only if some definition fails, and
in every case the output is the concatenation of the blocks of the definitions before the
first failing one and the diagnostic stream receives the error of the first failing
definition only: no later definition is processed.  Whether generation succeeds for a
definition, and its block, do not depend on the streams.  The driver `emitIntrBuilders` is
taken with the assertion of `emitOneIntrBuilder` in place: it stops at the first definition
for which generation does not return success, and it returns `true` when that generation
returns failure and is aborted when that generation is aborted by the assertion. -/
theorem C19_run_of_the_drivers (defs : List Record) (st : Streams) :
    (((emitBuilders defs st).1 = false ↔ ∀ d ∈ defs, builderSucceeds d = true) ∧
      ((∀ d ∈ defs, builderSucceeds d = true) →
        (emitBuilders defs st).2.os = st.os ++ (defs.map builderBlock).flatten) ∧
      ((emitBuilders defs st).1 = true ↔ ∃ d ∈ defs, builderSucceeds d = false) ∧
      (emitBuilders defs st).2.os =
        st.os ++ ((defs.takeWhile builderSucceeds).map builderBlock).flatten ∧
      (emitBuilders defs st).2.errs =
        st.errs ++
          (match defs.find? (fun d => !builderSucceeds d) with
          | some d => builderDiagnostic d
          | none => []) ∧
      (∀ (d : Record) (st2 : Streams),
        ((emitOneBuilder d st2).1 = LogicalResult.success ↔ builderSucceeds d = true) ∧
        (emitOneBuilder d st2).2.os = st2.os ++ builderBlock d)) ∧
    (((∃ st2, emitIntrBuildersAsserting defs st = Run.returned (false, st2)) ↔
        ∀ d ∈ defs, intrSucceedsAsserting d = true) ∧
      ((∀ d ∈ defs, intrSucceedsAsserting d = true) →
        emitIntrBuildersAsserting defs st =
          Run.returned
            (false, ⟨st.os ++ (defs.map intrBlockAsserting).flatten, st.errs⟩)) ∧
      ((∃ st2, emitIntrBuildersAsserting defs st = Run.returned (true, st2)) ↔
        ∃ d, defs.find? (fun d => !intrSucceedsAsserting d) = some d ∧
          emitOneIntrBuilderAsserting d ⟨[], []⟩ ≠ Run.aborted) ∧
      (∀ d, defs.find? (fun d => !intrSucceedsAsserting d) = some d →
        emitOneIntrBuilderAsserting d ⟨[], []⟩ ≠ Run.aborted →
        emitIntrBuildersAsserting defs st =
          Run.returned
            (true,
              ⟨st.os ++
                  ((defs.takeWhile intrSucceedsAsserting).map intrBlockAsserting).flatten,
                st.errs ++ intrDiagnosticAsserting d⟩)) ∧
      (emitIntrBuildersAsserting defs st = Run.aborted ↔
        ∃ d, defs.find? (fun d => !intrSucceedsAsserting d) = some d ∧
          emitOneIntrBuilderAsserting d ⟨[], []⟩ = Run.aborted) ∧
      (∀ (d : Record) (st2 : Streams),
        emitOneIntrBuilderAsserting d st2 =
          (emitOneIntrBuilderAsserting d ⟨[], []⟩).map
            (fun r => (r.1, ⟨st2.os ++ r.2.os, st2.errs ++ r.2.errs⟩)))) := by
  constructor
  · have h := emitBuilders_eq defs st
    refine ⟨?_, ?_, ?_, congrArg (fun r => r.2.os) h, congrArg (fun r => r.2.errs) h, ?_⟩
    · rw [h]
      simp [List.all_eq_true]
    · intro hall
      rw [h, takeWhile_of_all _ _ hall]
    · rw [h]
      simp [List.all_eq_false]
    · intro d st2
      rw [emitOneBuilder_append d st2]
      simp [builderSucceeds, builderBlock]
  · have h := emitIntrBuildersAsserting_eq defs st
    have hnone : defs.find? (fun d => !intrSucceedsAsserting d) = none ↔
        ∀ d ∈ defs, intrSucceedsAsserting d = true := by
      simp [List.find?_eq_none]
    refine ⟨?_, ?_, ?_, ?_, ?_, emitOneIntrBuilderAsserting_append⟩
    · rw [← hnone]
      cases hf : defs.find? (fun d => !intrSucceedsAsserting d) with
      | none =>
        simp only [hf] at h
        exact ⟨fun _ => rfl, fun _ => ⟨_, h⟩⟩
      | some d =>
        simp only [hf] at h
        refine ⟨?_, fun hc => absurd hc (by simp)⟩
        rintro ⟨st2, hst2⟩
        rw [hst2] at h
        split at h <;> simp at h
    · intro hall
      simp only [h, hnone.mpr hall]
    · cases hf : defs.find? (fun d => !intrSucceedsAsserting d) with
      | none =>
        simp only [hf] at h
        refine ⟨?_, fun ⟨d, hd, _⟩ => absurd hd (by simp)⟩
        rintro ⟨st2, hst2⟩
        rw [hst2] at h
        simp at h
      | some d =>
        simp only [hf] at h
        constructor
        · rintro ⟨st2, hst2⟩
          refine ⟨d, rfl, fun hab => ?_⟩
          rw [hst2, if_pos hab] at h
          simp at h
        · rintro ⟨d2, hd2, hna⟩
          obtain rfl : d = d2 := Option.some.inj hd2
          rw [if_neg hna] at h
          exact ⟨_, h⟩
    · intro d hf hna
      simp only [h, hf, if_neg hna]
    · cases hf : defs.find? (fun d => !intrSucceedsAsserting d) with
      | none =>
        simp only [hf] at h
        refine ⟨fun hab => ?_, fun ⟨d, hd, _⟩ => absurd hd (by simp)⟩
        rw [hab] at h
        simp at h
      | some d =>
        simp only [hf] at h
        constructor
        · intro hab
          refine ⟨d, rfl, ?_⟩
          by_contra hna
          rw [hab, if_neg hna] at h
          simp at h
        · rintro ⟨d2, hd2, hab⟩
          obtain rfl : d = d2 := Option.some.inj hd2
          rw [h, if_pos hab]

set_option maxRecDepth 8000 in
/-- Witness of C19: for the definitions `build($x, $y)`, `ret();`, `f($x, $zz, $ww)`, `ret();`
in this order the driver `emitBuilders` reports failure, the output holds the blocks of the
first two, and the diagnostic stream holds the error of the third.  The driver
`emitIntrBuilders` returns `false` after the blocks of `build($x, $y)` and of
`$res = f($x);`, whose definition has one result; it returns `true` at the unknown name of
`$res = f($x, $zz);`; and it is aborted at the template `$r1 = f();` of a definition with two
results. -/
theorem C19_run_of_the_drivers_witness :
    (emitBuilders [recBuild, recRet, recBad, recRet] ⟨[], []⟩).1 = true ∧
    (emitBuilders [recBuild, recRet, recBad, recRet] ⟨[], []⟩).2.os =
      builderBlock recBuild ++ builderBlock recRet ∧
    (emitBuilders [recBuild, recRet, recBad, recRet] ⟨[], []⟩).2.errs =
      "zz is neither an argument nor a result of llvm.xy\n".toList ∧
    (emitBuilders [recBuild, recRet] ⟨[], []⟩).1 = false ∧
    (emitBuilders [recBuild, recRet] ⟨[], []⟩).2.os =
      builderBlock recBuild ++ builderBlock recRet ∧
    emitIntrBuildersAsserting [recBuild, recOneResult] ⟨[], []⟩ =
      Run.returned
        (false,
          ⟨"if (intrinsicID == llvm::Intrinsic::first) \x7b\nbuild(processValue(llvmOperands[0]), processValue(llvmOperands[1]))\n  return success();\n\x7d\nif (intrinsicID == llvm::Intrinsic::one) \x7b\nmapValue(inst) = f(processValue(llvmOperands[0]));\n  return success();\n\x7d\n".toList,
            []⟩) ∧
    emitIntrBuildersAsserting [recBuild, recOneResult, recOneResultBad, recRet] ⟨[], []⟩ =
      Run.returned
        (true,
          ⟨intrBlockAsserting recBuild ++ intrBlockAsserting recOneResult,
            "zz is not a known keyword, argument, or result of llvm.one\n".toList⟩) ∧
    emitIntrBuildersAsserting [recBuild, recTwoResults, recRet] ⟨[], []⟩ = Run.aborted :=
  ⟨(C19_run_of_the_drivers [recBuild, recRet, recBad, recRet] ⟨[], []⟩).1.2.2.1.mpr
      ⟨recBad, by simp, rfl⟩,
    ((C19_run_of_the_drivers [recBuild, recRet, recBad, recRet] ⟨[], []⟩).1.2.2.2.1).trans
      rfl,
    ((C19_run_of_the_drivers [recBuild, recRet, recBad, recRet] ⟨[], []⟩).1.2.2.2.2.1).trans
      (by decide),
    (C19_run_of_the_drivers [recBuild, recRet] ⟨[], []⟩).1.1.mpr (by decide),
    ((C19_run_of_the_drivers [recBuild, recRet] ⟨[], []⟩).1.2.1 (by decide)).trans
      rfl,
    ((C19_run_of_the_drivers [recBuild, recOneResult] ⟨[], []⟩).2.2.1 (by decide)).trans
      rfl,
    ((C19_run_of_the_drivers [recBuild, recOneResult, recOneResultBad, recRet]
      ⟨[], []⟩).2.2.2.2.1 recOneResultBad rfl (by decide)).trans rfl,
    (C19_run_of_the_drivers [recBuild, recTwoResults, recRet] ⟨[], []⟩).2.2.2.2.2.1.mpr
      ⟨recTwoResults, rfl, rfl⟩⟩

end LLVMIRConversionGen
